import Mathlib

/-!
# BinanceChain node: transaction admission (common/tx/ante.go),
# market-data publication (app/pub/msgs.go, app/pub/publisher_kafka.go),
# dex queries (plugins/dex/abci.go) and order locking (app/ordertx_test.go)

A shallow embedding of the Go sources.  Go `int64` values are integers
with two's-complement wrap-around made explicit (`GoInt64.wrap`).
Stateful code (the account store behind `auth.AccountMapper`, the gas
meter and the values carried by `sdk.Context`) is modelled by explicit
state passing; a Go panic is an explicit outcome.
-/

namespace BinanceChain

/-! ## Go int64 arithmetic -/

namespace GoInt64

/-- Two's-complement reduction of an integer into the int64 range
`[-2^63, 2^63)`. -/
def wrap (x : Int) : Int :=
  (x + 9223372036854775808) % 18446744073709551616 - 9223372036854775808

/-- Go `a + b` on int64. -/
def add (a b : Int) : Int := wrap (a + b)

/-- Go `a - b` on int64. -/
def sub (a b : Int) : Int := wrap (a - b)

/-- Go unary `-a` on int64. -/
def neg (a : Int) : Int := wrap (-a)

/-- Go `a * b` on int64. -/
def mul (a b : Int) : Int := wrap (a * b)

/-- The value is representable as an int64. -/
def InRange (x : Int) : Prop :=
  -9223372036854775808 ≤ x ∧ x < 9223372036854775808

instance (x : Int) : Decidable (InRange x) := by
  unfold InRange; exact inferInstance

end GoInt64

/-! ## app/pub/msgs.go: Order and its effect on order-book depth -/

namespace pub

/-- Modelled from the spec: `orderPkg.ChangeType` (declared in
plugins/dex/order, whose source is missing) is the order status, a small
unsigned integer type whose named constants are the fixed enumeration {Ack,
PartialFill, FullyFill, Expired, IocNoFill, Canceled}.  Any other value of
the underlying integer type is `unrecognized`. -/
inductive ChangeType where
  | Ack
  | Canceled
  | Expired
  | IocNoFill
  | PartialFill
  | FullyFill
  | unrecognized (code : Nat)
  deriving DecidableEq, Repr

/-- The `Order` struct of app/pub/msgs.go.  `currentExecutionType`
(`orderPkg.ExecutionType`) is kept as its integer code. -/
structure Order where
  Symbol : String
  Status : ChangeType
  OrderId : String
  TradeId : String
  Owner : String
  Side : Int
  OrderType : Int
  Price : Int
  Qty : Int
  lastExecutedPrice : Int
  lastExecutedQty : Int
  cumQty : Int
  fee : String
  orderCreationTime : Int
  transactionTime : Int
  timeInForce : Int
  currentExecutionType : Int
  txHash : String
  deriving DecidableEq, Repr

/-- `func (msg *Order) effectQtyToOrderBook() int64`.  The `default`
branch logs through `Logger.Error` (an effect with no influence on the
returned value) and returns 0. -/
def Order.effectQtyToOrderBook (msg : Order) : Int :=
  match msg.Status with
  | ChangeType.Ack => msg.Qty
  | ChangeType.FullyFill | ChangeType.PartialFill => GoInt64.neg msg.lastExecutedQty
  | ChangeType.Expired | ChangeType.IocNoFill | ChangeType.Canceled =>
      GoInt64.sub msg.cumQty msg.Qty
  | ChangeType.unrecognized _ => 0

end pub

/-! ## cosmos-sdk types used by common/tx/ante.go -/

namespace sdk

/-- `sdk.AccAddress`, a byte slice. -/
abbrev AccAddress := List Nat

/-- Modelled from the spec: `sdk.Coin` (declared in the cosmos-sdk
dependency, outside this repository): one asset denomination with an
integer amount ("all balances and fees are integer fixed-point amounts",
exact integer arithmetic). -/
structure Coin where
  Denom : String
  Amount : Int
  deriving DecidableEq, Repr

/-- Modelled from the spec: `sdk.Coins`, the "set of asset→amount
balances", represented as the SDK does by a list of coins kept sorted by
denomination. -/
abbrev Coins := List Coin

/-- Byte-wise lexicographic order on denominations
(`strings.Compare(a, b) == -1`). -/
def denomLt (a b : String) : Prop := a.data < b.data

instance (a b : String) : Decidable (denomLt a b) := by
  unfold denomLt; exact inferInstance

/-- Modelled from the spec: `Coins.IsZero`, true when there are no coins or
every coin has amount zero. -/
def Coins.IsZero (coins : Coins) : Bool :=
  coins.all (fun c => decide (c.Amount = 0))

/-- Inner loop of `Coins.Plus` once the head `a` of the left list is fixed:
walks the right list; `recAs` is `Plus` on the tail of the left list. -/
def Coins.plusGo (a : Coin) (as : Coins) (recAs : Coins → Coins) : Coins → Coins
  | [] => a :: as
  | b :: bs =>
    if denomLt a.Denom b.Denom then a :: recAs (b :: bs)
    else if a.Denom = b.Denom then
      (if a.Amount + b.Amount = 0 then recAs bs
       else { Denom := a.Denom, Amount := a.Amount + b.Amount } :: recAs bs)
    else b :: Coins.plusGo a as recAs bs

/-- Modelled from the spec: `Coins.Plus`, the SDK's merge of two
denomination-sorted coin lists: equal denominations are added, a coin whose
sum is zero is dropped, and when one side is exhausted the rest of the
other is appended. -/
def Coins.Plus : Coins → Coins → Coins
  | [], coinsB => coinsB
  | a :: as, coinsB => Coins.plusGo a as (Coins.Plus as) coinsB

/-- Modelled from the spec: `Coins.Negative`, every amount negated. -/
def Coins.Negative (coins : Coins) : Coins :=
  coins.map (fun c => { Denom := c.Denom, Amount := -c.Amount })

/-- Modelled from the spec: `Coins.Minus`, adding the negated coins. -/
def Coins.Minus (coins coinsB : Coins) : Coins :=
  Coins.Plus coins (Coins.Negative coinsB)

/-- Modelled from the spec: `Coins.IsNotNegative`, no coin has a negative
amount (true for no coins). -/
def Coins.IsNotNegative (coins : Coins) : Bool :=
  coins.all (fun c => decide (0 ≤ c.Amount))

/-- Modelled from the spec: `Coins.Sort`, the coins ordered by
denomination. -/
def Coins.Sort (coins : Coins) : Coins :=
  List.insertionSort (fun a b : Coin => a.Denom.data ≤ b.Denom.data) coins

/-- The `String()` rendering of one coin, amount followed by denomination. -/
def Coin.string (c : Coin) : String := toString c.Amount ++ c.Denom

/-- The `String()` rendering of a coin list, comma separated. -/
def Coins.string (coins : Coins) : String :=
  ",".intercalate (coins.map Coin.string)

/-- Total amount held in one denomination: the sum of the amounts of the
coins carrying it (a single coin when the list is a valid SDK coin set). -/
def Coins.amountOf (coins : Coins) (denom : String) : Int :=
  (coins.map (fun c => if c.Denom = denom then c.Amount else 0)).sum

/-- The representation invariant of `sdk.Coins`: strictly increasing
denominations (sorted, one coin per denomination). -/
def Coins.StrictSorted (coins : Coins) : Prop :=
  List.Pairwise (fun a b : Coin => denomLt a.Denom b.Denom) coins

instance (coins : Coins) : Decidable (Coins.StrictSorted coins) := by
  unfold Coins.StrictSorted; exact inferInstance

/-- The sdk error kinds that ante.go produces, and OK. -/
inductive CodeType where
  | OK
  | Internal
  | InvalidSequence
  | Unauthorized
  | InsufficientFunds
  | InvalidPubKey
  | UnknownAddress
  | OutOfGas
  | MemoTooLarge
  deriving DecidableEq, Repr

/-- `sdk.Error`: an error kind with its message. -/
structure Error where
  Code : CodeType
  Msg : String
  deriving DecidableEq, Repr

/-- `sdk.Result`; the zero value `sdk.Result{}` has code OK. -/
structure Result where
  Code : CodeType := CodeType.OK
  Log : String := ""
  GasWanted : Int := 0
  GasUsed : Int := 0
  deriving DecidableEq, Repr

/-- `res.IsOK()`. -/
def Result.IsOK (res : Result) : Bool := decide (res.Code = CodeType.OK)

/-- `err.Result()`. -/
def Error.Result (err : Error) : Result := { Code := err.Code, Log := err.Msg }

def ErrInternal (msg : String) : Error := ⟨CodeType.Internal, msg⟩
def ErrInvalidSequence (msg : String) : Error := ⟨CodeType.InvalidSequence, msg⟩
def ErrUnauthorized (msg : String) : Error := ⟨CodeType.Unauthorized, msg⟩
def ErrInsufficientFunds (msg : String) : Error := ⟨CodeType.InsufficientFunds, msg⟩
def ErrInvalidPubKey (msg : String) : Error := ⟨CodeType.InvalidPubKey, msg⟩
def ErrUnknownAddress (msg : String) : Error := ⟨CodeType.UnknownAddress, msg⟩
def ErrOutOfGas (msg : String) : Error := ⟨CodeType.OutOfGas, msg⟩
def ErrMemoTooLarge (msg : String) : Error := ⟨CodeType.MemoTooLarge, msg⟩

/-- The basic gas meter: `sdk.Gas` is int64. -/
structure GasMeter where
  limit : Int
  consumed : Int
  deriving DecidableEq, Repr

/-- `sdk.NewGasMeter(limit)`. -/
def NewGasMeter (limit : Int) : GasMeter := { limit := limit, consumed := 0 }

/-- `ConsumeGas(amount, descriptor)`: adds to the consumed gas; the second
component is true when the meter then panics with `ErrorOutOfGas`
(consumed > limit). -/
def GasMeter.ConsumeGas (g : GasMeter) (amount : Int) : GasMeter × Bool :=
  let consumed := GoInt64.add g.consumed amount
  ({ g with consumed := consumed }, decide (consumed > g.limit))

/-- `crypto.PubKey`, identified by its key bytes. -/
structure PubKey where
  bytes : List Nat
  deriving DecidableEq, Repr

end sdk

/-! ## x/auth: accounts and the account store -/

namespace auth

/-- The fields of `auth.Account` that ante.go reads and writes. -/
structure Account where
  Address : sdk.AccAddress
  Coins : sdk.Coins
  PubKey : Option sdk.PubKey
  AccountNumber : Int
  Sequence : Int
  deriving DecidableEq, Repr

/-- The account store behind `auth.AccountMapper`: the accounts currently
stored, at most one per address. -/
abbrev AccountMapper := List Account

/-- `am.GetAccount(ctx, addr)`: the account stored under `addr`, or nil. -/
def AccountMapper.GetAccount (am : AccountMapper) (addr : sdk.AccAddress) : Option Account :=
  am.find? (fun a => decide (a.Address = addr))

/-- `am.SetAccount(ctx, acc)`: stores `acc` under its own address,
replacing what was stored there. -/
def AccountMapper.SetAccount (am : AccountMapper) (acc : Account) : AccountMapper :=
  acc :: am.filter (fun a => decide (a.Address ≠ acc.Address))

end auth

/-! ## common/types: fees -/

namespace types

/-- `types.FeeDistributeType`, an int8. -/
abbrev FeeDistributeType := Int

/-- Modelled from the spec: fee-mode "sender-pays" (the fee goes to the
block proposer). -/
def FeeForProposer : FeeDistributeType := 1

/-- Modelled from the spec: fee-mode "shared-by-validators". -/
def FeeForAll : FeeDistributeType := 2

/-- Modelled from the spec: fee-mode "free". -/
def FeeFree : FeeDistributeType := 3

/-- Modelled from the spec: `types.Fee` (common/types, whose source is
missing), "fee descriptor {token amounts, fee-mode}"; the zero value `Fee{}`
has no tokens and mode 0.  `Tpe` is the Go field `Type`. -/
structure Fee where
  Tokens : sdk.Coins := []
  Tpe : FeeDistributeType := 0
  deriving DecidableEq, Repr

/-- `types.NewFee(tokens, distributeType)`. -/
def NewFee (tokens : sdk.Coins) (distributeType : FeeDistributeType) : Fee :=
  { Tokens := tokens, Tpe := distributeType }

/-- Modelled from the spec: `Fee.IsEmpty`, the accumulator holds no
tokens. -/
def Fee.IsEmpty (fee : Fee) : Bool := fee.Tokens.isEmpty

end types

namespace sdk

/-- The parts of `sdk.Context` that ante.go uses: chain id, the CheckTx
flag, the gas meter, and the two context values (the block fee under the
fee key, the cached signer accounts). -/
structure Context where
  chainID : String
  isCheckTx : Bool
  gasMeter : GasMeter
  feeValue : Option types.Fee
  signers : List auth.Account
  deriving DecidableEq, Repr

/-- `ctx.WithGasMeter(meter)`. -/
def Context.WithGasMeter (ctx : Context) (meter : GasMeter) : Context :=
  { ctx with gasMeter := meter }

end sdk

namespace auth

/-- `auth.WithSigners(ctx, accounts)`. -/
def WithSigners (ctx : sdk.Context) (accounts : List Account) : sdk.Context :=
  { ctx with signers := accounts }

end auth

/-! ## common/tx/ante.go -/

namespace tx

/-- `sdk.Msg`: its type tag (`msg.Type()`), the signers it declares and its
payload bytes. -/
structure Msg where
  Tpe : String
  Signers : List sdk.AccAddress
  Body : List Nat
  deriving DecidableEq, Repr

/-- `StdFee`; ante.go reads only `Gas`. -/
structure StdFee where
  Amount : sdk.Coins
  Gas : Int
  deriving DecidableEq, Repr

/-- `StdSignature`. -/
structure StdSignature where
  PubKey : Option sdk.PubKey
  Signature : List Nat
  AccountNumber : Int
  Sequence : Int
  deriving DecidableEq, Repr

/-- `StdTx`.  The memo is a Go string; `len(memo)` is its length in bytes
(`String.utf8ByteSize`). -/
structure StdTx where
  Msgs : List Msg
  Fee : StdFee
  Signatures : List StdSignature
  Memo : String
  deriving DecidableEq, Repr

/-- An `sdk.Tx`: either a `StdTx` or some other implementation. -/
inductive Tx where
  | std (stdTx : StdTx)
  | other (msgs : List Msg)
  deriving DecidableEq, Repr

/-- `tx.GetMsgs()`. -/
def Tx.GetMsgs : Tx → List Msg
  | Tx.std stdTx => stdTx.Msgs
  | Tx.other msgs => msgs

/-- What ante.go calls and is declared elsewhere (stdtx.go, the crypto and
fee-calculator packages), taken as parameters: `StdTx.GetSigners` (the signer addresses declared by the
transaction's messages), `StdSignBytes`, the address derived from a public
key, signature verification, the Bech32 rendering of an address and the
fee-calculator registry `GetCalculator` (nil = `none`). -/
structure Env where
  GetSigners : List Msg → List sdk.AccAddress
  StdSignBytes : String → Int → Int → StdFee → List Msg → String → List Nat
  PubKeyAddress : sdk.PubKey → sdk.AccAddress
  VerifyBytes : sdk.PubKey → List Nat → List Nat → Bool
  AddrString : sdk.AccAddress → String
  GetCalculator : String → Option (Msg → types.Fee)

def deductFeesCost : Int := 10
def memoCostPerByte : Int := 1
def verifyCost : Int := 100
def maxMemoCharacters : Int := 100

/-- `Fee(ctx)`: the block fee stored in the context, `types.Fee{}` when
none is stored. -/
def Fee (ctx : sdk.Context) : types.Fee := ctx.feeValue.getD {}

/-- `WithFee(ctx, fee)`. -/
def WithFee (ctx : sdk.Context) (fee : types.Fee) : sdk.Context :=
  { ctx with feeValue := some fee }

/-- `validateBasic(tx)`: nil (`none`) when the transaction passes. -/
def validateBasic (env : Env) (tx : StdTx) : Option sdk.Error :=
  let sigs := tx.Signatures
  if sigs.length = 0 then
    some (sdk.ErrUnauthorized "no signers")
  else
    let signerAddrs := env.GetSigners tx.Msgs
    if sigs.length ≠ signerAddrs.length then
      some (sdk.ErrUnauthorized "wrong number of signers")
    else
      let memo := tx.Memo
      if (memo.utf8ByteSize : Int) > maxMemoCharacters then
        some (sdk.ErrMemoTooLarge
          ("maximum number of characters is " ++ toString maxMemoCharacters
            ++ " but received " ++ toString memo.utf8ByteSize ++ " characters"))
      else none

/-- What one call of `processSig` does: it returns `(acc, res)` with the
gas meter as it left it, or panics with `ErrorOutOfGas`. -/
inductive SigOutcome where
  | ret (gas : sdk.GasMeter) (acc : Option auth.Account) (res : sdk.Result)
  | panicOutOfGas (gas : sdk.GasMeter) (descriptor : String)
  deriving DecidableEq, Repr

/-- The public-key step of `processSig`: the account's key, or the key in
the signature bound to the account after the address check. -/
def bindPubKey (env : Env) (acc : auth.Account) (addr : sdk.AccAddress)
    (sig : StdSignature) : Except sdk.Result (sdk.PubKey × auth.Account) :=
  match acc.PubKey with
  | some pubKey => Except.ok (pubKey, acc)
  | none =>
    match sig.PubKey with
    | none => Except.error (sdk.ErrInvalidPubKey "PubKey not found").Result
    | some pubKey =>
      if env.PubKeyAddress pubKey ≠ addr then
        Except.error (sdk.ErrInvalidPubKey
          ("PubKey does not match Signer address " ++ env.AddrString addr)).Result
      else Except.ok (pubKey, { acc with PubKey := some pubKey })

/-- `processSig(ctx, am, addr, sig, signBytes)`; of the context it uses the
gas meter.  `SetSequence` and `SetPubKey` of the account never fail. -/
def processSig (env : Env) (gas : sdk.GasMeter) (am : auth.AccountMapper)
    (addr : sdk.AccAddress) (sig : StdSignature) (signBytes : List Nat) : SigOutcome :=
  match am.GetAccount addr with
  | none => SigOutcome.ret gas none (sdk.ErrUnknownAddress (env.AddrString addr)).Result
  | some acc =>
    let accnum := acc.AccountNumber
    if accnum ≠ sig.AccountNumber then
      SigOutcome.ret gas none (sdk.ErrInvalidSequence
        ("Invalid account number. Got " ++ toString sig.AccountNumber
          ++ ", expected " ++ toString accnum)).Result
    else
      let seq := acc.Sequence
      if seq ≠ sig.Sequence then
        SigOutcome.ret gas none (sdk.ErrInvalidSequence
          ("Invalid sequence. Got " ++ toString sig.Sequence
            ++ ", expected " ++ toString seq)).Result
      else
        let acc := { acc with Sequence := GoInt64.add seq 1 }
        match bindPubKey env acc addr sig with
        | Except.error res => SigOutcome.ret gas none res
        | Except.ok (pubKey, acc) =>
          let metered := gas.ConsumeGas verifyCost
          if metered.2 then SigOutcome.panicOutOfGas metered.1 "ante verify"
          else if !env.VerifyBytes pubKey signBytes sig.Signature then
            SigOutcome.ret metered.1 none
              (sdk.ErrUnauthorized "signature verification failed").Result
          else SigOutcome.ret metered.1 (some acc) {}

/-- `calculateFees(msg)`: the registered calculator applied to the message,
or an error when none is registered for the message type. -/
def calculateFees (env : Env) (msg : Msg) : Except String types.Fee :=
  match env.GetCalculator msg.Tpe with
  | none => Except.error ("missing calculator for msgType:" ++ msg.Tpe)
  | some calculator => Except.ok (calculator msg)

/-- `checkSufficientFunds(acc, fee)`. -/
def checkSufficientFunds (acc : auth.Account) (fee : types.Fee) : sdk.Result :=
  let coins := acc.Coins
  let newCoins := coins.Minus fee.Tokens.Sort
  if !newCoins.IsNotNegative then
    (sdk.ErrInsufficientFunds (coins.string ++ " < " ++ fee.Tokens.Sort.string)).Result
  else {}

/-- `deductFees(ctx, acc, fee, am)`: the result, the account as the call
leaves it (it is updated in place) and the account store afterwards.
`SetCoins` never fails. -/
def deductFees (acc : auth.Account) (fee : types.Fee) (am : auth.AccountMapper) :
    sdk.Result × auth.Account × auth.AccountMapper :=
  let res := checkSufficientFunds acc fee
  if !res.IsOK then (res, acc, am)
  else
    let newCoins := acc.Coins.Minus fee.Tokens.Sort
    let acc := { acc with Coins := newCoins }
    ({}, acc, am.SetAccount acc)

/-- What one call of `calcAndDeductFees` does: it returns the context and
result (with the payer account and the account store as it left them), or
panics. -/
inductive FeeOutcome where
  | ret (ctx : sdk.Context) (res : sdk.Result) (acc : auth.Account) (am : auth.AccountMapper)
  | panicked (err : String) (am : auth.AccountMapper)
  deriving DecidableEq, Repr

/-- `calcAndDeductFees(ctx, am, acc, msg)`. -/
def calcAndDeductFees (env : Env) (ctx : sdk.Context) (am : auth.AccountMapper)
    (acc : auth.Account) (msg : Msg) : FeeOutcome :=
  match calculateFees env msg with
  | Except.error err => FeeOutcome.panicked err am
  | Except.ok fee =>
    if fee.Tpe = types.FeeFree ∨ fee.Tokens.IsZero = true then
      FeeOutcome.ret ctx {} acc am
    else
      let fee : types.Fee := { fee with Tokens := fee.Tokens.Sort }
      if ctx.isCheckTx then
        FeeOutcome.ret ctx (checkSufficientFunds acc fee) acc am
      else
        match deductFees acc fee am with
        | (res, acc, am) =>
          if !res.IsOK then FeeOutcome.ret ctx res acc am
          else
            let oldFee := Fee ctx
            let newFee : types.Fee :=
              if oldFee.IsEmpty then fee
              else
                let merged := types.NewFee (oldFee.Tokens.Plus fee.Tokens) oldFee.Tpe
                if fee.Tpe = types.FeeForAll then { merged with Tpe := types.FeeForAll }
                else merged
            FeeOutcome.ret (WithFee ctx newFee) {} acc am

/-- How the signer loop of the ante handler ends: all signers processed,
a signer rejected, or a panic (out of gas, or a runtime error). -/
inductive SigsOutcome where
  | done (gas : sdk.GasMeter) (am : auth.AccountMapper) (signerAccs : List auth.Account)
  | rejected (gas : sdk.GasMeter) (am : auth.AccountMapper) (res : sdk.Result)
  | panicOutOfGas (gas : sdk.GasMeter) (am : auth.AccountMapper) (descriptor : String)
  | panicRuntime (am : auth.AccountMapper) (err : String)
  deriving DecidableEq, Repr

/-- The loop `for i := 0; i < len(sigs); i++` of the ante handler, from
index `i` on: the remaining signer addresses and signatures, the gas meter,
the account store and the signer accounts collected so far. -/
def sigLoop (env : Env) (chainID : String) (stdTx : StdTx) (msgs : List Msg) :
    List sdk.AccAddress → List StdSignature → sdk.GasMeter → auth.AccountMapper →
      List auth.Account → SigsOutcome
  | _, [], gas, am, signerAccs => SigsOutcome.done gas am signerAccs
  | [], _ :: _, _, am, _ => SigsOutcome.panicRuntime am "index out of range"
  | signerAddr :: addrs, sig :: sigs, gas, am, signerAccs =>
    let signBytes := env.StdSignBytes chainID sig.AccountNumber sig.Sequence
      stdTx.Fee msgs stdTx.Memo
    match processSig env gas am signerAddr sig signBytes with
    | SigOutcome.panicOutOfGas gas descriptor => SigsOutcome.panicOutOfGas gas am descriptor
    | SigOutcome.ret gas acc res =>
      if !res.IsOK then SigsOutcome.rejected gas am res
      else
        match acc with
        | none => SigsOutcome.panicRuntime am "nil account"
        | some signerAcc =>
          sigLoop env chainID stdTx msgs addrs sigs gas (am.SetAccount signerAcc)
            (signerAccs ++ [signerAcc])

/-- What one call of the ante handler does: it returns
`(newCtx, res, abort)` with the account store as it left it, or it panics
(a panic that its `recover` re-raises). -/
inductive AnteOutcome where
  | ret (newCtx : sdk.Context) (res : sdk.Result) (abort : Bool) (am : auth.AccountMapper)
  | panicked (err : String) (am : auth.AccountMapper)
  deriving DecidableEq, Repr

/-- The `recover` branch for `sdk.ErrorOutOfGas`. -/
def recoverOutOfGas (newCtx : sdk.Context) (stdTx : StdTx) (descriptor : String)
    (am : auth.AccountMapper) : AnteOutcome :=
  let res := (sdk.ErrOutOfGas ("out of gas in location: " ++ descriptor)).Result
  AnteOutcome.ret newCtx
    { res with GasWanted := stdTx.Fee.Gas, GasUsed := newCtx.gasMeter.consumed } true am

/-- The handler returned by `NewAnteHandler(am, fck)`, applied to
`(ctx, tx)`; `am` is the account store before the call. -/
def NewAnteHandler (env : Env) (am : auth.AccountMapper) (ctx : sdk.Context) (tx : Tx) :
    AnteOutcome :=
  match tx with
  | Tx.other _ => AnteOutcome.ret ctx (sdk.ErrInternal "tx must be StdTx").Result true am
  | Tx.std stdTx =>
    let newCtx := ctx.WithGasMeter (sdk.NewGasMeter stdTx.Fee.Gas)
    match validateBasic env stdTx with
    | some err => AnteOutcome.ret newCtx err.Result true am
    | none =>
      let sigs := stdTx.Signatures
      let signerAddrs := env.GetSigners stdTx.Msgs
      let msgs := tx.GetMsgs
      let metered := newCtx.gasMeter.ConsumeGas
        (GoInt64.mul memoCostPerByte (GoInt64.wrap stdTx.Memo.utf8ByteSize))
      if metered.2 then recoverOutOfGas (newCtx.WithGasMeter metered.1) stdTx "memo" am
      else
        match sigLoop env newCtx.chainID stdTx msgs signerAddrs sigs metered.1 am [] with
        | SigsOutcome.panicOutOfGas gas am descriptor =>
          recoverOutOfGas (newCtx.WithGasMeter gas) stdTx descriptor am
        | SigsOutcome.panicRuntime am err => AnteOutcome.panicked err am
        | SigsOutcome.rejected gas am res => AnteOutcome.ret (newCtx.WithGasMeter gas) res true am
        | SigsOutcome.done gas am signerAccs =>
          match signerAccs, msgs with
          | acc0 :: restAccs, msg0 :: _ =>
            match calcAndDeductFees env (newCtx.WithGasMeter gas) am acc0 msg0 with
            | FeeOutcome.panicked err am => AnteOutcome.panicked err am
            | FeeOutcome.ret newCtx res acc0 am =>
              if !res.IsOK then AnteOutcome.ret newCtx res true am
              else
                AnteOutcome.ret (auth.WithSigners newCtx (acc0 :: restAccs))
                  { GasWanted := stdTx.Fee.Gas } false am
          | _, _ => AnteOutcome.panicked "index out of range" am

/-- The handler returned with `abort = false`. -/
def AnteOutcome.admitted : AnteOutcome → Bool
  | AnteOutcome.ret _ _ abort _ => !abort
  | AnteOutcome.panicked _ _ => false

/-- The handler returned with `abort = true`. -/
def AnteOutcome.aborted : AnteOutcome → Bool
  | AnteOutcome.ret _ _ abort _ => abort
  | AnteOutcome.panicked _ _ => false

/-- The account store as the handler left it. -/
def AnteOutcome.store : AnteOutcome → auth.AccountMapper
  | AnteOutcome.ret _ _ _ am => am
  | AnteOutcome.panicked _ am => am

/-- The result the handler returned, if it returned. -/
def AnteOutcome.result : AnteOutcome → Option sdk.Result
  | AnteOutcome.ret _ res _ _ => some res
  | AnteOutcome.panicked _ _ => none

/-- The context the handler returned, if it returned. -/
def AnteOutcome.context : AnteOutcome → Option sdk.Context
  | AnteOutcome.ret newCtx _ _ _ => some newCtx
  | AnteOutcome.panicked _ _ => none

/-- The gas meter after the memo charge of the ante handler, and whether
that charge ran out of gas. -/
def memoCharge (stdTx : StdTx) : sdk.GasMeter × Bool :=
  (sdk.NewGasMeter stdTx.Fee.Gas).ConsumeGas
    (GoInt64.mul memoCostPerByte (GoInt64.wrap stdTx.Memo.utf8ByteSize))

/-- Fee charging over one block: `calcAndDeductFees` called for each
(payer, message) in turn, each call starting from the context and account
store the previous one left.  The run is `some` when every call computed a
non-free, non-zero fee and returned OK, and then lists those fees with the
final context and store. -/
def chargeAll (env : Env) :
    sdk.Context → auth.AccountMapper → List (auth.Account × Msg) →
      Option (sdk.Context × auth.AccountMapper × List types.Fee)
  | ctx, am, [] => some (ctx, am, [])
  | ctx, am, (acc, msg) :: rest =>
    match calculateFees env msg, calcAndDeductFees env ctx am acc msg with
    | Except.ok fee, FeeOutcome.ret ctx' res _ am' =>
      if res.IsOK = true ∧ fee.Tpe ≠ types.FeeFree ∧ fee.Tokens.IsZero = false then
        match chargeAll env ctx' am' rest with
        | some (ctx'', am'', fees) => some (ctx'', am'', fee :: fees)
        | none => none
      else none
    | _, _ => none

/-- The context `calcAndDeductFees` returned, if it returned. -/
def FeeOutcome.context : FeeOutcome → Option sdk.Context
  | FeeOutcome.ret ctx _ _ _ => some ctx
  | FeeOutcome.panicked _ _ => none

/-- The result `processSig` returned, if it returned. -/
def SigOutcome.result : SigOutcome → Option sdk.Result
  | SigOutcome.ret _ _ res => some res
  | SigOutcome.panicOutOfGas _ _ => none

end tx

/-! ## app/pub/msgs.go: message families and native maps -/

namespace GoInt64

/-- Go `a <<= 1` on int64. -/
def shiftLeft1 (a : Int) : Int := wrap (a * 2)

end GoInt64

namespace pub

/-- `msgType`, an int8. -/
abbrev msgType := Int

def accountsTpe : msgType := 0
def booksTpe : msgType := 1
def executionResultTpe : msgType := 2
def blockFeeTpe : msgType := 3

/-- Modelled from the spec: `transferType`, the message family Transfers.
publisher_kafka.go uses this constant; its declaration (the next value of
the iota block of msgs.go) is missing. -/
def transferType : msgType := 4

/-- `func (this msgType) String() string` of msgs.go. -/
def msgType.String (this : msgType) : String :=
  if this = accountsTpe then "Accounts"
  else if this = booksTpe then "Books"
  else if this = executionResultTpe then "ExecutionResults"
  else if this = blockFeeTpe then "BlockFee"
  else "Unknown"

/-- A value stored in a native map (`map[string]interface{}`): a string, an
int64, an int, a nested map or a slice of values.  A map is kept as the list
of its entries in the order the code assigns them. -/
inductive Native where
  | str (s : String)
  | long (n : Int)
  | int (n : Int)
  | map (entries : List (String × Native))
  | array (items : List Native)

/-- The value a native map holds under a key. -/
def Native.lookup (key : String) : List (String × Native) → Option Native
  | [] => none
  | (k, v) :: rest => if k = key then some v else Native.lookup key rest

/-- What `Order.toNativeMap` calls in plugins/dex/order (missing), taken as
parameters: `ChangeType.String`, `IToSide`, `IToOrderType`,
`IToTimeInForce` and `ExecutionType.String`. -/
structure OrderPkg where
  ChangeTypeString : ChangeType → String
  IToSide : Int → String
  IToOrderType : Int → String
  IToTimeInForce : Int → String
  ExecutionTypeString : Int → String

/-- `func (msg *Order) toNativeMap() map[string]interface{}`. -/
def Order.toNativeMap (orderPkg : OrderPkg) (msg : Order) : List (String × Native) :=
  [("symbol", Native.str msg.Symbol),
   ("status", Native.str (orderPkg.ChangeTypeString msg.Status)),
   ("orderId", Native.str msg.OrderId),
   ("tradeId", Native.str msg.TradeId),
   ("owner", Native.str msg.Owner),
   ("side", Native.str (orderPkg.IToSide msg.Side)),
   ("orderType", Native.str (orderPkg.IToOrderType msg.OrderType)),
   ("price", Native.long msg.Price),
   ("qty", Native.long msg.Qty),
   ("lastExecutedPrice", Native.long msg.lastExecutedPrice),
   ("lastExecutedQty", Native.long msg.lastExecutedQty),
   ("cumQty", Native.long msg.cumQty),
   ("fee", Native.str msg.fee),
   ("orderCreationTime", Native.long msg.orderCreationTime),
   ("transactionTime", Native.long msg.transactionTime),
   ("timeInForce", Native.str (orderPkg.IToTimeInForce msg.timeInForce)),
   ("currentExecutionType", Native.str (orderPkg.ExecutionTypeString msg.currentExecutionType)),
   ("txHash", Native.str msg.txHash)]

set_option linter.dupNamespace false in
/-- The `Orders` struct of msgs.go. -/
structure Orders where
  NumOfMsgs : Int
  Orders : List Order

/-- `func (msg *Orders) ToNativeMap() map[string]interface{}`. -/
def Orders.ToNativeMap (orderPkg : OrderPkg) (msg : pub.Orders) : List (String × Native) :=
  let os := msg.Orders.map (fun o => Native.map (o.toNativeMap orderPkg))
  [("numOfMsgs", Native.int msg.NumOfMsgs), ("orders", Native.array os)]

/-! ## app/pub/publisher_kafka.go -/

/-- The interface `AvroOrJsonMsg` (`AvroMsg` in msgs.go): a message is given
by what its two methods return, `ToNativeMap()` and `String()` (here
`Text`). -/
structure AvroOrJsonMsg where
  ToNativeMap : Native
  Text : String

/-- Modelled from the spec: the interface `EssMsg` (its declaration is
missing), a message that also yields its "essential (minimal recoverable)
payload" (`EssentialMsg()`) and a "minimal empty placeholder"
(`EmptyCopy()`). -/
structure EssMsg where
  EssentialMsg : String
  EmptyCopy : AvroOrJsonMsg

/-- A value passed to `publish` as `avroMessage`: the message, and the
result of the type assertion `avroMessage.(EssMsg)` (`none` when the
assertion fails). -/
structure Message where
  msg : AvroOrJsonMsg
  essMsg : Option EssMsg

/-- An avro codec, given by its `BinaryFromNative(nil, native)`. -/
abbrev Codec := Native → Except String (List Nat)

/-- The fields of the global `Cfg` that publisher_kafka.go reads. -/
structure PublicationConfig where
  PublishOrderUpdates : Bool
  OrderUpdatesTopic : String
  OrderUpdatesKafka : String
  PublishOrderBook : Bool
  OrderBookTopic : String
  OrderBookKafka : String
  PublishAccountBalance : Bool
  AccountBalanceTopic : String
  AccountBalanceKafka : String
  PublishBlockFee : Bool
  BlockFeeTopic : String
  BlockFeeKafka : String
  PublishTransfer : Bool
  TransferTopic : String
  TransferKafka : String

/-- `KafkaMarketDataPublisher`; `producers` lists the topics that have a
producer in the map. -/
structure KafkaMarketDataPublisher where
  booksCodec : Codec
  accountCodec : Codec
  executionResultsCodec : Codec
  blockFeeCodec : Codec
  transfersCodec : Codec
  essentialLogPath : String
  producers : List String

/-- `sarama.ProducerMessage`, the fields `prepareMessage` sets. -/
structure ProducerMessage where
  Topic : String
  Partition : Int
  Key : String
  Value : List Nat
  deriving DecidableEq, Repr

/-- The errors `SendMessage` can return: the two retriable ones and any
other. -/
inductive SendError where
  | ErrOutOfBrokers
  | ErrBreakerOpen
  | other (text : String)
  deriving DecidableEq, Repr

/-- What one `SendMessage` call returns. -/
structure SendResponse where
  partition : Int
  offset : Int
  err : Option SendError
  deriving DecidableEq, Repr

/-- The retry condition `err == sarama.ErrOutOfBrokers || err ==
breaker.ErrBreakerOpen`. -/
def SendResponse.retriable (r : SendResponse) : Bool :=
  decide (r.err = some SendError.ErrOutOfBrokers) || decide (r.err = some SendError.ErrBreakerOpen)

/-- What the publisher does to the outside, in order: a `SendMessage` on
the producer of a topic, a `time.Sleep` (nanoseconds), an
`ioutil.WriteFile`.  Log lines are left out. -/
inductive Effect where
  | send (topic : String) (message : ProducerMessage)
  | sleep (duration : Int)
  | writeFile (path : String) (content : String)
  deriving DecidableEq, Repr

/-- The messages sent, in order. -/
def sendsOf : List Effect → List ProducerMessage
  | [] => []
  | Effect.send _ message :: rest => message :: sendsOf rest
  | _ :: rest => sendsOf rest

/-- The waits, in order. -/
def sleepsOf : List Effect → List Int
  | [] => []
  | Effect.sleep duration :: rest => duration :: sleepsOf rest
  | _ :: rest => sleepsOf rest

/-- The files written, in order. -/
def writesOf : List Effect → List (String × String)
  | [] => []
  | Effect.writeFile path content :: rest => (path, content) :: writesOf rest
  | _ :: rest => writesOf rest

/-- How a call of `publishWithRetry` ends: it returns
`(partition, offset, err)`, it panics (no producer for the topic), or it is
still retrying when the broker responses given are used up. -/
inductive RetryOutcome where
  | returned (partition offset : Int) (err : Option SendError)
  | panicked
  | retrying
  deriving DecidableEq, Repr

/-- A run of `publishWithRetry`: its effects, how it ended and the broker
responses it did not consume. -/
structure RetryRun where
  effects : List Effect
  outcome : RetryOutcome
  unused : List SendResponse
  deriving DecidableEq, Repr

/-- `time.Second`, in nanoseconds. -/
def Second : Int := 1000000000

/-- The `for` loop of `publishWithRetry`, entered with the current
`backOffInSeconds` and the responses the broker will give. -/
def retryLoop (message : ProducerMessage) (topic : String) :
    Int → List SendResponse → RetryRun
  | _, [] => { effects := [], outcome := RetryOutcome.retrying, unused := [] }
  | backOffInSeconds, r :: rest =>
    if r.retriable then
      let backOffInSeconds := GoInt64.shiftLeft1 backOffInSeconds
      let run := retryLoop message topic backOffInSeconds rest
      { run with
        effects := Effect.send topic message
          :: Effect.sleep (GoInt64.mul backOffInSeconds Second) :: run.effects }
    else
      { effects := [Effect.send topic message],
        outcome := RetryOutcome.returned r.partition r.offset r.err, unused := rest }

/-- `publishWithRetry(message, topic)`, given the responses the broker will
give to the successive `SendMessage` calls. -/
def KafkaMarketDataPublisher.publishWithRetry (publisher : KafkaMarketDataPublisher)
    (message : ProducerMessage) (topic : String) (responses : List SendResponse) : RetryRun :=
  if topic ∈ publisher.producers then retryLoop message topic 1 responses
  else { effects := [], outcome := RetryOutcome.panicked, unused := responses }

/-- `prepareMessage(topic, msgId, timeStamp, msgTpe, message)`. -/
def KafkaMarketDataPublisher.prepareMessage (topic : String) (msgId : String) (timeStamp : Int)
    (msgTpe : msgType) (message : List Nat) : ProducerMessage :=
  { Topic := topic,
    Partition := -1,
    Key := msgId ++ "_" ++ toString timeStamp ++ "_" ++ msgType.String msgTpe,
    Value := message }

/-- `resolveTopic(tpe)`; the empty string when no case applies. -/
def KafkaMarketDataPublisher.resolveTopic (Cfg : PublicationConfig) (tpe : msgType) : String :=
  if tpe = booksTpe then Cfg.OrderBookTopic
  else if tpe = accountsTpe then Cfg.AccountBalanceTopic
  else if tpe = executionResultTpe then Cfg.OrderUpdatesTopic
  else if tpe = blockFeeTpe then Cfg.BlockFeeTopic
  else if tpe = transferType then Cfg.TransferTopic
  else ""

/-- `marshal(msg, tpe)` of the publisher. -/
def KafkaMarketDataPublisher.marshal (publisher : KafkaMarketDataPublisher)
    (msg : AvroOrJsonMsg) (tpe : msgType) : Except String (List Nat) :=
  let native := msg.ToNativeMap
  if tpe = accountsTpe then publisher.accountCodec native
  else if tpe = booksTpe then publisher.booksCodec native
  else if tpe = executionResultTpe then publisher.executionResultsCodec native
  else if tpe = blockFeeTpe then publisher.blockFeeCodec native
  else if tpe = transferType then publisher.transfersCodec native
  else Except.error ("doesn't support marshal kafka msg tpe: " ++ msgType.String tpe)

/-- How a call of `publish` or `publishEssentialMsg` ends. -/
inductive PublishOutcome where
  | returned
  | panicked
  | retrying
  deriving DecidableEq, Repr

/-- A run of `publish` or `publishEssentialMsg`. -/
structure PublishRun where
  effects : List Effect
  outcome : PublishOutcome
  unused : List SendResponse
  deriving DecidableEq, Repr

/-- The first step of `publishEssentialMsg`: publishing the empty copy. -/
def KafkaMarketDataPublisher.publishEmptyCopy (publisher : KafkaMarketDataPublisher)
    (essMsg : EssMsg) (topic : String) (tpe : msgType) (height timestamp : Int)
    (responses : List SendResponse) : PublishRun :=
  match publisher.marshal essMsg.EmptyCopy tpe with
  | Except.ok msg =>
    let kafkaMsg := KafkaMarketDataPublisher.prepareMessage topic (toString height) timestamp tpe msg
    let run := publisher.publishWithRetry kafkaMsg topic responses
    match run.outcome with
    | RetryOutcome.returned _ _ _ =>
      { effects := run.effects, outcome := PublishOutcome.returned, unused := run.unused }
    | RetryOutcome.panicked =>
      { effects := run.effects, outcome := PublishOutcome.panicked, unused := run.unused }
    | RetryOutcome.retrying =>
      { effects := run.effects, outcome := PublishOutcome.retrying, unused := run.unused }
  | Except.error _ =>
    { effects := [], outcome := PublishOutcome.returned, unused := responses }

/-- `publishEssentialMsg(essMsg, topic, tpe, height, timestamp)`. -/
def KafkaMarketDataPublisher.publishEssentialMsg (publisher : KafkaMarketDataPublisher)
    (essMsg : EssMsg) (topic : String) (tpe : msgType) (height timestamp : Int)
    (responses : List SendResponse) : PublishRun :=
  let first := publisher.publishEmptyCopy essMsg topic tpe height timestamp responses
  match first.outcome with
  | PublishOutcome.returned =>
    let filePath := publisher.essentialLogPath ++ "/" ++ toString height ++ "_"
      ++ msgType.String tpe ++ ".log"
    let toWrite := essMsg.EssentialMsg
    if toWrite.utf8ByteSize ≠ 0 then
      { first with effects := first.effects ++ [Effect.writeFile filePath toWrite] }
    else first
  | _ => first

/-- `publish(avroMessage, tpe, height, timestamp)`, given the global `Cfg`
and the responses the broker will give. -/
def KafkaMarketDataPublisher.publish (Cfg : PublicationConfig)
    (publisher : KafkaMarketDataPublisher) (avroMessage : Message) (tpe : msgType)
    (height timestamp : Int) (responses : List SendResponse) : PublishRun :=
  let topic := KafkaMarketDataPublisher.resolveTopic Cfg tpe
  match publisher.marshal avroMessage.msg tpe with
  | Except.ok msg =>
    let kafkaMsg := KafkaMarketDataPublisher.prepareMessage topic (toString height) timestamp tpe msg
    let run := publisher.publishWithRetry kafkaMsg topic responses
    match run.outcome with
    | RetryOutcome.returned _ _ none =>
      { effects := run.effects, outcome := PublishOutcome.returned, unused := run.unused }
    | RetryOutcome.returned _ _ (some _) =>
      match avroMessage.essMsg with
      | some essMsg =>
        let ess := publisher.publishEssentialMsg essMsg topic tpe height timestamp run.unused
        { ess with effects := run.effects ++ ess.effects }
      | none =>
        { effects := run.effects, outcome := PublishOutcome.returned, unused := run.unused }
    | RetryOutcome.panicked =>
      { effects := run.effects, outcome := PublishOutcome.panicked, unused := run.unused }
    | RetryOutcome.retrying =>
      { effects := run.effects, outcome := PublishOutcome.retrying, unused := run.unused }
  | Except.error _ =>
    { effects := [], outcome := PublishOutcome.returned, unused := responses }

/-- One `if Cfg.Publish... { ... }` block of `newProducers`, for a family
with the given enable flag, topic and broker list: unless the producers map
already has an entry for the topic, a producer is connected and stored under
it.  `connect` is `connectWithRetry` on the broker list split at
`KafkaBrokerSep`: `none` when it gave a producer, its error otherwise.  A
failed connection ends `newProducers` with that error (the nil entry it
leaves in the map is no producer and is not listed). -/
def KafkaMarketDataPublisher.connectFamily (connect : String → Option String)
    (enabled : Bool) (topic kafka : String) (publisher : KafkaMarketDataPublisher) :
    Except String KafkaMarketDataPublisher :=
  if enabled then
    if topic ∈ publisher.producers then Except.ok publisher
    else
      match connect kafka with
      | none => Except.ok { publisher with producers := publisher.producers ++ [topic] }
      | some err => Except.error err
  else Except.ok publisher

/-- `newProducers()`, as far as the producers map goes (the sarama
configuration it also builds is left out): the publisher afterwards, or the
error returned.  `NewKafkaMarketDataPublisher` calls it once, on an empty
map, and panics on an error. -/
def KafkaMarketDataPublisher.newProducers (Cfg : PublicationConfig)
    (connect : String → Option String) (publisher : KafkaMarketDataPublisher) :
    Except String KafkaMarketDataPublisher :=
  match publisher.connectFamily connect Cfg.PublishOrderUpdates Cfg.OrderUpdatesTopic
      Cfg.OrderUpdatesKafka with
  | Except.error err => Except.error err
  | Except.ok publisher =>
    match publisher.connectFamily connect Cfg.PublishOrderBook Cfg.OrderBookTopic
        Cfg.OrderBookKafka with
    | Except.error err => Except.error err
    | Except.ok publisher =>
      match publisher.connectFamily connect Cfg.PublishAccountBalance Cfg.AccountBalanceTopic
          Cfg.AccountBalanceKafka with
      | Except.error err => Except.error err
      | Except.ok publisher =>
        match publisher.connectFamily connect Cfg.PublishBlockFee Cfg.BlockFeeTopic
            Cfg.BlockFeeKafka with
        | Except.error err => Except.error err
        | Except.ok publisher =>
          publisher.connectFamily connect Cfg.PublishTransfer Cfg.TransferTopic
            Cfg.TransferKafka

/-- The enable flag of a message family: the flag under which
`newProducers` creates the producer of the topic that `resolveTopic` gives
to the family; `false` for a value that is none of the five families. -/
def PublicationConfig.publishes (Cfg : PublicationConfig) (tpe : msgType) : Bool :=
  if tpe = booksTpe then Cfg.PublishOrderBook
  else if tpe = accountsTpe then Cfg.PublishAccountBalance
  else if tpe = executionResultTpe then Cfg.PublishOrderUpdates
  else if tpe = blockFeeTpe then Cfg.PublishBlockFee
  else if tpe = transferType then Cfg.PublishTransfer
  else false

/-- The topics of the families whose publication is enabled. -/
def PublicationConfig.enabledTopics (Cfg : PublicationConfig) : List String :=
  (if Cfg.PublishOrderUpdates then [Cfg.OrderUpdatesTopic] else [])
    ++ (if Cfg.PublishOrderBook then [Cfg.OrderBookTopic] else [])
    ++ (if Cfg.PublishAccountBalance then [Cfg.AccountBalanceTopic] else [])
    ++ (if Cfg.PublishBlockFee then [Cfg.BlockFeeTopic] else [])
    ++ (if Cfg.PublishTransfer then [Cfg.TransferTopic] else [])

end pub

/-! ## cosmos-sdk response codes used by plugins/dex/abci.go -/

namespace sdk

/-- `sdk.ABCICodeOK`, as the `uint32` the query handlers store. -/
def ABCICodeOK : Nat := 0

/-- `sdk.CodeInternal`, as the `uint32` the query handlers store. -/
def CodeInternal : Nat := 1

/-- `sdk.CodeUnknownRequest`, as the `uint32` the query handlers store. -/
def CodeUnknownRequest : Nat := 6

end sdk

/-! ## plugins/dex/abci.go -/

namespace dex

/-- `OB_LEVELS`. -/
def OB_LEVELS : Int := 20

/-- `abciQueryPrefix`, the first segment of the dex query paths.  It is
declared in another file of the package; the comments of abci.go
(`["dex", "pairs", <offset>, <limit>]`) give its value. -/
def abciQueryPrefix : String := "dex"

/-- `abci.ResponseQuery`, the fields the handler sets. -/
structure ResponseQuery where
  Code : Nat := 0
  Log : String := ""
  Info : String := ""
  Value : List Nat := []
  deriving DecidableEq, Repr

/-- `store.OrderBook`. -/
structure OrderBook (Level : Type) where
  Height : Int
  Levels : List Level

/-- What the query handler reads from the application and the keeper, for
trading pairs of type `Pair` and order-book levels of type `Level`:
`strconv.Atoi` (on a 64-bit platform), the pairs listed by
`keeper.PairMapper.ListAllTradingPairs`, the block height of the check
state, `keeper.GetOrderBookLevels` and the codec's `MarshalBinary` on a
slice of pairs and on an order book. -/
structure QueryEnv (Pair Level : Type) where
  Atoi : String → Except String Int
  ListAllTradingPairs : List Pair
  BlockHeight : Int
  GetOrderBookLevels : String → Int → List Level
  MarshalPairs : List Pair → Except String (List Nat)
  MarshalBook : OrderBook Level → Except String (List Nat)

/-- What one call of the query handler does: it returns a response (`none`
is the nil response) or panics. -/
inductive QueryOutcome where
  | ret (res : Option ResponseQuery)
  | panicked (err : String)
  deriving DecidableEq, Repr

/-- The slice expression `s[low:high]` on a slice whose capacity is its
length: `none` when Go panics with "slice bounds out of range". -/
def sliceExpr {α : Type} (s : List α) (low high : Int) : Option (List α) :=
  if 0 ≤ low ∧ low ≤ high ∧ high ≤ (s.length : Int) then
    some ((s.drop low.toNat).take (high - low).toNat)
  else none

/-- The "pairs" case of the query handler, once the path is known to have
the segments `path[2]` and `path[3]`. -/
def queryPairs {Pair Level : Type} (env : QueryEnv Pair Level) (path2 path3 : String) :
    QueryOutcome :=
  let pairs := env.ListAllTradingPairs
  match env.Atoi path2 with
  | Except.error _ =>
    QueryOutcome.ret (some { Code := sdk.CodeInternal, Log := "unable to parse offset" })
  | Except.ok offset =>
    if offset < 0 ∨ offset > GoInt64.sub (pairs.length : Int) 1 then
      QueryOutcome.ret (some { Code := sdk.CodeInternal, Log := "unable to parse offset" })
    else
      match env.Atoi path3 with
      | Except.error _ =>
        QueryOutcome.ret (some { Code := sdk.CodeInternal, Log := "unable to parse limit" })
      | Except.ok limit =>
        if limit ≤ 0 then
          QueryOutcome.ret (some { Code := sdk.CodeInternal, Log := "unable to parse limit" })
        else
          let end_ := GoInt64.add offset limit
          let end_ := if end_ > (pairs.length : Int) then (pairs.length : Int) else end_
          if end_ ≤ 0 ∨ end_ ≤ offset then
            QueryOutcome.ret (some { Code := sdk.CodeInternal, Log := "malformed range" })
          else
            match sliceExpr pairs offset end_ with
            | none => QueryOutcome.panicked "slice bounds out of range"
            | some slice =>
              match env.MarshalPairs slice with
              | Except.error err =>
                QueryOutcome.ret (some { Code := sdk.CodeInternal, Log := err })
              | Except.ok bz =>
                QueryOutcome.ret (some { Code := sdk.ABCICodeOK, Value := bz })

/-- The handler returned by `createAbciQueryHandler(keeper)`, applied to
`(app, req, path)`; the request itself is not read. -/
def createAbciQueryHandler {Pair Level : Type} (env : QueryEnv Pair Level)
    (path : List String) : QueryOutcome :=
  match path with
  | [] => QueryOutcome.panicked "index out of range"
  | path0 :: rest =>
    if path0 ≠ abciQueryPrefix ∨ path.length < 2 then QueryOutcome.ret none
    else
      match rest with
      | [] => QueryOutcome.panicked "index out of range"
      | path1 :: args =>
        if path1 = "pairs" then
          if path.length < 4 then
            QueryOutcome.ret (some
              { Code := sdk.CodeUnknownRequest,
                Log := abciQueryPrefix ++ " " ++ path1
                  ++ " query requires offset and limit in the path" })
          else
            match args with
            | path2 :: path3 :: _ => queryPairs env path2 path3
            | _ => QueryOutcome.panicked "index out of range"
        else if path1 = "orderbook" then
          if path.length < 3 then
            QueryOutcome.ret (some
              { Code := sdk.CodeUnknownRequest,
                Log := "OrderBook query requires the pair symbol" })
          else
            match args with
            | pair :: _ =>
              let height := env.BlockHeight
              let levels := env.GetOrderBookLevels pair OB_LEVELS
              match env.MarshalBook { Height := height, Levels := levels } with
              | Except.error err =>
                QueryOutcome.ret (some { Code := sdk.CodeInternal, Log := err })
              | Except.ok bz =>
                QueryOutcome.ret (some { Code := sdk.ABCICodeOK, Value := bz })
            | [] => QueryOutcome.panicked "index out of range"
        else
          QueryOutcome.ret (some
            { Code := sdk.ABCICodeOK,
              Info := "Unknown \x60" ++ abciQueryPrefix ++ "\x60 query path: ["
                ++ " ".intercalate path ++ "]" })

end dex

/-! ## plugins/dex/order: the new-order handler, as app/ordertx_test.go exercises it -/

namespace order

/-- Modelled from the spec: the side of an order, a buy or a sell of the
base asset (`NewNewOrderMsg` is given 1 for a buy and 2 for a sell in
ordertx_test.go; the declaration is missing). -/
inductive Side where
  | BUY
  | SELL
  deriving DecidableEq, Repr

/-- Modelled from the spec: a new-order message (`NewOrderMsg` of
plugins/dex/order, missing): the sender, the order id, the side, the traded
pair as its base and quote asset (the symbol "BTC_BNB" has base BTC and
quote BNB), the price and the quantity.  Amounts are in the whole units the
spec counts in ("355 price / 100 quantity"); the test writes them with
eight decimals (`355e8`, `100e8`). -/
structure NewOrderMsg where
  Sender : sdk.AccAddress
  Id : String
  Side : Side
  BaseAsset : String
  QuoteAsset : String
  Price : Int
  Quantity : Int
  deriving DecidableEq, Repr

/-- Modelled from the spec: the balances of one account, per asset: what is
available and what is locked (`GetAvail`, `GetLocked` of the test). -/
structure Balances where
  Avail : String → Int
  Locked : String → Int

/-- Modelled from the spec: the asset and amount a new order must lock: "a
buy order for 355 price / 100 quantity on BTC_BNB requiring 355·100 = 35500
units locked" of the quote asset; a sell locks its quantity of the base
asset (orders 2.1 and 2.2 of the test). -/
def NewOrderMsg.lock (msg : NewOrderMsg) : String × Int :=
  match msg.Side with
  | Side.BUY => (msg.QuoteAsset, msg.Price * msg.Quantity)
  | Side.SELL => (msg.BaseAsset, msg.Quantity)

/-- Modelled from the spec: the new-order handler `handleNewOrder` (missing;
only its test is in app/ordertx_test.go), on CheckTx, as the end-to-end
scenario describes it: when more must be locked than is available the order
is rejected with InsufficientFunds ("do not have enough token to lock") and
the balances stay as they are; otherwise the order is accepted and the lock
amount moves from the available to the locked balance of its asset. -/
def handleNewOrder (balances : Balances) (msg : NewOrderMsg) : sdk.Result × Balances :=
  let asset := msg.lock.1
  let amount := msg.lock.2
  if amount > balances.Avail asset then
    ((sdk.ErrInsufficientFunds "do not have enough token to lock").Result, balances)
  else
    ({},
     { Avail := fun a => if a = asset then balances.Avail a - amount else balances.Avail a,
       Locked := fun a => if a = asset then balances.Locked a + amount else balances.Locked a })

end order

/-! ## Concrete data used to exercise the definitions -/

namespace Example

/-- An order resting on the book. -/
def order : pub.Order :=
  { Symbol := "BTC_BNB", Status := pub.ChangeType.Ack, OrderId := "o1", TradeId := "",
    Owner := "alice", Side := 1, OrderType := 2, Price := 355, Qty := 100,
    lastExecutedPrice := 0, lastExecutedQty := 0, cumQty := 0, fee := "",
    orderCreationTime := 0, transactionTime := 0, timeInForce := 1,
    currentExecutionType := 0, txHash := "" }

/-- An order carrying a status code outside the enumeration. -/
def strangeOrder : pub.Order :=
  { order with Status := pub.ChangeType.unrecognized 6, cumQty := 40, lastExecutedQty := 40 }

/-- An environment: signers are the distinct signers of the messages, a
signature is valid when it is the key bytes followed by the sign bytes,
"send" costs 10 BNB (sender pays), "vote" costs 5 BNB shared by validators
and "free" costs nothing. -/
def env : tx.Env where
  GetSigners := fun msgs => (msgs.map (fun m => m.Signers)).flatten.dedup
  StdSignBytes := fun _ accnum seq _ _ _ => [accnum.toNat, seq.toNat]
  PubKeyAddress := fun pk => pk.bytes
  VerifyBytes := fun pk signBytes sig => decide (sig = pk.bytes ++ signBytes)
  AddrString := fun addr => String.mk (addr.map Char.ofNat)
  GetCalculator := fun tpe =>
    if tpe = "send" then
      some (fun _ => types.NewFee [{ Denom := "BNB", Amount := 10 }] types.FeeForProposer)
    else if tpe = "vote" then
      some (fun _ => types.NewFee [{ Denom := "BNB", Amount := 5 }] types.FeeForAll)
    else if tpe = "free" then
      some (fun _ => types.NewFee [] types.FeeFree)
    else none

def alice : auth.Account :=
  { Address := [1], Coins := [{ Denom := "BNB", Amount := 500 }, { Denom := "BTC", Amount := 200 }],
    PubKey := some { bytes := [1] }, AccountNumber := 0, Sequence := 7 }

def bob : auth.Account :=
  { Address := [2], Coins := [{ Denom := "BNB", Amount := 10 }],
    PubKey := none, AccountNumber := 1, Sequence := 0 }

/-- The account store holding alice and bob. -/
def store : auth.AccountMapper := [alice, bob]

/-- A context in real-execution mode with an empty block fee. -/
def deliverCtx : sdk.Context :=
  { chainID := "chain", isCheckTx := false, gasMeter := sdk.NewGasMeter 0,
    feeValue := none, signers := [] }

/-- A context in CheckTx mode with an empty block fee. -/
def checkCtx : sdk.Context := { deliverCtx with isCheckTx := true }

def sendMsg : tx.Msg := { Tpe := "send", Signers := [[1], [2]], Body := [] }

def voteMsg : tx.Msg := { Tpe := "vote", Signers := [[1]], Body := [] }

def freeMsg : tx.Msg := { Tpe := "free", Signers := [[1]], Body := [] }

/-- A transaction signed by alice (sequence 7) and bob (sequence 0, who
presents his key). -/
def sendTx : tx.StdTx :=
  { Msgs := [sendMsg], Fee := { Amount := [], Gas := 1000 },
    Signatures :=
      [{ PubKey := none, Signature := [1, 0, 7], AccountNumber := 0, Sequence := 7 },
       { PubKey := some { bytes := [2] }, Signature := [2, 1, 0], AccountNumber := 1,
         Sequence := 0 }],
    Memo := "hello" }

/-- One signer, one signature, and a memo of 51 two-byte characters. -/
def accentedMemoTx : tx.StdTx :=
  { Msgs := [voteMsg], Fee := { Amount := [], Gas := 1000 },
    Signatures :=
      [{ PubKey := none, Signature := [1, 0, 7], AccountNumber := 0, Sequence := 7 }],
    Memo := String.mk (List.replicate 51 (Char.ofNat 233)) }

/-- Two charges in one block: alice pays for a send, bob for a vote. -/
def blockCalls : List (auth.Account × tx.Msg) := [(alice, sendMsg), (bob, voteMsg)]

/-- The fees of `blockCalls`. -/
def blockFees : List types.Fee :=
  [types.NewFee [{ Denom := "BNB", Amount := 10 }] types.FeeForProposer,
   types.NewFee [{ Denom := "BNB", Amount := 5 }] types.FeeForAll]

/-- The context after `blockCalls`. -/
def blockCtx : sdk.Context :=
  { deliverCtx with
    feeValue := some { Tokens := [{ Denom := "BNB", Amount := 15 }], Tpe := types.FeeForAll } }

/-- The account store after `blockCalls`. -/
def blockStore : auth.AccountMapper :=
  [{ bob with Coins := [{ Denom := "BNB", Amount := 5 }] },
   { alice with Coins := [{ Denom := "BNB", Amount := 490 }, { Denom := "BTC", Amount := 200 }] }]

/-- The fee of a send. -/
def sendFee : types.Fee :=
  types.NewFee [{ Denom := "BNB", Amount := 10 }] types.FeeForProposer

/-- The environment `env` with one more calculator: a "rebate" message is
charged the fee -5 BNB (sender pays). -/
def rebateEnv : tx.Env :=
  { env with
    GetCalculator := fun tpe =>
      if tpe = "rebate" then
        some (fun _ => types.NewFee [{ Denom := "BNB", Amount := -5 }] types.FeeForProposer)
      else env.GetCalculator tpe }

def rebateMsg : tx.Msg := { Tpe := "rebate", Signers := [[1]], Body := [] }

/-- Three charges in one block: a vote (5 BNB, shared by validators), a
rebate (-5 BNB) and a send (10 BNB). -/
def cancelCalls : List (auth.Account × tx.Msg) :=
  [(alice, voteMsg), (alice, rebateMsg), (alice, sendMsg)]

/-- The context after `blockCalls` followed by one more send. -/
def blockCtx2 : sdk.Context :=
  { deliverCtx with
    feeValue := some { Tokens := [{ Denom := "BNB", Amount := 25 }], Tpe := types.FeeForAll } }

/-- The account store after `blockCalls` followed by one more send paid by
the account `alice`. -/
def blockStore2 : auth.AccountMapper :=
  [{ alice with Coins := [{ Denom := "BNB", Amount := 490 }, { Denom := "BTC", Amount := 200 }] },
   { bob with Coins := [{ Denom := "BNB", Amount := 5 }] }]

/-- The transaction `sendTx` with bob presenting sequence 3 instead of 0. -/
def halfSignedTx : tx.StdTx :=
  { sendTx with
    Signatures :=
      [{ PubKey := none, Signature := [1, 0, 7], AccountNumber := 0, Sequence := 7 },
       { PubKey := some { bytes := [2] }, Signature := [2, 1, 3], AccountNumber := 1,
         Sequence := 3 }] }

/-- The account of alice after one admitted signature. -/
def aliceBumped : auth.Account := { alice with Sequence := 8 }

/-- A signature for alice presenting account number 5 (hers is 0). -/
def wrongNumberSig : tx.StdSignature :=
  { PubKey := none, Signature := [1, 5, 7], AccountNumber := 5, Sequence := 7 }

/-- A signature for alice presenting sequence 9 (hers is 7). -/
def wrongSequenceSig : tx.StdSignature :=
  { PubKey := none, Signature := [1, 0, 9], AccountNumber := 0, Sequence := 9 }

/-- The helper strings of plugins/dex/order, with "Unknown" for a status
outside the enumeration. -/
def orderPkg : pub.OrderPkg where
  ChangeTypeString := fun s =>
    match s with
    | pub.ChangeType.Ack => "Ack"
    | pub.ChangeType.Canceled => "Canceled"
    | pub.ChangeType.Expired => "Expired"
    | pub.ChangeType.IocNoFill => "IocNoFill"
    | pub.ChangeType.PartialFill => "PartialFill"
    | pub.ChangeType.FullyFill => "FullyFill"
    | pub.ChangeType.unrecognized _ => "Unknown"
  IToSide := fun side => if side = 1 then "BUY" else if side = 2 then "SELL" else "UNKNOWN"
  IToOrderType := fun t => if t = 2 then "LIMIT" else "UNKNOWN"
  IToTimeInForce := fun t => if t = 1 then "GTC" else if t = 3 then "IOC" else "UNKNOWN"
  ExecutionTypeString := fun t => if t = 0 then "NEW" else "UNKNOWN"

/-- A publication configuration with every family enabled. -/
def cfg : pub.PublicationConfig :=
  { PublishOrderUpdates := true, OrderUpdatesTopic := "orders", OrderUpdatesKafka := "k1:9092",
    PublishOrderBook := true, OrderBookTopic := "books", OrderBookKafka := "k1:9092",
    PublishAccountBalance := true, AccountBalanceTopic := "accounts",
    AccountBalanceKafka := "k1:9092",
    PublishBlockFee := true, BlockFeeTopic := "blockfee", BlockFeeKafka := "k1:9092",
    PublishTransfer := true, TransferTopic := "transfers", TransferKafka := "k1:9092" }

/-- A codec that encodes a record with at least one field as the number of
its fields and fails on everything else. -/
def codec : pub.Codec := fun native =>
  match native with
  | pub.Native.map (_ :: rest) => Except.ok [rest.length + 1]
  | _ => Except.error "cannot encode"

/-- A publisher with a producer for every topic of `cfg`. -/
def publisher : pub.KafkaMarketDataPublisher :=
  { booksCodec := codec, accountCodec := codec, executionResultsCodec := codec,
    blockFeeCodec := codec, transfersCodec := codec, essentialLogPath := "/data/essential",
    producers := ["orders", "books", "accounts", "blockfee", "transfers"] }

/-- An execution-results event with an essential payload and a
serializable empty copy. -/
def execEvent : pub.Message :=
  { msg := { ToNativeMap := pub.Native.map
               [("height", pub.Native.long 100), ("numOfMsgs", pub.Native.int 2),
                ("trades", pub.Native.array [])],
             Text := "ExecutionResult at height: 100, numOfMsgs: 2" },
    essMsg := some
      { EssentialMsg := "height:100",
        EmptyCopy := { ToNativeMap := pub.Native.map
                         [("height", pub.Native.long 100), ("numOfMsgs", pub.Native.int 0)],
                       Text := "ExecutionResult at height: 100, numOfMsgs: 0" } } }

/-- An order-book event: it is not an `EssMsg`. -/
def booksEvent : pub.Message :=
  { msg := { ToNativeMap := pub.Native.map [("height", pub.Native.long 100)],
             Text := "Books at height: 100, numOfMsgs: 0" },
    essMsg := none }

/-- An event whose empty copy does not serialize. -/
def brokenCopyEvent : pub.Message :=
  { execEvent with
    essMsg := some
      { EssentialMsg := "height:100",
        EmptyCopy := { ToNativeMap := pub.Native.map [], Text := "empty" } } }

/-- An event that does not serialize. -/
def brokenEvent : pub.Message :=
  { msg := { ToNativeMap := pub.Native.map [], Text := "broken" }, essMsg := none }

/-- The broker has no reachable broker (retriable). -/
def outOfBrokers : pub.SendResponse :=
  { partition := -1, offset := -1, err := some pub.SendError.ErrOutOfBrokers }

/-- The broker refuses the message (not retriable). -/
def tooLarge : pub.SendResponse :=
  { partition := -1, offset := -1, err := some (pub.SendError.other "message too large") }

/-- The broker accepts the message. -/
def delivered : pub.SendResponse := { partition := 0, offset := 42, err := none }

/-- The message `publish` builds for `execEvent` at height 100, timestamp
1540000000000. -/
def execKafkaMsg : pub.ProducerMessage :=
  { Topic := "orders", Partition := -1, Key := "100_1540000000000_ExecutionResults",
    Value := [3] }

/-- A signature of bob (account number 1, sequence 0) presenting his key. -/
def bobSig : tx.StdSignature :=
  { PubKey := some { bytes := [2] }, Signature := [2, 1, 0], AccountNumber := 1, Sequence := 0 }

/-- A transaction with two messages and two signers: a send signed by
alice and bob, then a vote signed by bob. -/
def twoMsgTx : tx.StdTx :=
  { sendTx with Msgs := [sendMsg, { Tpe := "vote", Signers := [[2]], Body := [] }] }

/-- A message of a type no fee calculator is registered for. -/
def burnMsg : tx.Msg := { Tpe := "burn", Signers := [[1]], Body := [] }

/-- A transaction signed by alice whose only message is `burnMsg`. -/
def burnTx : tx.StdTx :=
  { Msgs := [burnMsg], Fee := { Amount := [], Gas := 1000 },
    Signatures :=
      [{ PubKey := none, Signature := [1, 0, 7], AccountNumber := 0, Sequence := 7 }],
    Memo := "" }

/-- The transaction `sendTx` with bob presenting his key, the right account
number and sequence number, and signature bytes that do not verify. -/
def forgedTx : tx.StdTx :=
  { sendTx with
    Signatures :=
      [{ PubKey := none, Signature := [1, 0, 7], AccountNumber := 0, Sequence := 7 },
       { PubKey := some { bytes := [2] }, Signature := [9, 9, 9], AccountNumber := 1,
         Sequence := 0 }] }

/-- The configuration `cfg` with the order-book family disabled. -/
def noBooksCfg : pub.PublicationConfig := { cfg with PublishOrderBook := false }

/-- The configuration `noBooksCfg` with the order-book topic set to the
topic of the (enabled) order updates. -/
def sharedTopicCfg : pub.PublicationConfig := { noBooksCfg with OrderBookTopic := "orders" }

/-- A publisher that has no producer yet. -/
def freshPublisher : pub.KafkaMarketDataPublisher := { publisher with producers := [] }

/-- The circuit breaker of the broker connection is open (retriable). -/
def breakerOpen : pub.SendResponse :=
  { partition := -1, offset := -1, err := some pub.SendError.ErrBreakerOpen }

/-- Every connection succeeds. -/
def connect : String → Option String := fun _ => none

/-- The decimal digits of a string as a number, when it is a non-empty run
of digits. -/
def digits (cs : List Char) : Option Nat :=
  if cs ≠ [] ∧ cs.all (fun c => decide ('0' ≤ c ∧ c ≤ '9')) = true then
    some (cs.foldl (fun n c => 10 * n + (c.toNat - 48)) 0)
  else none

/-- A stand-in for `strconv.Atoi` on a 64-bit platform: an optional sign
and decimal digits; an error on any other text and on a value outside the
int64 range. -/
def Atoi (s : String) : Except String Int :=
  let parsed : Option Int :=
    match s.data with
    | '-' :: cs => (digits cs).map (fun n => -(n : Int))
    | '+' :: cs => (digits cs).map (fun n => (n : Int))
    | cs => (digits cs).map (fun n => (n : Int))
  match parsed with
  | none => Except.error "invalid syntax"
  | some n => if GoInt64.InRange n then Except.ok n else Except.error "value out of range"

/-- A query environment over three trading pairs, named by strings; the
codec encodes a slice of pairs as the lengths of their names. -/
def queryEnv : dex.QueryEnv String Int :=
  { Atoi := Atoi,
    ListAllTradingPairs := ["BTC_BNB", "ETH_BNB", "XRP_BNB"],
    BlockHeight := 100,
    GetOrderBookLevels := fun _ _ => [],
    MarshalPairs := fun pairs => Except.ok (pairs.map String.length),
    MarshalBook := fun book => Except.ok [book.Levels.length] }

/-- Account A of the scenario: 500 BNB and 200 BTC available, nothing
locked. -/
def balances : order.Balances :=
  { Avail := fun a => if a = "BNB" then 500 else if a = "BTC" then 200 else 0,
    Locked := fun _ => 0 }

/-- A buy of 100 BTC at 355 BNB. -/
def bigBuy : order.NewOrderMsg :=
  { Sender := [1], Id := "order1", Side := order.Side.BUY, BaseAsset := "BTC",
    QuoteAsset := "BNB", Price := 355, Quantity := 100 }

/-- A buy of 1 BTC at 355 BNB. -/
def smallBuy : order.NewOrderMsg := { bigBuy with Id := "order1.2", Quantity := 1 }

end Example

/-! ## Theorems -/

namespace GoInt64

/-- A representable value is left alone by the reduction. -/
theorem wrap_of_inRange {x : Int} (h : InRange x) : wrap x = x := by
  obtain ⟨h1, h2⟩ := h
  unfold wrap
  omega

/-- Below the largest int64, `s + 1` does not wrap. -/
theorem add_one_of_lt_max {s : Int} (h : InRange s) (hmax : s ≠ 9223372036854775807) :
    add s 1 = s + 1 := by
  obtain ⟨h1, h2⟩ := h
  unfold add wrap
  omega

/-- Above the smallest int64, `-a` does not wrap. -/
theorem neg_of_gt_min {a : Int} (h : InRange a) (hmin : a ≠ -9223372036854775808) :
    neg a = -a := by
  obtain ⟨h1, h2⟩ := h
  unfold neg wrap
  omega

/-- A representable difference is computed exactly. -/
theorem sub_of_inRange {a b : Int} (h : InRange (a - b)) : sub a b = a - b :=
  wrap_of_inRange h

end GoInt64

namespace pub

/-- C3: for every Order, `effectQtyToOrderBook` returns `Qty` when the status
is Ack, `-lastExecutedQty` when it is PartialFill or FullyFill, and
`cumQty - Qty` when it is Expired, IocNoFill or Canceled (negation and
subtraction are those of Go int64). -/
theorem effectQtyToOrderBook_by_status (msg : Order) :
    ({ msg with Status := ChangeType.Ack }).effectQtyToOrderBook = msg.Qty ∧
    ({ msg with Status := ChangeType.PartialFill }).effectQtyToOrderBook
      = GoInt64.neg msg.lastExecutedQty ∧
    ({ msg with Status := ChangeType.FullyFill }).effectQtyToOrderBook
      = GoInt64.neg msg.lastExecutedQty ∧
    ({ msg with Status := ChangeType.Expired }).effectQtyToOrderBook
      = GoInt64.sub msg.cumQty msg.Qty ∧
    ({ msg with Status := ChangeType.IocNoFill }).effectQtyToOrderBook
      = GoInt64.sub msg.cumQty msg.Qty ∧
    ({ msg with Status := ChangeType.Canceled }).effectQtyToOrderBook
      = GoInt64.sub msg.cumQty msg.Qty :=
  ⟨rfl, rfl, rfl, rfl, rfl, rfl⟩

/-- C4: for every Order whose status is none of Ack, PartialFill, FullyFill,
Expired, IocNoFill, Canceled, `effectQtyToOrderBook` returns 0, whatever
Qty, cumQty and lastExecutedQty are. -/
theorem effectQtyToOrderBook_unrecognized (msg : Order)
    (h : msg.Status ≠ ChangeType.Ack ∧ msg.Status ≠ ChangeType.PartialFill ∧
      msg.Status ≠ ChangeType.FullyFill ∧ msg.Status ≠ ChangeType.Expired ∧
      msg.Status ≠ ChangeType.IocNoFill ∧ msg.Status ≠ ChangeType.Canceled) :
    msg.effectQtyToOrderBook = 0 := by
  obtain ⟨h1, h2, h3, h4, h5, h6⟩ := h
  unfold Order.effectQtyToOrderBook
  cases hs : msg.Status <;> simp_all

theorem effectQtyToOrderBook_unrecognized_witness :
    Example.strangeOrder.effectQtyToOrderBook = 0 :=
  effectQtyToOrderBook_unrecognized Example.strangeOrder (by decide)

/-- C5: for an int64 quantity Q and executions e1, e2 ≥ 0 with e1 + e2 ≤ Q,
the deltas of the lifecycle Ack(Qty = Q), PartialFill(lastExecutedQty = e1),
PartialFill(lastExecutedQty = e2), Expired(Qty = Q, cumQty = e1 + e2) sum
to 0. -/
theorem effectQtyToOrderBook_lifecycle_sum (o1 o2 o3 o4 : Order) (Q e1 e2 : Int)
    (hQ : GoInt64.InRange Q) (h1 : 0 ≤ e1) (h2 : 0 ≤ e2) (hle : e1 + e2 ≤ Q) :
    ({ o1 with Status := ChangeType.Ack, Qty := Q }).effectQtyToOrderBook
      + ({ o2 with Status := ChangeType.PartialFill, lastExecutedQty := e1 }).effectQtyToOrderBook
      + ({ o3 with Status := ChangeType.PartialFill, lastExecutedQty := e2 }).effectQtyToOrderBook
      + ({ o4 with Status := ChangeType.Expired, Qty := Q, cumQty := e1 + e2 }).effectQtyToOrderBook
      = 0 := by
  obtain ⟨hlo, hhi⟩ := hQ
  simp only [Order.effectQtyToOrderBook, GoInt64.neg, GoInt64.sub, GoInt64.wrap]
  omega

theorem effectQtyToOrderBook_lifecycle_sum_witness :
    ({ Example.order with Status := ChangeType.Ack, Qty := 100 }).effectQtyToOrderBook
      + ({ Example.order with
            Status := ChangeType.PartialFill, lastExecutedQty := 30 }).effectQtyToOrderBook
      + ({ Example.order with
            Status := ChangeType.PartialFill, lastExecutedQty := 25 }).effectQtyToOrderBook
      + ({ Example.order with
            Status := ChangeType.Expired, Qty := 100, cumQty := 30 + 25 }).effectQtyToOrderBook
      = 0 :=
  effectQtyToOrderBook_lifecycle_sum Example.order Example.order Example.order Example.order
    100 30 25 (by decide) (by decide) (by decide) (by decide)

end pub

namespace sdk

theorem denomLt_trans {a b c : String} (h1 : denomLt a b) (h2 : denomLt b c) : denomLt a c := by
  unfold denomLt at *; exact lt_trans h1 h2

theorem denomLt_ne {a b : String} (h : denomLt a b) : a ≠ b := by
  intro e; subst e; unfold denomLt at h; exact lt_irrefl _ h

theorem denomLt_of_not {a b : String} (h1 : ¬ denomLt a b) (h2 : a ≠ b) : denomLt b a := by
  unfold denomLt at *
  rcases lt_trichotomy a.data b.data with h | h | h
  · exact absurd h h1
  · exact absurd (String.ext h) h2
  · exact h

instance : IsTotal Coin (fun a b : Coin => a.Denom.data ≤ b.Denom.data) :=
  ⟨fun _ _ => le_total _ _⟩

instance : IsTrans Coin (fun a b : Coin => a.Denom.data ≤ b.Denom.data) :=
  ⟨fun _ _ _ h1 h2 => le_trans h1 h2⟩

theorem amountOf_nil (d : String) : Coins.amountOf [] d = 0 := rfl

theorem amountOf_cons (c : Coin) (l : Coins) (d : String) :
    Coins.amountOf (c :: l) d = (if c.Denom = d then c.Amount else 0) + Coins.amountOf l d := by
  simp [Coins.amountOf]

theorem amountOf_plusGo (d : String) (a : Coin) (as : Coins) (recAs : Coins → Coins)
    (hrec : ∀ B, Coins.amountOf (recAs B) d = Coins.amountOf as d + Coins.amountOf B d) :
    ∀ B, Coins.amountOf (Coins.plusGo a as recAs B) d
      = Coins.amountOf (a :: as) d + Coins.amountOf B d := by
  intro B
  induction B with
  | nil => simp [Coins.plusGo, amountOf_nil]
  | cons b bs ih =>
    unfold Coins.plusGo
    split
    · rw [amountOf_cons, hrec, amountOf_cons a as]; ring
    · split
      · rename_i hab
        split
        · rename_i hz
          rw [hrec, amountOf_cons a as, amountOf_cons b bs, ← hab]
          split <;> omega
        · rw [amountOf_cons, hrec, amountOf_cons a as, amountOf_cons b bs, ← hab]
          dsimp only
          split <;> omega
      · rw [amountOf_cons, ih, amountOf_cons b bs]; ring

/-- `Plus` adds the amounts held in every denomination. -/
theorem amountOf_Plus (d : String) : ∀ A B : Coins,
    Coins.amountOf (Coins.Plus A B) d = Coins.amountOf A d + Coins.amountOf B d := by
  intro A
  induction A with
  | nil => intro B; simp [Coins.Plus, amountOf_nil]
  | cons a as ih =>
    intro B
    unfold Coins.Plus
    exact amountOf_plusGo d a as (Coins.Plus as) ih B

theorem amountOf_Negative (d : String) (B : Coins) :
    Coins.amountOf (Coins.Negative B) d = - Coins.amountOf B d := by
  induction B with
  | nil => rfl
  | cons b bs ih =>
    have h : Coins.Negative (b :: bs)
        = { Denom := b.Denom, Amount := -b.Amount } :: Coins.Negative bs := rfl
    rw [h, amountOf_cons, amountOf_cons, ih]
    dsimp only
    split <;> omega

/-- `Minus` subtracts the amounts held in every denomination. -/
theorem amountOf_Minus (d : String) (A B : Coins) :
    Coins.amountOf (Coins.Minus A B) d = Coins.amountOf A d - Coins.amountOf B d := by
  unfold Coins.Minus
  rw [amountOf_Plus, amountOf_Negative]; ring

theorem Sort_perm (coins : Coins) : List.Perm coins.Sort coins :=
  List.perm_insertionSort _ _

/-- Sorting does not change the amount held in any denomination. -/
theorem amountOf_Sort (d : String) (coins : Coins) :
    Coins.amountOf coins.Sort d = Coins.amountOf coins d := by
  unfold Coins.amountOf
  exact ((Sort_perm coins).map _).sum_eq

theorem IsNotNegative_eq_false_iff (coins : Coins) :
    coins.IsNotNegative = false ↔ ∃ c ∈ coins, c.Amount < 0 := by
  unfold Coins.IsNotNegative
  rw [List.all_eq_false]
  constructor
  · rintro ⟨c, hc, h⟩
    exact ⟨c, hc, by simpa using h⟩
  · rintro ⟨c, hc, h⟩
    exact ⟨c, hc, by simpa using h⟩

/-- A negative total in some denomination needs a coin with a negative
amount. -/
theorem exists_neg_of_amountOf_neg (d : String) (coins : Coins)
    (h : Coins.amountOf coins d < 0) : ∃ c ∈ coins, c.Amount < 0 := by
  induction coins with
  | nil => simp [amountOf_nil] at h
  | cons c l ih =>
    rw [amountOf_cons] at h
    by_cases hc : c.Amount < 0
    · exact ⟨c, List.mem_cons_self _ _, hc⟩
    · have hl : Coins.amountOf l d < 0 := by
        split at h <;> omega
      obtain ⟨c', hc', hneg⟩ := ih hl
      exact ⟨c', List.mem_cons_of_mem _ hc', hneg⟩

/-- In a coin set with strictly increasing denominations the total held in
a coin's denomination is that coin's amount. -/
theorem amountOf_of_mem {coins : Coins} (hs : coins.StrictSorted) {c : Coin} (hc : c ∈ coins) :
    Coins.amountOf coins c.Denom = c.Amount := by
  induction coins with
  | nil => cases hc
  | cons x l ih =>
    unfold Coins.StrictSorted at hs
    rw [List.pairwise_cons] at hs
    have hzero : ∀ l' : Coins, (∀ y ∈ l', y.Denom ≠ c.Denom) → Coins.amountOf l' c.Denom = 0 := by
      intro l' hl'
      induction l' with
      | nil => rfl
      | cons y ys ihy =>
        rw [amountOf_cons, if_neg (hl' y (List.mem_cons_self _ _)),
          ihy (fun z hz => hl' z (List.mem_cons_of_mem _ hz))]
        rfl
    rw [amountOf_cons]
    rcases List.mem_cons.1 hc with h | h
    · subst h
      rw [if_pos rfl, hzero l (fun y hy => (denomLt_ne (hs.1 y hy)).symm)]
      omega
    · rw [if_neg (denomLt_ne (hs.1 c h)), ih hs.2 h]
      omega

theorem mem_plusGo_denom (a : Coin) (as : Coins) (recAs : Coins → Coins)
    (hrec : ∀ (B : Coins) (c : Coin), c ∈ recAs B →
      (∃ x ∈ as, x.Denom = c.Denom) ∨ (∃ y ∈ B, y.Denom = c.Denom)) :
    ∀ (B : Coins) (c : Coin), c ∈ Coins.plusGo a as recAs B →
      (∃ x ∈ a :: as, x.Denom = c.Denom) ∨ (∃ y ∈ B, y.Denom = c.Denom) := by
  intro B
  induction B with
  | nil =>
    intro c hc
    exact Or.inl ⟨c, by simpa [Coins.plusGo] using hc, rfl⟩
  | cons b bs ih =>
    intro c hc
    unfold Coins.plusGo at hc
    split at hc
    · rcases List.mem_cons.1 hc with h | h
      · exact Or.inl ⟨a, List.mem_cons_self _ _, by rw [h]⟩
      · rcases hrec _ c h with ⟨x, hx, hxd⟩ | ⟨y, hy, hyd⟩
        · exact Or.inl ⟨x, List.mem_cons_of_mem _ hx, hxd⟩
        · exact Or.inr ⟨y, hy, hyd⟩
    · split at hc
      · have hsub : c ∈ recAs bs → (∃ x ∈ a :: as, x.Denom = c.Denom) ∨
            (∃ y ∈ b :: bs, y.Denom = c.Denom) := by
          intro h
          rcases hrec _ c h with ⟨x, hx, hxd⟩ | ⟨y, hy, hyd⟩
          · exact Or.inl ⟨x, List.mem_cons_of_mem _ hx, hxd⟩
          · exact Or.inr ⟨y, List.mem_cons_of_mem _ hy, hyd⟩
        split at hc
        · exact hsub hc
        · rcases List.mem_cons.1 hc with h | h
          · exact Or.inl ⟨a, List.mem_cons_self _ _, by rw [h]⟩
          · exact hsub h
      · rcases List.mem_cons.1 hc with h | h
        · exact Or.inr ⟨b, List.mem_cons_self _ _, by rw [h]⟩
        · rcases ih c h with ⟨x, hx, hxd⟩ | ⟨y, hy, hyd⟩
          · exact Or.inl ⟨x, hx, hxd⟩
          · exact Or.inr ⟨y, List.mem_cons_of_mem _ hy, hyd⟩

theorem mem_Plus_denom : ∀ (A B : Coins) (c : Coin), c ∈ Coins.Plus A B →
    (∃ x ∈ A, x.Denom = c.Denom) ∨ (∃ y ∈ B, y.Denom = c.Denom) := by
  intro A
  induction A with
  | nil =>
    intro B c hc
    exact Or.inr ⟨c, by simpa [Coins.Plus] using hc, rfl⟩
  | cons a as ih =>
    intro B c hc
    unfold Coins.Plus at hc
    exact mem_plusGo_denom a as (Coins.Plus as) ih B c hc

theorem strictSorted_plusGo (a : Coin) (as : Coins) (recAs : Coins → Coins)
    (hA : Coins.StrictSorted (a :: as))
    (hrecS : ∀ B : Coins, B.StrictSorted → Coins.StrictSorted (recAs B))
    (hrecM : ∀ (B : Coins) (c : Coin), c ∈ recAs B →
      (∃ x ∈ as, x.Denom = c.Denom) ∨ (∃ y ∈ B, y.Denom = c.Denom)) :
    ∀ B : Coins, B.StrictSorted → Coins.StrictSorted (Coins.plusGo a as recAs B) := by
  have hA' := hA
  unfold Coins.StrictSorted at hA'
  rw [List.pairwise_cons] at hA'
  intro B
  induction B with
  | nil => intro _; simpa [Coins.plusGo] using hA
  | cons b bs ih =>
    intro hB
    have hB' := hB
    unfold Coins.StrictSorted at hB'
    rw [List.pairwise_cons] at hB'
    unfold Coins.plusGo
    split
    · rename_i hab
      unfold Coins.StrictSorted
      rw [List.pairwise_cons]
      refine ⟨?_, hrecS _ hB⟩
      intro c hc
      rcases hrecM _ c hc with ⟨x, hx, hxd⟩ | ⟨y, hy, hyd⟩
      · rw [← hxd]; exact hA'.1 x hx
      · rw [← hyd]
        rcases List.mem_cons.1 hy with h | h
        · rw [h]; exact hab
        · exact denomLt_trans hab (hB'.1 y h)
    · rename_i hab
      split
      · rename_i heq
        have htail : Coins.StrictSorted (recAs bs) := hrecS bs hB'.2
        have hhead : ∀ c ∈ recAs bs, denomLt a.Denom c.Denom := by
          intro c hc
          rcases hrecM _ c hc with ⟨x, hx, hxd⟩ | ⟨y, hy, hyd⟩
          · rw [← hxd]; exact hA'.1 x hx
          · rw [← hyd, heq]; exact hB'.1 y hy
        split
        · exact htail
        · unfold Coins.StrictSorted
          rw [List.pairwise_cons]
          exact ⟨hhead, htail⟩
      · rename_i hne
        have hba : denomLt b.Denom a.Denom := denomLt_of_not hab hne
        unfold Coins.StrictSorted
        rw [List.pairwise_cons]
        refine ⟨?_, ih hB'.2⟩
        intro c hc
        rcases mem_plusGo_denom a as recAs hrecM bs c hc with ⟨x, hx, hxd⟩ | ⟨y, hy, hyd⟩
        · rw [← hxd]
          rcases List.mem_cons.1 hx with h | h
          · rw [h]; exact hba
          · exact denomLt_trans hba (hA'.1 x h)
        · rw [← hyd]; exact hB'.1 y hy

/-- `Plus` of two coin sets with strictly increasing denominations has
strictly increasing denominations. -/
theorem strictSorted_Plus : ∀ A B : Coins, A.StrictSorted → B.StrictSorted →
    Coins.StrictSorted (Coins.Plus A B) := by
  intro A
  induction A with
  | nil => intro B _ hB; simpa [Coins.Plus] using hB
  | cons a as ih =>
    intro B hA hB
    have hA' := hA
    unfold Coins.StrictSorted at hA'
    rw [List.pairwise_cons] at hA'
    unfold Coins.Plus
    exact strictSorted_plusGo a as (Coins.Plus as) hA (fun B' hB' => ih B' hA'.2 hB')
      (mem_Plus_denom as) B hB

theorem strictSorted_Negative (B : Coins) (h : B.StrictSorted) :
    Coins.StrictSorted (Coins.Negative B) := by
  unfold Coins.StrictSorted Coins.Negative at *
  rw [List.pairwise_map]
  exact h

/-- Sorting coins whose denominations are pairwise distinct gives strictly
increasing denominations. -/
theorem strictSorted_Sort (coins : Coins) (h : (coins.map (fun c => c.Denom)).Nodup) :
    Coins.StrictSorted coins.Sort := by
  have hs : List.Pairwise (fun a b : Coin => a.Denom.data ≤ b.Denom.data) coins.Sort :=
    List.sorted_insertionSort _ _
  have hn : (coins.Sort.map (fun c => c.Denom)).Nodup :=
    ((Sort_perm coins).map _).nodup_iff.2 h
  unfold List.Nodup at hn
  rw [List.pairwise_map] at hn
  unfold Coins.StrictSorted
  refine (hs.and hn).imp ?_
  intro a b hab
  unfold denomLt
  exact lt_of_le_of_ne hab.1 (fun e => hab.2 (String.ext e))

/-- Exactness of the funds check: with the payer's coins a valid coin set
and the fee denominations pairwise distinct, the difference has a negative
coin exactly when the balance minus the fee is negative in some
denomination. -/
theorem Minus_Sort_negative_iff (coins tokens : Coins) (hc : coins.StrictSorted)
    (ht : (tokens.map (fun c => c.Denom)).Nodup) :
    (coins.Minus tokens.Sort).IsNotNegative = false ↔
      ∃ d, Coins.amountOf coins d - Coins.amountOf tokens d < 0 := by
  have hsorted : Coins.StrictSorted (coins.Minus tokens.Sort) :=
    strictSorted_Plus _ _ hc (strictSorted_Negative _ (strictSorted_Sort tokens ht))
  rw [IsNotNegative_eq_false_iff]
  constructor
  · rintro ⟨c, hmem, hneg⟩
    refine ⟨c.Denom, ?_⟩
    have := amountOf_of_mem hsorted hmem
    rw [amountOf_Minus, amountOf_Sort] at this
    omega
  · rintro ⟨d, hd⟩
    apply exists_neg_of_amountOf_neg d
    rw [amountOf_Minus, amountOf_Sort]
    exact hd

end sdk

namespace auth

theorem GetAccount_address {am : AccountMapper} {addr : sdk.AccAddress} {acc : Account}
    (h : am.GetAccount addr = some acc) : acc.Address = addr := by
  unfold AccountMapper.GetAccount at h
  simpa using List.find?_some h

theorem GetAccount_SetAccount_self (am : AccountMapper) (acc : Account) :
    (am.SetAccount acc).GetAccount acc.Address = some acc := by
  simp [AccountMapper.SetAccount, AccountMapper.GetAccount]

theorem GetAccount_SetAccount_of_ne (am : AccountMapper) (acc : Account)
    (addr : sdk.AccAddress) (h : addr ≠ acc.Address) :
    (am.SetAccount acc).GetAccount addr = am.GetAccount addr := by
  unfold AccountMapper.SetAccount AccountMapper.GetAccount
  have hne : ¬ acc.Address = addr := fun e => h e.symm
  rw [List.find?_cons_of_neg _ (by simp [hne])]
  induction am with
  | nil => rfl
  | cons a rest ih =>
    rw [List.filter_cons]
    by_cases ha : a.Address = acc.Address
    · have hna : ¬ a.Address = addr := fun e => h (e.symm.trans ha)
      rw [if_neg (by simp [ha]), List.find?_cons_of_neg _ (by simp [hna]), ih]
    · rw [if_pos (by simp [ha])]
      by_cases hb : a.Address = addr
      · rw [List.find?_cons_of_pos _ (by simp [hb]), List.find?_cons_of_pos _ (by simp [hb])]
      · rw [List.find?_cons_of_neg _ (by simp [hb]), List.find?_cons_of_neg _ (by simp [hb]), ih]

end auth

namespace tx

/-- The three rejection conditions of `validateBasic`, with the memo length
taken in bytes as `len(memo)` does. -/
theorem validateBasic_isSome_iff (env : Env) (stdTx : StdTx) :
    (validateBasic env stdTx).isSome = true ↔
      stdTx.Signatures.length = 0 ∨
      stdTx.Signatures.length ≠ (env.GetSigners stdTx.Msgs).length ∨
      100 < stdTx.Memo.utf8ByteSize := by
  unfold validateBasic maxMemoCharacters
  dsimp only
  by_cases h1 : stdTx.Signatures.length = 0
  · rw [if_pos h1]
    exact ⟨fun _ => Or.inl h1, fun _ => rfl⟩
  · rw [if_neg h1]
    by_cases h2 : stdTx.Signatures.length ≠ (env.GetSigners stdTx.Msgs).length
    · rw [if_pos h2]
      exact ⟨fun _ => Or.inr (Or.inl h2), fun _ => rfl⟩
    · rw [if_neg h2]
      by_cases h3 : (stdTx.Memo.utf8ByteSize : Int) > 100
      · rw [if_pos h3]
        exact ⟨fun _ => Or.inr (Or.inr (by exact_mod_cast h3)), fun _ => rfl⟩
      · rw [if_neg h3]
        constructor
        · intro h; cases h
        · rintro (h | h | h)
          · exact absurd h h1
          · exact absurd h h2
          · exact absurd (by exact_mod_cast h) h3

theorem validateBasic_none {env : Env} {stdTx : StdTx} (h : validateBasic env stdTx = none) :
    stdTx.Signatures.length ≠ 0 ∧
      stdTx.Signatures.length = (env.GetSigners stdTx.Msgs).length := by
  have hiff := validateBasic_isSome_iff env stdTx
  rw [h] at hiff
  simp only [Option.isSome_none, Bool.false_eq_true, false_iff, not_or, not_not] at hiff
  exact ⟨hiff.1, hiff.2.1⟩

theorem bindPubKey_ok {env : Env} {acc acc' : auth.Account} {addr : sdk.AccAddress}
    {sig : StdSignature} {pubKey : sdk.PubKey}
    (h : bindPubKey env acc addr sig = Except.ok (pubKey, acc')) :
    acc'.Address = acc.Address ∧ acc'.Sequence = acc.Sequence ∧
      acc'.AccountNumber = acc.AccountNumber ∧ acc'.Coins = acc.Coins := by
  unfold bindPubKey at h
  split at h
  · cases h; exact ⟨rfl, rfl, rfl, rfl⟩
  · split at h
    · cases h
    · split at h
      · cases h
      · cases h; exact ⟨rfl, rfl, rfl, rfl⟩

/-- What an accepting `processSig` has checked and what account it returns. -/
theorem processSig_ok {env : Env} {gas gas' : sdk.GasMeter} {am : auth.AccountMapper}
    {addr : sdk.AccAddress} {sig : StdSignature} {signBytes : List Nat}
    {o : Option auth.Account} {res : sdk.Result}
    (h : processSig env gas am addr sig signBytes = SigOutcome.ret gas' o res)
    (hok : res.IsOK = true) :
    ∃ acc acc', am.GetAccount addr = some acc ∧ o = some acc' ∧
      acc.AccountNumber = sig.AccountNumber ∧ acc.Sequence = sig.Sequence ∧
      acc'.Address = addr ∧ acc'.Sequence = GoInt64.add acc.Sequence 1 ∧
      acc'.AccountNumber = acc.AccountNumber ∧ acc'.Coins = acc.Coins := by
  unfold processSig at h
  split at h
  · cases h; simp [sdk.Result.IsOK, sdk.Error.Result, sdk.ErrUnknownAddress] at hok
  · rename_i acc hget
    dsimp only at h
    split at h
    · cases h; simp [sdk.Result.IsOK, sdk.Error.Result, sdk.ErrInvalidSequence] at hok
    · rename_i hnum
      split at h
      · cases h; simp [sdk.Result.IsOK, sdk.Error.Result, sdk.ErrInvalidSequence] at hok
      · rename_i hseq
        split at h
        · rename_i res' hbind
          cases h
          unfold bindPubKey at hbind
          split at hbind
          · cases hbind
          · split at hbind
            · cases hbind
              simp [sdk.Result.IsOK, sdk.Error.Result, sdk.ErrInvalidPubKey] at hok
            · split at hbind
              · cases hbind
                simp [sdk.Result.IsOK, sdk.Error.Result, sdk.ErrInvalidPubKey] at hok
              · cases hbind
        · rename_i pubKey acc' hbind
          have hb := bindPubKey_ok hbind
          split at h
          · cases h
          · split at h
            · cases h; simp [sdk.Result.IsOK, sdk.Error.Result, sdk.ErrUnauthorized] at hok
            · cases h
              refine ⟨acc, acc', hget, rfl, ?_, ?_, ?_, ?_, ?_, ?_⟩
              · exact not_not.mp hnum
              · exact not_not.mp hseq
              · have h1 : acc'.Address = acc.Address := hb.1
                rw [h1]; exact auth.GetAccount_address hget
              · rw [hb.2.1]
              · rw [hb.2.2.1]
              · rw [hb.2.2.2]

/-- Repeated sequence increments stay off the starting value as long as
there are fewer than 2^64 of them. -/
theorem iterate_add_one_ne (s : Int) (n : Nat) (h1 : 0 < n) (h2 : n < 18446744073709551616) :
    (fun x => GoInt64.add x 1)^[n] s ≠ s := by
  have key : ∀ m : Nat, (fun x => GoInt64.add x 1)^[m + 1] s = GoInt64.wrap (s + (m + 1 : Nat)) := by
    intro m
    induction m with
    | zero => simp [GoInt64.add]
    | succ k ih =>
      rw [Function.iterate_succ_apply', ih]
      simp only [GoInt64.add, GoInt64.wrap]
      push_cast
      omega
  obtain ⟨m, rfl⟩ : ∃ m, n = m + 1 := ⟨n - 1, by omega⟩
  rw [key]
  simp only [GoInt64.wrap]
  push_cast
  omega

/-- The signer loop, when it finishes: the store has the same addresses as
before, every address with an account has had its sequence number
incremented once per occurrence among the signers and kept its account
number and coins, every signer had an account, and the collected accounts
extend the ones collected before. -/
theorem sigLoop_done {env : Env} {chainID : String} {stdTx : StdTx} {msgs : List Msg} :
    ∀ (addrs : List sdk.AccAddress) (sigs : List StdSignature) (gas : sdk.GasMeter)
      (am : auth.AccountMapper) (accs : List auth.Account) (gas' : sdk.GasMeter)
      (am' : auth.AccountMapper) (accs' : List auth.Account),
      sigLoop env chainID stdTx msgs addrs sigs gas am accs = SigsOutcome.done gas' am' accs' →
      addrs.length = sigs.length →
      (∀ a, am.GetAccount a = none → am'.GetAccount a = none ∧ a ∉ addrs) ∧
      (∀ a acc, am.GetAccount a = some acc →
        ∃ acc', am'.GetAccount a = some acc' ∧
          acc'.Sequence = (fun x => GoInt64.add x 1)^[addrs.count a] acc.Sequence ∧
          acc'.AccountNumber = acc.AccountNumber ∧ acc'.Coins = acc.Coins) ∧
      (∃ l, accs' = accs ++ l) := by
  intro addrs
  induction addrs with
  | nil =>
    intro sigs gas am accs gas' am' accs' h hlen
    cases sigs with
    | nil =>
      simp only [sigLoop] at h
      cases h
      refine ⟨fun a ha => ⟨ha, by simp⟩, fun a acc ha => ⟨acc, ha, by simp, rfl, rfl⟩, [], by simp⟩
    | cons s ss => simp at hlen
  | cons addr addrs ih =>
    intro sigs gas am accs gas' am' accs' h hlen
    cases sigs with
    | nil => simp at hlen
    | cons sig sigs =>
      simp only [sigLoop] at h
      split at h
      · cases h
      · rename_i gas1 o res hps
        split at h
        · cases h
        · rename_i hok
          have hok' : res.IsOK = true := by simpa using hok
          obtain ⟨acc0, acc1, hget, ho, _, _, haddr, hseq, hnum, hcoins⟩ := processSig_ok hps hok'
          subst ho
          dsimp only at h
          have hlen' : addrs.length = sigs.length := by simpa using hlen
          obtain ⟨ihN, ihS, l, hl⟩ := ih sigs gas1 (am.SetAccount acc1) (accs ++ [acc1]) gas' am' accs' h hlen'
          refine ⟨?_, ?_, ?_⟩
          · intro a ha
            have hne : a ≠ addr := by
              intro e; rw [e, hget] at ha; cases ha
            have hne1 : a ≠ acc1.Address := by rw [haddr]; exact hne
            have := ihN a (by rw [auth.GetAccount_SetAccount_of_ne _ _ _ hne1]; exact ha)
            exact ⟨this.1, by simp [hne, this.2]⟩
          · intro a acc ha
            by_cases hae : a = addr
            · subst hae
              rw [hget] at ha
              cases ha
              have hself : (am.SetAccount acc1).GetAccount a = some acc1 := by
                have := auth.GetAccount_SetAccount_self am acc1
                rwa [haddr] at this
              obtain ⟨acc', hg', hs', hn', hc'⟩ := ihS a acc1 hself
              refine ⟨acc', hg', ?_, hn'.trans hnum, hc'.trans hcoins⟩
              rw [hs', hseq, List.count_cons_self, Function.iterate_succ_apply]
            · have hne1 : a ≠ acc1.Address := by rw [haddr]; exact hae
              obtain ⟨acc', hg', hs', hn', hc'⟩ :=
                ihS a acc (by rw [auth.GetAccount_SetAccount_of_ne _ _ _ hne1]; exact ha)
              refine ⟨acc', hg', ?_, hn', hc'⟩
              rw [hs', List.count_cons_of_ne hae]
          · exact ⟨acc1 :: l, by rw [hl]; simp⟩

/-- The effect of `calcAndDeductFees` on the payer account and the store:
only the payer's coins can change, and the store is either untouched or has
the payer account written back. -/
theorem calcAndDeductFees_ret {env : Env} {ctx ctx' : sdk.Context}
    {am am' : auth.AccountMapper} {acc acc' : auth.Account} {msg : Msg} {res : sdk.Result}
    (h : calcAndDeductFees env ctx am acc msg = FeeOutcome.ret ctx' res acc' am') :
    acc'.Address = acc.Address ∧ acc'.Sequence = acc.Sequence ∧
      acc'.AccountNumber = acc.AccountNumber ∧ acc'.PubKey = acc.PubKey ∧
      (am' = am ∨ am' = am.SetAccount acc') := by
  unfold calcAndDeductFees at h
  split at h
  · cases h
  · split at h
    · cases h; exact ⟨rfl, rfl, rfl, rfl, Or.inl rfl⟩
    · dsimp only at h
      split at h
      · cases h; exact ⟨rfl, rfl, rfl, rfl, Or.inl rfl⟩
      · unfold deductFees at h
        dsimp only at h
        split at h
        · cases h; exact ⟨rfl, rfl, rfl, rfl, Or.inl rfl⟩
        · simp only [sdk.Result.IsOK, decide_True, Bool.not_true, Bool.false_eq_true,
            if_false] at h
          cases h; exact ⟨rfl, rfl, rfl, rfl, Or.inr rfl⟩

/-- What an admitting run of the ante handler went through. -/
theorem NewAnteHandler_admitted {env : Env} {am : auth.AccountMapper} {ctx : sdk.Context}
    {t : Tx} {out : AnteOutcome} (h : NewAnteHandler env am ctx t = out)
    (hadm : out.admitted = true) :
    ∃ stdTx gas1 am1 acc0 rest msg0 ctx2 res2 acc0',
      t = Tx.std stdTx ∧ validateBasic env stdTx = none ∧ (memoCharge stdTx).2 = false ∧
      sigLoop env ctx.chainID stdTx stdTx.Msgs (env.GetSigners stdTx.Msgs) stdTx.Signatures
        (memoCharge stdTx).1 am [] = SigsOutcome.done gas1 am1 (acc0 :: rest) ∧
      calcAndDeductFees env ((ctx.WithGasMeter (sdk.NewGasMeter stdTx.Fee.Gas)).WithGasMeter gas1)
        am1 acc0 msg0 = FeeOutcome.ret ctx2 res2 acc0' out.store := by
  unfold NewAnteHandler at h
  split at h
  · subst h; simp [AnteOutcome.admitted] at hadm
  · rename_i stdTx
    dsimp only at h
    split at h
    · subst h; simp [AnteOutcome.admitted] at hadm
    · rename_i hvb
      split at h
      · subst h; simp [recoverOutOfGas, AnteOutcome.admitted] at hadm
      · rename_i hoog
        split at h
        · subst h; simp [recoverOutOfGas, AnteOutcome.admitted] at hadm
        · subst h; simp [AnteOutcome.admitted] at hadm
        · subst h; simp [AnteOutcome.admitted] at hadm
        · rename_i gas1 am1 signerAccs hloop
          split at h
          · rename_i acc0 rest msg0 msgs' hmsgs
            split at h
            · subst h; simp [AnteOutcome.admitted] at hadm
            · rename_i ctx2 res2 acc0' am2 hfee
              split at h
              · subst h; simp [AnteOutcome.admitted] at hadm
              · subst h
                refine ⟨stdTx, gas1, am1, acc0, rest, msg0, ctx2, res2, acc0', rfl, hvb,
                  ?_, hloop, hfee⟩
                simpa [memoCharge] using hoog
          · subst h; simp [AnteOutcome.admitted] at hadm

theorem count_eq_one_of_nodup {l : List sdk.AccAddress} (hd : l.Nodup) {a : sdk.AccAddress}
    (h : a ∈ l) : l.count a = 1 := by
  induction l with
  | nil => cases h
  | cons x xs ih =>
    rw [List.nodup_cons] at hd
    by_cases hax : a = x
    · subst hax
      rw [List.count_cons_self, List.count_eq_zero.2 hd.1]
    · rw [List.count_cons_of_ne hax]
      rcases List.mem_cons.1 h with h' | h'
      · exact absurd h' hax
      · exact ih hd.2 h'

/-- The first account the signer loop collects: the stored account of the
first signer, which matched the first signature, with its sequence number
incremented. -/
theorem sigLoop_head {env : Env} {chainID : String} {stdTx : StdTx} {msgs : List Msg}
    {addr : sdk.AccAddress} {addrs : List sdk.AccAddress} {sig : StdSignature}
    {sigs : List StdSignature} {gas gas' : sdk.GasMeter} {am am' : auth.AccountMapper}
    {acc0 : auth.Account} {rest : List auth.Account}
    (h : sigLoop env chainID stdTx msgs (addr :: addrs) (sig :: sigs) gas am []
      = SigsOutcome.done gas' am' (acc0 :: rest))
    (hlen : addrs.length = sigs.length) :
    ∃ acc, am.GetAccount addr = some acc ∧ acc.AccountNumber = sig.AccountNumber ∧
      acc.Sequence = sig.Sequence ∧ acc0.Address = addr ∧
      acc0.Sequence = GoInt64.add acc.Sequence 1 ∧
      acc0.AccountNumber = acc.AccountNumber := by
  simp only [sigLoop] at h
  split at h
  · cases h
  · rename_i gas1 o res hps
    split at h
    · cases h
    · rename_i hok
      have hok' : res.IsOK = true := by simpa using hok
      obtain ⟨acc, acc1, hget, ho, hnum, hseq, haddr, hseq1, hnum1, _⟩ := processSig_ok hps hok'
      subst ho
      dsimp only at h
      obtain ⟨_, _, l, hl⟩ := sigLoop_done addrs sigs gas1 (am.SetAccount acc1) ([] ++ [acc1])
        gas' am' (acc0 :: rest) h hlen
      simp only [List.nil_append, List.singleton_append, List.cons.injEq] at hl
      obtain ⟨rfl, _⟩ := hl
      exact ⟨acc, hget, hnum, hseq, haddr, hseq1, hnum1⟩

/-- C1: for every transaction with pairwise distinct signers that the ante
handler admits (abort = false), each signer has an account in the store
before and after the call, and the sequence number stored afterwards is the
one stored before plus 1: plus 1 in Go int64 addition, which is the integer
successor for every int64 sequence number below the largest one. -/
theorem anteHandler_sequence_plus_one (env : Env) (am : auth.AccountMapper)
    (ctx : sdk.Context) (t : Tx)
    (hadm : (NewAnteHandler env am ctx t).admitted = true)
    (hdistinct : (env.GetSigners t.GetMsgs).Nodup) :
    ∀ addr ∈ env.GetSigners t.GetMsgs,
      ∃ acc acc', am.GetAccount addr = some acc ∧
        (NewAnteHandler env am ctx t).store.GetAccount addr = some acc' ∧
        acc'.Sequence = GoInt64.add acc.Sequence 1 ∧
        (GoInt64.InRange acc.Sequence → acc.Sequence ≠ 9223372036854775807 →
          acc'.Sequence = acc.Sequence + 1) := by
  intro addr hmem
  suffices hmain : ∃ acc acc', am.GetAccount addr = some acc ∧
      (NewAnteHandler env am ctx t).store.GetAccount addr = some acc' ∧
      acc'.Sequence = GoInt64.add acc.Sequence 1 by
    obtain ⟨acc, acc', h1, h2, h3⟩ := hmain
    exact ⟨acc, acc', h1, h2, h3, fun hr hm => h3.trans (GoInt64.add_one_of_lt_max hr hm)⟩
  obtain ⟨stdTx, gas1, am1, acc0, rest, msg0, ctx2, res2, acc0', ht, hvb, _, hloop, hfee⟩ :=
    NewAnteHandler_admitted rfl hadm
  subst ht
  simp only [Tx.GetMsgs] at hmem hdistinct
  obtain ⟨hne, hlen⟩ := validateBasic_none hvb
  obtain ⟨hN, hS, _⟩ := sigLoop_done _ _ _ _ _ _ _ _ hloop hlen.symm
  obtain ⟨acc, hacc⟩ : ∃ acc, am.GetAccount addr = some acc := by
    cases hg : am.GetAccount addr with
    | none => exact absurd hmem (hN addr hg).2
    | some acc => exact ⟨acc, rfl⟩
  obtain ⟨acc1, hg1, hs1, _, _⟩ := hS addr acc hacc
  rw [count_eq_one_of_nodup hdistinct hmem, Function.iterate_one] at hs1
  obtain ⟨ha0, hs0, _, _, hstore⟩ := calcAndDeductFees_ret hfee
  rcases hstore with hst | hst
  · exact ⟨acc, acc1, hacc, by rw [hst]; exact hg1, hs1⟩
  · -- the fee deduction wrote the first signer's account back
    cases hsl : env.GetSigners stdTx.Msgs with
    | nil => rw [hsl] at hmem; cases hmem
    | cons a0 addrs =>
      cases hsg : stdTx.Signatures with
      | nil => rw [hsg] at hne; exact absurd rfl hne
      | cons sig0 sigs =>
        rw [hsl, hsg] at hloop
        have hlen' : addrs.length = sigs.length := by
          rw [hsl, hsg] at hlen; simpa using hlen.symm
        obtain ⟨accA, hgA, _, _, haddr0, hseq0, _⟩ := sigLoop_head hloop hlen'
        by_cases hae : addr = a0
        · subst hae
          rw [hacc] at hgA
          cases hgA
          refine ⟨acc, acc0', hacc, ?_, by rw [hs0, hseq0]⟩
          rw [hst]
          have := auth.GetAccount_SetAccount_self am1 acc0'
          rwa [ha0, haddr0] at this
        · refine ⟨acc, acc1, hacc, ?_, hs1⟩
          rw [hst, auth.GetAccount_SetAccount_of_ne _ _ _ (by rw [ha0, haddr0]; exact hae)]
          exact hg1

theorem anteHandler_sequence_plus_one_witness :
    (NewAnteHandler Example.env Example.store Example.deliverCtx
        (Tx.std Example.sendTx)).admitted = true ∧
      ∃ acc acc', Example.store.GetAccount [2] = some acc ∧
        (NewAnteHandler Example.env Example.store Example.deliverCtx
          (Tx.std Example.sendTx)).store.GetAccount [2] = some acc' ∧
        acc'.Sequence = GoInt64.add acc.Sequence 1 ∧
        (GoInt64.InRange acc.Sequence → acc.Sequence ≠ 9223372036854775807 →
          acc'.Sequence = acc.Sequence + 1) :=
  ⟨by decide,
    anteHandler_sequence_plus_one Example.env Example.store Example.deliverCtx
      (Tx.std Example.sendTx) (by decide) (by decide) [2] (by decide)⟩

/-- `processSig` on an account whose number matches the signature and whose
sequence number does not: the sequence error, before any gas is charged. -/
theorem processSig_sequence_mismatch (env : Env) (gas : sdk.GasMeter) (am : auth.AccountMapper)
    (addr : sdk.AccAddress) (sig : StdSignature) (signBytes : List Nat) (acc : auth.Account)
    (hget : am.GetAccount addr = some acc) (hnum : acc.AccountNumber = sig.AccountNumber)
    (hseq : acc.Sequence ≠ sig.Sequence) :
    processSig env gas am addr sig signBytes =
      SigOutcome.ret gas none (sdk.ErrInvalidSequence
        ("Invalid sequence. Got " ++ toString sig.Sequence
          ++ ", expected " ++ toString acc.Sequence)).Result := by
  unfold processSig
  rw [hget]
  dsimp only
  rw [if_neg (not_not.mpr hnum), if_pos hseq]

/-- A run of the ante handler whose first signer is rejected by
`processSig`: the handler returns that result with abort = true and the
account store untouched. -/
theorem NewAnteHandler_first_signer_rejected (env : Env) (am : auth.AccountMapper)
    (ctx : sdk.Context) (stdTx : StdTx) (a0 : sdk.AccAddress) (addrs : List sdk.AccAddress)
    (sig0 : StdSignature) (sigs : List StdSignature) (gas : sdk.GasMeter) (res : sdk.Result)
    (hvb : validateBasic env stdTx = none) (hmemo : (memoCharge stdTx).2 = false)
    (hsl : env.GetSigners stdTx.Msgs = a0 :: addrs) (hsg : stdTx.Signatures = sig0 :: sigs)
    (hps : processSig env (memoCharge stdTx).1 am a0 sig0
      (env.StdSignBytes ctx.chainID sig0.AccountNumber sig0.Sequence stdTx.Fee stdTx.Msgs
        stdTx.Memo) = SigOutcome.ret gas none res)
    (hres : res.IsOK = false) :
    NewAnteHandler env am ctx (Tx.std stdTx) =
      AnteOutcome.ret ((ctx.WithGasMeter (sdk.NewGasMeter stdTx.Fee.Gas)).WithGasMeter gas)
        res true am := by
  have hmemo' : ¬ ((ctx.WithGasMeter (sdk.NewGasMeter stdTx.Fee.Gas)).gasMeter.ConsumeGas
      (GoInt64.mul memoCostPerByte (GoInt64.wrap stdTx.Memo.utf8ByteSize))).2 = true := by
    have : (memoCharge stdTx).2 = false := hmemo
    simpa [memoCharge] using this
  have hloop : sigLoop env ctx.chainID stdTx stdTx.Msgs (a0 :: addrs) (sig0 :: sigs)
      (memoCharge stdTx).1 am [] = SigsOutcome.rejected gas am res := by
    simp only [sigLoop]
    rw [hps]
    simp [hres]
  unfold NewAnteHandler
  dsimp only
  rw [hvb]
  dsimp only
  rw [if_neg hmemo', hsl, hsg]
  have hloop' := hloop
  dsimp only [memoCharge] at hloop'
  dsimp only [Tx.GetMsgs, sdk.Context.WithGasMeter]
  rw [hloop']

/-- C2: once the ante handler has admitted a transaction, submitting it
again against the resulting account store (in any context, and whatever
signature bytes and keys the resubmission carries with the same account
numbers and sequence numbers) is rejected with abort = true and the
"Invalid sequence" error, and leaves the store as it is. -/
theorem anteHandler_replay_rejected (env : Env) (am : auth.AccountMapper)
    (ctx ctx2 : sdk.Context) (stdTx : StdTx) (sigs' : List StdSignature)
    (hadm : (NewAnteHandler env am ctx (Tx.std stdTx)).admitted = true)
    (hlen : stdTx.Signatures.length < 18446744073709551616)
    (hsame : sigs'.map (fun s => (s.AccountNumber, s.Sequence))
      = stdTx.Signatures.map (fun s => (s.AccountNumber, s.Sequence))) :
    ∃ newCtx res got expected,
      NewAnteHandler env (NewAnteHandler env am ctx (Tx.std stdTx)).store ctx2
          (Tx.std { stdTx with Signatures := sigs' })
        = AnteOutcome.ret newCtx res true (NewAnteHandler env am ctx (Tx.std stdTx)).store ∧
      res.Code = sdk.CodeType.InvalidSequence ∧ got ≠ expected ∧
      res.Log = "Invalid sequence. Got " ++ toString (got : Int)
        ++ ", expected " ++ toString (expected : Int) := by
  obtain ⟨stdTx0, gas1, am1, acc0, rest, msg0, ctx3, res3, acc0', ht, hvb, hmemo, hloop, hfee⟩ :=
    NewAnteHandler_admitted rfl hadm
  cases ht
  generalize (NewAnteHandler env am ctx (Tx.std stdTx)).store = am2 at hfee ⊢
  obtain ⟨hne, hlenEq⟩ := validateBasic_none hvb
  have hlen' : sigs'.length = stdTx.Signatures.length := by
    have := congrArg List.length hsame
    simpa using this
  -- the resubmitted transaction passes validateBasic and the memo charge
  have hvb' : validateBasic env { stdTx with Signatures := sigs' } = none := by
    have h1 := validateBasic_isSome_iff env { stdTx with Signatures := sigs' }
    have h2 := validateBasic_isSome_iff env stdTx
    rw [hvb] at h2
    cases hv : validateBasic env { stdTx with Signatures := sigs' } with
    | none => rfl
    | some e =>
      rw [hv] at h1
      have := h1.1 rfl
      dsimp only at this
      rw [hlen'] at this
      exact absurd (h2.2 this) (by simp)
  cases hsl : env.GetSigners stdTx.Msgs with
  | nil => rw [hsl] at hlenEq; exact absurd hlenEq hne
  | cons a0 addrs =>
    cases hsg : stdTx.Signatures with
    | nil => rw [hsg] at hne; exact absurd rfl hne
    | cons sig0 sigs =>
      cases sigs' with
      | nil => rw [hsg] at hsame; simp at hsame
      | cons sig0' sigs'' =>
        rw [hsg] at hsame
        simp only [List.map_cons, List.cons.injEq, Prod.mk.injEq] at hsame
        obtain ⟨⟨hnum', hseq'⟩, _⟩ := hsame
        rw [hsl, hsg] at hloop
        have hlenT : addrs.length = sigs.length := by
          rw [hsl, hsg] at hlenEq; simpa using hlenEq.symm
        obtain ⟨acc, hget, hnum, hseq, haddr0, hseq0, hnum0⟩ := sigLoop_head hloop hlenT
        obtain ⟨_, hS, _⟩ := sigLoop_done _ _ _ _ _ _ _ _ hloop (by simpa using hlenT)
        obtain ⟨acc1, hg1, hs1, hn1, _⟩ := hS a0 acc hget
        obtain ⟨ha0, hs0, hn0, _, hstore⟩ := calcAndDeductFees_ret hfee
        -- the account stored for the first signer after the first run
        obtain ⟨x, hx, hxnum, hxseq⟩ : ∃ x, am2.GetAccount a0 = some x ∧
            x.AccountNumber = sig0'.AccountNumber ∧ x.Sequence ≠ sig0'.Sequence := by
          rcases hstore with hst | hst
          · refine ⟨acc1, by rw [hst]; exact hg1, by rw [hn1, hnum, hnum'], ?_⟩
            rw [hs1, hseq', ← hseq]
            apply iterate_add_one_ne
            · rw [List.count_cons_self]; omega
            · have h1 := List.count_le_length a0 (a0 :: addrs)
              have h2 : (a0 :: addrs).length = stdTx.Signatures.length := by
                rw [← hsl]; exact hlenEq.symm
              omega
          · refine ⟨acc0', ?_, by rw [hn0, hnum0, hnum, hnum'], ?_⟩
            · rw [hst]
              have := auth.GetAccount_SetAccount_self am1 acc0'
              rwa [ha0, haddr0] at this
            · rw [hs0, hseq0, hseq', ← hseq]
              exact iterate_add_one_ne acc.Sequence 1 (by omega) (by omega)
        have hps := processSig_sequence_mismatch env
          (memoCharge { stdTx with Signatures := sig0' :: sigs'' }).1 am2 a0 sig0'
          (env.StdSignBytes ctx2.chainID sig0'.AccountNumber sig0'.Sequence
            stdTx.Fee stdTx.Msgs stdTx.Memo) x hx hxnum hxseq
        have hrun := NewAnteHandler_first_signer_rejected env am2 ctx2
          { stdTx with Signatures := sig0' :: sigs'' } a0 addrs sig0' sigs'' _ _
          hvb' hmemo hsl rfl hps rfl
        exact ⟨_, _, sig0'.Sequence, x.Sequence, hrun, rfl, fun e => hxseq e.symm, rfl⟩

theorem anteHandler_replay_rejected_witness :
    ∃ newCtx res got expected,
      NewAnteHandler Example.env
          (NewAnteHandler Example.env Example.store Example.deliverCtx
            (Tx.std Example.sendTx)).store Example.checkCtx
          (Tx.std { Example.sendTx with Signatures := Example.sendTx.Signatures })
        = AnteOutcome.ret newCtx res true
            (NewAnteHandler Example.env Example.store Example.deliverCtx
              (Tx.std Example.sendTx)).store ∧
      res.Code = sdk.CodeType.InvalidSequence ∧ got ≠ expected ∧
      res.Log = "Invalid sequence. Got " ++ toString (got : Int)
        ++ ", expected " ++ toString (expected : Int) :=
  anteHandler_replay_rejected Example.env Example.store Example.deliverCtx Example.checkCtx
    Example.sendTx Example.sendTx.Signatures (by decide) (by decide) rfl

/-- C6: a transaction with one signature, one signer and a memo of 51
characters (each two bytes long, 102 bytes) is rejected by `validateBasic`
with MemoTooLarge: the memo bound is applied to `len(memo)`, the length in
bytes, while the message reports characters. -/
theorem validateBasic_rejects_51_character_memo :
    Example.accentedMemoTx.Signatures.length = 1 ∧
    (Example.env.GetSigners Example.accentedMemoTx.Msgs).length = 1 ∧
    Example.accentedMemoTx.Memo.length = 51 ∧
    validateBasic Example.env Example.accentedMemoTx =
      some (sdk.ErrMemoTooLarge
        "maximum number of characters is 100 but received 102 characters") := by
  decide

/-- C8: when the computed fee has mode free or a zero token amount,
`calcAndDeductFees` returns an OK result with the context, the payer account
and the account store unchanged, in CheckTx and real-execution mode
alike. -/
theorem calcAndDeductFees_free_or_zero (env : Env) (ctx : sdk.Context)
    (am : auth.AccountMapper) (acc : auth.Account) (msg : Msg) (fee : types.Fee)
    (hfee : calculateFees env msg = Except.ok fee)
    (hfree : fee.Tpe = types.FeeFree ∨ fee.Tokens.IsZero = true) :
    calcAndDeductFees env ctx am acc msg = FeeOutcome.ret ctx {} acc am ∧
      (({} : sdk.Result).IsOK = true) := by
  refine ⟨?_, rfl⟩
  unfold calcAndDeductFees
  rw [hfee]
  simp only [hfree, if_true]

theorem calcAndDeductFees_free_or_zero_witness :
    calcAndDeductFees Example.env Example.deliverCtx Example.store Example.alice Example.freeMsg
        = FeeOutcome.ret Example.deliverCtx {} Example.alice Example.store ∧
      (({} : sdk.Result).IsOK = true) :=
  calcAndDeductFees_free_or_zero Example.env Example.deliverCtx Example.store Example.alice
    Example.freeMsg (types.NewFee [] types.FeeFree) rfl (by decide)

/-- One successful real-execution charge of a non-free, non-zero fee adds
the fee to the block fee in every denomination. -/
theorem calcAndDeductFees_accumulates {env : Env} {ctx ctx' : sdk.Context}
    {am am' : auth.AccountMapper} {acc acc' : auth.Account} {msg : Msg} {fee : types.Fee}
    {res : sdk.Result} (hmode : ctx.isCheckTx = false)
    (hfee : calculateFees env msg = Except.ok fee)
    (hcharged : ¬ (fee.Tpe = types.FeeFree ∨ fee.Tokens.IsZero = true))
    (h : calcAndDeductFees env ctx am acc msg = FeeOutcome.ret ctx' res acc' am')
    (hok : res.IsOK = true) (d : String) :
    ctx'.isCheckTx = false ∧
      (Fee ctx').Tokens.amountOf d = (Fee ctx).Tokens.amountOf d + fee.Tokens.amountOf d := by
  unfold calcAndDeductFees at h
  rw [hfee] at h
  dsimp only at h
  rw [if_neg hcharged, hmode] at h
  simp only [Bool.false_eq_true, if_false] at h
  unfold deductFees at h
  dsimp only at h
  split at h
  · rename_i hbad
    cases h
    rw [hok] at hbad
    simp at hbad
  · simp only [sdk.Result.IsOK, decide_True, Bool.not_true, Bool.false_eq_true, if_false] at h
    cases h
    refine ⟨hmode, ?_⟩
    simp only [Fee, WithFee, Option.getD_some]
    split
    · rename_i hempty
      have hnil : (ctx.feeValue.getD {}).Tokens = [] := by
        simpa [types.Fee.IsEmpty, List.isEmpty_iff] using hempty
      rw [hnil, sdk.amountOf_nil, sdk.amountOf_Sort]
      omega
    · have htok : ∀ f : types.Fee, (if fee.Tpe = types.FeeForAll then
          ({ f with Tpe := types.FeeForAll } : types.Fee) else f).Tokens = f.Tokens := by
        intro f; split <;> rfl
      rw [htok]
      simp only [types.NewFee]
      rw [sdk.amountOf_Plus, sdk.amountOf_Sort]

theorem chargeAll_amounts (env : Env) (d : String) :
    ∀ (calls : List (auth.Account × Msg)) (ctx ctx' : sdk.Context) (am am' : auth.AccountMapper)
      (fees : List types.Fee), ctx.isCheckTx = false →
      chargeAll env ctx am calls = some (ctx', am', fees) →
      fees.length = calls.length ∧
      (Fee ctx').Tokens.amountOf d
        = (Fee ctx).Tokens.amountOf d + (fees.map (fun f => f.Tokens.amountOf d)).sum := by
  intro calls
  induction calls with
  | nil =>
    intro ctx ctx' am am' fees _ h
    simp only [chargeAll, Option.some.injEq, Prod.mk.injEq] at h
    obtain ⟨rfl, _, rfl⟩ := h
    simp
  | cons call rest ih =>
    intro ctx ctx' am am' fees hmode h
    obtain ⟨acc, msg⟩ := call
    simp only [chargeAll] at h
    split at h
    · rename_i fee ctx1 res acc1 am1 hfee hcall
      split at h
      · rename_i hcond
        obtain ⟨hok, hfree, hzero⟩ := hcond
        have hcharged : ¬ (fee.Tpe = types.FeeFree ∨ fee.Tokens.IsZero = true) := by
          rintro (h1 | h1)
          · exact hfree h1
          · rw [h1] at hzero; cases hzero
        obtain ⟨hmode1, hstep⟩ := calcAndDeductFees_accumulates hmode hfee hcharged hcall hok d
        split at h
        · rename_i ctx2 am2 fees2 hrest
          simp only [Option.some.injEq, Prod.mk.injEq] at h
          obtain ⟨rfl, _, rfl⟩ := h
          obtain ⟨hlen, hsum⟩ := ih ctx1 ctx2 am1 am2 fees2 hmode1 hrest
          refine ⟨by simp [hlen], ?_⟩
          rw [hsum, hstep, List.map_cons, List.sum_cons]
          ring
        · cases h
      · cases h
    · cases h

/-- C7: starting from an empty block fee in real-execution mode, after N
successful `calcAndDeductFees` calls charging the non-free, non-zero fees
f1..fN, the fee stored in the resulting context holds, in every
denomination, exactly the sum of the amounts of f1..fN. -/
theorem chargeAll_fee_is_sum (env : Env) (ctx ctx' : sdk.Context)
    (am am' : auth.AccountMapper) (calls : List (auth.Account × Msg)) (fees : List types.Fee)
    (hmode : ctx.isCheckTx = false) (hempty : (Fee ctx).IsEmpty = true)
    (hrun : chargeAll env ctx am calls = some (ctx', am', fees)) :
    fees.length = calls.length ∧
    ∀ d, (Fee ctx').Tokens.amountOf d = (fees.map (fun f => f.Tokens.amountOf d)).sum := by
  refine ⟨(chargeAll_amounts env "" calls ctx ctx' am am' fees hmode hrun).1, ?_⟩
  intro d
  have hnil : (Fee ctx).Tokens = [] := by
    simpa [types.Fee.IsEmpty, List.isEmpty_iff] using hempty
  rw [(chargeAll_amounts env d calls ctx ctx' am am' fees hmode hrun).2, hnil, sdk.amountOf_nil]
  omega

theorem chargeAll_fee_is_sum_witness :
    Example.blockFees.length = Example.blockCalls.length ∧
    ∀ d, (Fee Example.blockCtx).Tokens.amountOf d
      = (Example.blockFees.map (fun f => f.Tokens.amountOf d)).sum :=
  chargeAll_fee_is_sum Example.env Example.deliverCtx Example.blockCtx Example.store
    Example.blockStore Example.blockCalls Example.blockFees rfl rfl (by decide)

/-- C9: with the payer's coins a valid coin set and the fee denominations
pairwise distinct, `deductFees` rejects with InsufficientFunds exactly when
the balance minus the fee is negative in some denomination, and then
leaves the store alone; otherwise it returns OK and the balance stored
under the payer's address is, in every denomination, the prior balance
minus the fee. -/
theorem deductFees_exact (acc : auth.Account) (fee : types.Fee) (am : auth.AccountMapper)
    (hcoins : acc.Coins.StrictSorted)
    (hdenoms : (fee.Tokens.map (fun c => c.Denom)).Nodup) :
    ((deductFees acc fee am).1.Code = sdk.CodeType.InsufficientFunds ↔
      ∃ d, acc.Coins.amountOf d - fee.Tokens.amountOf d < 0) ∧
    ((∃ d, acc.Coins.amountOf d - fee.Tokens.amountOf d < 0) →
      (deductFees acc fee am).2.2 = am) ∧
    ((¬ ∃ d, acc.Coins.amountOf d - fee.Tokens.amountOf d < 0) →
      (deductFees acc fee am).1 = {} ∧
      ∃ acc', (deductFees acc fee am).2.2.GetAccount acc.Address = some acc' ∧
        ∀ d, acc'.Coins.amountOf d = acc.Coins.amountOf d - fee.Tokens.amountOf d) := by
  have hiff := sdk.Minus_Sort_negative_iff acc.Coins fee.Tokens hcoins hdenoms
  by_cases hneg : ∃ d, acc.Coins.amountOf d - fee.Tokens.amountOf d < 0
  · have hbad : (acc.Coins.Minus fee.Tokens.Sort).IsNotNegative = false := hiff.2 hneg
    have hres : deductFees acc fee am = ((sdk.ErrInsufficientFunds
        (acc.Coins.string ++ " < " ++ fee.Tokens.Sort.string)).Result, acc, am) := by
      simp [deductFees, checkSufficientFunds, hbad, sdk.Result.IsOK, sdk.Error.Result,
        sdk.ErrInsufficientFunds]
    rw [hres]
    exact ⟨⟨fun _ => hneg, fun _ => rfl⟩, fun _ => rfl, fun h => absurd hneg h⟩
  · have hgood : (acc.Coins.Minus fee.Tokens.Sort).IsNotNegative = true := by
      cases hv : (acc.Coins.Minus fee.Tokens.Sort).IsNotNegative with
      | true => rfl
      | false => exact absurd (hiff.1 hv) hneg
    have hres : deductFees acc fee am = ({}, { acc with Coins := acc.Coins.Minus fee.Tokens.Sort },
        am.SetAccount { acc with Coins := acc.Coins.Minus fee.Tokens.Sort }) := by
      simp [deductFees, checkSufficientFunds, hgood, sdk.Result.IsOK]
    rw [hres]
    refine ⟨⟨fun h => (by cases h), fun h => absurd h hneg⟩, fun h => absurd h hneg, fun _ => ?_⟩
    refine ⟨rfl, { acc with Coins := acc.Coins.Minus fee.Tokens.Sort }, ?_, ?_⟩
    · exact auth.GetAccount_SetAccount_self am _
    · intro d
      show sdk.Coins.amountOf (acc.Coins.Minus fee.Tokens.Sort) d = _
      rw [sdk.amountOf_Minus, sdk.amountOf_Sort]

theorem deductFees_exact_witness :
    ((deductFees Example.alice Example.sendFee Example.store).1.Code
        = sdk.CodeType.InsufficientFunds ↔
      ∃ d, Example.alice.Coins.amountOf d - Example.sendFee.Tokens.amountOf d < 0) ∧
    ((∃ d, Example.alice.Coins.amountOf d - Example.sendFee.Tokens.amountOf d < 0) →
      (deductFees Example.alice Example.sendFee Example.store).2.2 = Example.store) ∧
    ((¬ ∃ d, Example.alice.Coins.amountOf d - Example.sendFee.Tokens.amountOf d < 0) →
      (deductFees Example.alice Example.sendFee Example.store).1 = {} ∧
      ∃ acc', (deductFees Example.alice Example.sendFee Example.store).2.2.GetAccount
          Example.alice.Address = some acc' ∧
        ∀ d, acc'.Coins.amountOf d
          = Example.alice.Coins.amountOf d - Example.sendFee.Tokens.amountOf d) :=
  deductFees_exact Example.alice Example.sendFee Example.store (by decide) (by decide)

/-- C10: in CheckTx mode with a non-free, non-zero fee (the payer's coins a
valid coin set, the fee denominations pairwise distinct),
`calcAndDeductFees` returns InsufficientFunds exactly when the balance minus
the fee is negative in some denomination and OK otherwise, and in either
case the context (with its block fee), the payer account and the account
store are returned as they were. -/
theorem calcAndDeductFees_checkTx (env : Env) (ctx : sdk.Context) (am : auth.AccountMapper)
    (acc : auth.Account) (msg : Msg) (fee : types.Fee)
    (hmode : ctx.isCheckTx = true) (hfee : calculateFees env msg = Except.ok fee)
    (hnonfree : fee.Tpe ≠ types.FeeFree) (hnonzero : fee.Tokens.IsZero = false)
    (hcoins : acc.Coins.StrictSorted)
    (hdenoms : (fee.Tokens.map (fun c => c.Denom)).Nodup) :
    ∃ res, calcAndDeductFees env ctx am acc msg = FeeOutcome.ret ctx res acc am ∧
      (res.Code = sdk.CodeType.InsufficientFunds ↔
        ∃ d, acc.Coins.amountOf d - fee.Tokens.amountOf d < 0) ∧
      (res.IsOK = true ↔ ¬ ∃ d, acc.Coins.amountOf d - fee.Tokens.amountOf d < 0) := by
  have hcharged : ¬ (fee.Tpe = types.FeeFree ∨ fee.Tokens.IsZero = true) := by
    rintro (h | h)
    · exact hnonfree h
    · rw [h] at hnonzero; cases hnonzero
  have hdenoms' : ((fee.Tokens.Sort).map (fun c => c.Denom)).Nodup :=
    ((sdk.Sort_perm fee.Tokens).map _).nodup_iff.2 hdenoms
  have hiff := sdk.Minus_Sort_negative_iff acc.Coins fee.Tokens.Sort hcoins hdenoms'
  simp only [sdk.amountOf_Sort] at hiff
  refine ⟨checkSufficientFunds acc { fee with Tokens := fee.Tokens.Sort }, ?_, ?_⟩
  · unfold calcAndDeductFees
    rw [hfee]
    dsimp only
    rw [if_neg hcharged, if_pos hmode]
  · unfold checkSufficientFunds
    dsimp only
    by_cases hneg : ∃ d, acc.Coins.amountOf d - fee.Tokens.amountOf d < 0
    · have hbad := hiff.2 hneg
      rw [hbad]
      simp only [Bool.not_false, if_true]
      refine ⟨⟨fun _ => hneg, fun _ => rfl⟩, ⟨fun h => ?_, fun h => absurd hneg h⟩⟩
      simp [sdk.Result.IsOK, sdk.Error.Result, sdk.ErrInsufficientFunds] at h
    · have hgood : (acc.Coins.Minus fee.Tokens.Sort.Sort).IsNotNegative = true := by
        cases hv : (acc.Coins.Minus fee.Tokens.Sort.Sort).IsNotNegative with
        | true => rfl
        | false => exact absurd (hiff.1 hv) hneg
      rw [hgood]
      simp only [Bool.not_true, Bool.false_eq_true, if_false]
      exact ⟨⟨fun h => (by cases h), fun h => absurd h hneg⟩, ⟨fun _ => hneg, fun _ => rfl⟩⟩

theorem calcAndDeductFees_checkTx_witness :
    ∃ res, calcAndDeductFees Example.env Example.checkCtx Example.store Example.bob
        Example.sendMsg = FeeOutcome.ret Example.checkCtx res Example.bob Example.store ∧
      (res.Code = sdk.CodeType.InsufficientFunds ↔
        ∃ d, Example.bob.Coins.amountOf d - Example.sendFee.Tokens.amountOf d < 0) ∧
      (res.IsOK = true ↔
        ¬ ∃ d, Example.bob.Coins.amountOf d - Example.sendFee.Tokens.amountOf d < 0) :=
  calcAndDeductFees_checkTx Example.env Example.checkCtx Example.store Example.bob
    Example.sendMsg Example.sendFee rfl rfl (by decide) (by decide) (by decide) (by decide)

/-- The signer loop, when it finishes, has left every address that is not
among the signers exactly as it was stored. -/
theorem sigLoop_frame {env : Env} {chainID : String} {stdTx : StdTx} {msgs : List Msg} :
    ∀ (addrs : List sdk.AccAddress) (sigs : List StdSignature) (gas : sdk.GasMeter)
      (am : auth.AccountMapper) (accs : List auth.Account) (gas' : sdk.GasMeter)
      (am' : auth.AccountMapper) (accs' : List auth.Account),
      sigLoop env chainID stdTx msgs addrs sigs gas am accs = SigsOutcome.done gas' am' accs' →
      addrs.length = sigs.length →
      ∀ a, a ∉ addrs → am'.GetAccount a = am.GetAccount a := by
  intro addrs
  induction addrs with
  | nil =>
    intro sigs gas am accs gas' am' accs' h hlen a _
    cases sigs with
    | nil =>
      simp only [sigLoop] at h
      cases h
      rfl
    | cons s ss => simp at hlen
  | cons addr addrs ih =>
    intro sigs gas am accs gas' am' accs' h hlen a hmem
    cases sigs with
    | nil => simp at hlen
    | cons sig sigs =>
      simp only [sigLoop] at h
      split at h
      · cases h
      · rename_i gas1 o res hps
        split at h
        · cases h
        · rename_i hok
          have hok' : res.IsOK = true := by simpa using hok
          obtain ⟨acc0, acc1, hget, ho, _, _, haddr, _, _, _⟩ := processSig_ok hps hok'
          subst ho
          dsimp only at h
          have hlen' : addrs.length = sigs.length := by simpa using hlen
          have hne : a ≠ addr := fun e => hmem (by rw [e]; exact List.mem_cons_self _ _)
          have hnot : a ∉ addrs := fun hm => hmem (List.mem_cons_of_mem _ hm)
          rw [ih sigs gas1 (am.SetAccount acc1) (accs ++ [acc1]) gas' am' accs' h hlen' a hnot]
          exact auth.GetAccount_SetAccount_of_ne _ _ _ (by rw [haddr]; exact hne)

/-- The signer loop over a list of signers split in two: once the first
part has been processed, the loop goes on with the second part from the gas
meter, store and collected accounts the first part left. -/
theorem sigLoop_append {env : Env} {chainID : String} {stdTx : StdTx} {msgs : List Msg} :
    ∀ (pre : List sdk.AccAddress) (preS : List StdSignature) (rest : List sdk.AccAddress)
      (restS : List StdSignature) (gas : sdk.GasMeter) (am : auth.AccountMapper)
      (accs : List auth.Account) (gas' : sdk.GasMeter) (am' : auth.AccountMapper)
      (accs' : List auth.Account),
      pre.length = preS.length →
      sigLoop env chainID stdTx msgs pre preS gas am accs = SigsOutcome.done gas' am' accs' →
      sigLoop env chainID stdTx msgs (pre ++ rest) (preS ++ restS) gas am accs
        = sigLoop env chainID stdTx msgs rest restS gas' am' accs' := by
  intro pre
  induction pre with
  | nil =>
    intro preS rest restS gas am accs gas' am' accs' hlen h
    cases preS with
    | nil =>
      simp only [sigLoop] at h
      cases h
      rfl
    | cons s ss => simp at hlen
  | cons addr pre ih =>
    intro preS rest restS gas am accs gas' am' accs' hlen h
    cases preS with
    | nil => simp at hlen
    | cons sig preS =>
      have hlen' : pre.length = preS.length := by simpa using hlen
      simp only [sigLoop, List.cons_append] at h ⊢
      split at h
      · cases h
      · rename_i gas1 o res hps
        split at h
        · cases h
        · rename_i hok
          rw [if_neg hok]
          cases o with
          | none => cases h
          | some acc1 =>
            dsimp only at h ⊢
            exact ih preS rest restS gas1 (am.SetAccount acc1) (accs ++ [acc1]) gas' am' accs'
              hlen' h

/-- A run of the ante handler whose signer loop stops at a rejected signer:
the handler returns that signer's result with abort = true and the store
as the loop left it. -/
theorem NewAnteHandler_sigLoop_rejected (env : Env) (am am' : auth.AccountMapper)
    (ctx : sdk.Context) (stdTx : StdTx) (gas : sdk.GasMeter) (res : sdk.Result)
    (hvb : validateBasic env stdTx = none) (hmemo : (memoCharge stdTx).2 = false)
    (hloop : sigLoop env ctx.chainID stdTx stdTx.Msgs (env.GetSigners stdTx.Msgs)
      stdTx.Signatures (memoCharge stdTx).1 am [] = SigsOutcome.rejected gas am' res) :
    NewAnteHandler env am ctx (Tx.std stdTx) =
      AnteOutcome.ret ((ctx.WithGasMeter (sdk.NewGasMeter stdTx.Fee.Gas)).WithGasMeter gas)
        res true am' := by
  have hmemo' : ¬ ((ctx.WithGasMeter (sdk.NewGasMeter stdTx.Fee.Gas)).gasMeter.ConsumeGas
      (GoInt64.mul memoCostPerByte (GoInt64.wrap stdTx.Memo.utf8ByteSize))).2 = true := by
    have : (memoCharge stdTx).2 = false := hmemo
    simpa [memoCharge] using this
  unfold NewAnteHandler
  dsimp only
  rw [hvb]
  dsimp only
  rw [if_neg hmemo']
  have hloop' := hloop
  dsimp only [memoCharge] at hloop'
  dsimp only [Tx.GetMsgs, sdk.Context.WithGasMeter]
  rw [hloop']

/-- C11: in a transaction with pairwise distinct signers whose signers
0..k-1 pass `processSig` and whose signer k is rejected, the ante handler
returns that rejection with abort = true; the store then holds, for each of
the signers 0..k-1, the prior sequence number plus 1 (Go int64 addition),
and holds for signer k and every later signer exactly what it held
before. -/
theorem anteHandler_partial_sequences (env : Env) (am : auth.AccountMapper) (ctx : sdk.Context)
    (stdTx : StdTx) (pre post : List sdk.AccAddress) (ak : sdk.AccAddress)
    (preS postS : List StdSignature) (sk : StdSignature) (gasK gas' : sdk.GasMeter)
    (amK : auth.AccountMapper) (accsK : List auth.Account) (o : Option auth.Account)
    (res : sdk.Result)
    (hvb : validateBasic env stdTx = none) (hmemo : (memoCharge stdTx).2 = false)
    (hsigners : env.GetSigners stdTx.Msgs = pre ++ ak :: post)
    (hsigs : stdTx.Signatures = preS ++ sk :: postS)
    (hlen : pre.length = preS.length)
    (hdistinct : (env.GetSigners stdTx.Msgs).Nodup)
    (hpass : sigLoop env ctx.chainID stdTx stdTx.Msgs pre preS (memoCharge stdTx).1 am []
      = SigsOutcome.done gasK amK accsK)
    (hrej : processSig env gasK amK ak sk
      (env.StdSignBytes ctx.chainID sk.AccountNumber sk.Sequence stdTx.Fee stdTx.Msgs
        stdTx.Memo) = SigOutcome.ret gas' o res)
    (hbad : res.IsOK = false) :
    (NewAnteHandler env am ctx (Tx.std stdTx)).aborted = true ∧
    (NewAnteHandler env am ctx (Tx.std stdTx)).result = some res ∧
    (∀ a ∈ pre, ∃ acc acc', am.GetAccount a = some acc ∧
      (NewAnteHandler env am ctx (Tx.std stdTx)).store.GetAccount a = some acc' ∧
      acc'.Sequence = GoInt64.add acc.Sequence 1) ∧
    (∀ a ∈ ak :: post,
      (NewAnteHandler env am ctx (Tx.std stdTx)).store.GetAccount a = am.GetAccount a) := by
  have hstep : sigLoop env ctx.chainID stdTx stdTx.Msgs (ak :: post) (sk :: postS) gasK amK accsK
      = SigsOutcome.rejected gas' amK res := by
    simp only [sigLoop]
    rw [hrej]
    simp [hbad]
  have hloop : sigLoop env ctx.chainID stdTx stdTx.Msgs (env.GetSigners stdTx.Msgs)
      stdTx.Signatures (memoCharge stdTx).1 am [] = SigsOutcome.rejected gas' amK res := by
    rw [hsigners, hsigs, sigLoop_append pre preS (ak :: post) (sk :: postS) _ _ _ _ _ _ hlen hpass]
    exact hstep
  rw [NewAnteHandler_sigLoop_rejected env am amK ctx stdTx gas' res hvb hmemo hloop]
  rw [hsigners] at hdistinct
  have hpreNodup : pre.Nodup := (List.nodup_append.1 hdistinct).1
  have hdisj : ∀ a, a ∈ pre → a ∈ ak :: post → False := fun a h1 h2 =>
    (List.nodup_append.1 hdistinct).2.2 h1 h2
  obtain ⟨hN, hS, _⟩ := sigLoop_done _ _ _ _ _ _ _ _ hpass hlen
  refine ⟨rfl, rfl, ?_, ?_⟩
  · intro a ha
    cases hg : am.GetAccount a with
    | none => exact absurd ha (hN a hg).2
    | some acc =>
      obtain ⟨acc', hg', hs', _, _⟩ := hS a acc hg
      rw [count_eq_one_of_nodup hpreNodup ha, Function.iterate_one] at hs'
      exact ⟨acc, acc', rfl, hg', hs'⟩
  · intro a ha
    exact sigLoop_frame _ _ _ _ _ _ _ _ hpass hlen a (fun hp => hdisj a hp ha)

theorem anteHandler_partial_sequences_witness :
    (NewAnteHandler Example.env Example.store Example.deliverCtx
        (Tx.std Example.halfSignedTx)).aborted = true ∧
    (NewAnteHandler Example.env Example.store Example.deliverCtx
        (Tx.std Example.halfSignedTx)).result
      = some (sdk.ErrInvalidSequence "Invalid sequence. Got 3, expected 0").Result ∧
    (∀ a ∈ [[1]], ∃ acc acc', Example.store.GetAccount a = some acc ∧
      (NewAnteHandler Example.env Example.store Example.deliverCtx
        (Tx.std Example.halfSignedTx)).store.GetAccount a = some acc' ∧
      acc'.Sequence = GoInt64.add acc.Sequence 1) ∧
    (∀ a ∈ [2] :: [],
      (NewAnteHandler Example.env Example.store Example.deliverCtx
        (Tx.std Example.halfSignedTx)).store.GetAccount a = Example.store.GetAccount a) :=
  anteHandler_partial_sequences Example.env Example.store Example.deliverCtx
    Example.halfSignedTx [[1]] [] [2]
    [{ PubKey := none, Signature := [1, 0, 7], AccountNumber := 0, Sequence := 7 }] []
    { PubKey := some { bytes := [2] }, Signature := [2, 1, 3], AccountNumber := 1, Sequence := 3 }
    { limit := 1000, consumed := 105 } { limit := 1000, consumed := 105 }
    [Example.aliceBumped, Example.bob] [Example.aliceBumped] none
    (sdk.ErrInvalidSequence "Invalid sequence. Got 3, expected 0").Result
    (by decide) (by decide) (by decide) (by decide) (by decide) (by decide) (by decide)
    (by decide) (by decide)

/-- The block fee mode after one successful real-execution charge of a
non-free, non-zero fee: the fee's mode on an empty accumulator, otherwise
the accumulator's mode unless the fee is shared by validators. -/
theorem calcAndDeductFees_mode {env : Env} {ctx ctx' : sdk.Context}
    {am am' : auth.AccountMapper} {acc acc' : auth.Account} {msg : Msg} {fee : types.Fee}
    {res : sdk.Result} (hmode : ctx.isCheckTx = false)
    (hfee : calculateFees env msg = Except.ok fee)
    (hcharged : ¬ (fee.Tpe = types.FeeFree ∨ fee.Tokens.IsZero = true))
    (h : calcAndDeductFees env ctx am acc msg = FeeOutcome.ret ctx' res acc' am')
    (hok : res.IsOK = true) :
    (Fee ctx').Tpe =
      if (Fee ctx).IsEmpty = true then fee.Tpe
      else if fee.Tpe = types.FeeForAll then types.FeeForAll else (Fee ctx).Tpe := by
  unfold calcAndDeductFees at h
  rw [hfee] at h
  dsimp only at h
  rw [if_neg hcharged, hmode] at h
  simp only [Bool.false_eq_true, if_false] at h
  unfold deductFees at h
  dsimp only at h
  split at h
  · rename_i hbad
    cases h
    rw [hok] at hbad
    simp at hbad
  · simp only [sdk.Result.IsOK, decide_True, Bool.not_true, Bool.false_eq_true, if_false] at h
    cases h
    simp only [Fee, WithFee, Option.getD_some]
    split
    · rfl
    · split <;> rfl

theorem amountOf_nonneg {coins : sdk.Coins} (h : coins.IsNotNegative = true) (d : String) :
    0 ≤ coins.amountOf d := by
  induction coins with
  | nil => simp [sdk.amountOf_nil]
  | cons c l ih =>
    simp only [sdk.Coins.IsNotNegative, List.all_cons, Bool.and_eq_true, decide_eq_true_eq] at h
    have hl : sdk.Coins.IsNotNegative l = true := h.2
    have := ih hl
    rw [sdk.amountOf_cons]
    split <;> omega

/-- A coin set without negative amounts that is not zero holds a positive
amount in some denomination. -/
theorem exists_pos_amountOf {coins : sdk.Coins} (hnn : coins.IsNotNegative = true)
    (hnz : coins.IsZero = false) : ∃ d, 0 < coins.amountOf d := by
  induction coins with
  | nil => simp [sdk.Coins.IsZero] at hnz
  | cons c l ih =>
    simp only [sdk.Coins.IsNotNegative, List.all_cons, Bool.and_eq_true, decide_eq_true_eq] at hnn
    have hl : sdk.Coins.IsNotNegative l = true := hnn.2
    by_cases hc : c.Amount = 0
    · have hz : sdk.Coins.IsZero l = false := by
        simp only [sdk.Coins.IsZero, List.all_cons, hc, decide_True, Bool.true_and] at hnz
        exact hnz
      obtain ⟨d, hd⟩ := ih hl hz
      refine ⟨d, ?_⟩
      rw [sdk.amountOf_cons]
      split <;> omega
    · refine ⟨c.Denom, ?_⟩
      have := amountOf_nonneg hl c.Denom
      rw [sdk.amountOf_cons, if_pos rfl]
      omega

theorem isEmpty_eq_false_of_pos {fee : types.Fee} (h : ∃ d, 0 < fee.Tokens.amountOf d) :
    fee.IsEmpty = false := by
  obtain ⟨d, hd⟩ := h
  cases ht : fee.Tokens with
  | nil => rw [ht, sdk.amountOf_nil] at hd; omega
  | cons c l => simp [types.Fee.IsEmpty, ht]

/-- What a successful `chargeAll` over a non-empty list of calls went
through at its first call. -/
theorem chargeAll_cons {env : Env} {ctx ctx' : sdk.Context} {am am' : auth.AccountMapper}
    {acc : auth.Account} {msg : Msg} {rest : List (auth.Account × Msg)}
    {fees : List types.Fee}
    (h : chargeAll env ctx am ((acc, msg) :: rest) = some (ctx', am', fees)) :
    ∃ fee ctx1 res acc1 am1 fees1, calculateFees env msg = Except.ok fee ∧
      calcAndDeductFees env ctx am acc msg = FeeOutcome.ret ctx1 res acc1 am1 ∧
      res.IsOK = true ∧ ¬ (fee.Tpe = types.FeeFree ∨ fee.Tokens.IsZero = true) ∧
      chargeAll env ctx1 am1 rest = some (ctx', am', fees1) ∧ fees = fee :: fees1 := by
  simp only [chargeAll] at h
  split at h
  · rename_i fee ctx1 res acc1 am1 hfee hcall
    split at h
    · rename_i hcond
      obtain ⟨hok, hfree, hzero⟩ := hcond
      have hcharged : ¬ (fee.Tpe = types.FeeFree ∨ fee.Tokens.IsZero = true) := by
        rintro (h1 | h1)
        · exact hfree h1
        · rw [h1] at hzero; cases hzero
      split at h
      · rename_i ctx2 am2 fees2 hrest
        simp only [Option.some.injEq, Prod.mk.injEq] at h
        obtain ⟨rfl, rfl, rfl⟩ := h
        exact ⟨fee, ctx1, res, acc1, am1, fees2, hfee, hcall, hok, hcharged, hrest, rfl⟩
      · cases h
    · cases h
  · cases h

/-- Once the block fee is shared by validators and holds a positive amount,
charging further fees without negative amounts keeps both. -/
theorem chargeAll_keeps_FeeForAll (env : Env) :
    ∀ (calls : List (auth.Account × Msg)) (ctx ctx' : sdk.Context) (am am' : auth.AccountMapper)
      (fees : List types.Fee), ctx.isCheckTx = false →
      (∃ d, 0 < (Fee ctx).Tokens.amountOf d) → (Fee ctx).Tpe = types.FeeForAll →
      chargeAll env ctx am calls = some (ctx', am', fees) →
      (∀ f ∈ fees, f.Tokens.IsNotNegative = true) →
      ctx'.isCheckTx = false ∧ (∃ d, 0 < (Fee ctx').Tokens.amountOf d) ∧
        (Fee ctx').Tpe = types.FeeForAll := by
  intro calls
  induction calls with
  | nil =>
    intro ctx ctx' am am' fees hmode hpos htpe h _
    simp only [chargeAll, Option.some.injEq, Prod.mk.injEq] at h
    obtain ⟨rfl, _, _⟩ := h
    exact ⟨hmode, hpos, htpe⟩
  | cons call rest ih =>
    intro ctx ctx' am am' fees hmode hpos htpe h hnn
    obtain ⟨acc, msg⟩ := call
    obtain ⟨fee, ctx1, res, acc1, am1, fees1, hfee, hcall, hok, hcharged, hrest, rfl⟩ :=
      chargeAll_cons h
    obtain ⟨d, hd⟩ := hpos
    obtain ⟨hmode1, hstep⟩ := calcAndDeductFees_accumulates hmode hfee hcharged hcall hok d
    have hfd := amountOf_nonneg (hnn fee (List.mem_cons_self _ _)) d
    have htpe1 := calcAndDeductFees_mode hmode hfee hcharged hcall hok
    rw [isEmpty_eq_false_of_pos ⟨d, hd⟩, htpe] at htpe1
    simp only [Bool.false_eq_true, if_false, ite_self] at htpe1
    exact ih ctx1 ctx' am1 am' fees1 hmode1 ⟨d, by omega⟩ htpe1 hrest
      (fun f hf => hnn f (List.mem_cons_of_mem _ hf))

/-- Starting from a block fee that is empty or holds a positive amount,
charging fees without negative amounts, one of them shared by validators,
ends with the block fee shared by validators. -/
theorem chargeAll_reaches_FeeForAll (env : Env) :
    ∀ (calls : List (auth.Account × Msg)) (ctx ctx' : sdk.Context) (am am' : auth.AccountMapper)
      (fees : List types.Fee), ctx.isCheckTx = false →
      ((Fee ctx).IsEmpty = true ∨ ∃ d, 0 < (Fee ctx).Tokens.amountOf d) →
      chargeAll env ctx am calls = some (ctx', am', fees) →
      (∀ f ∈ fees, f.Tokens.IsNotNegative = true) →
      (∃ f ∈ fees, f.Tpe = types.FeeForAll) →
      ctx'.isCheckTx = false ∧ (∃ d, 0 < (Fee ctx').Tokens.amountOf d) ∧
        (Fee ctx').Tpe = types.FeeForAll := by
  intro calls
  induction calls with
  | nil =>
    intro ctx ctx' am am' fees _ _ h _ hall
    simp only [chargeAll, Option.some.injEq, Prod.mk.injEq] at h
    obtain ⟨_, _, rfl⟩ := h
    obtain ⟨f, hf, _⟩ := hall
    cases hf
  | cons call rest ih =>
    intro ctx ctx' am am' fees hmode hstart h hnn hall
    obtain ⟨acc, msg⟩ := call
    obtain ⟨fee, ctx1, res, acc1, am1, fees1, hfee, hcall, hok, hcharged, hrest, rfl⟩ :=
      chargeAll_cons h
    have hfnn := hnn fee (List.mem_cons_self _ _)
    have hfnz : fee.Tokens.IsZero = false := by
      cases hz : fee.Tokens.IsZero with
      | false => rfl
      | true => exact absurd (Or.inr hz) hcharged
    obtain ⟨d0, hd0⟩ := exists_pos_amountOf hfnn hfnz
    have hmode1 := (calcAndDeductFees_accumulates hmode hfee hcharged hcall hok d0).1
    have htpe1 := calcAndDeductFees_mode hmode hfee hcharged hcall hok
    -- the block fee holds a positive amount after this charge
    have hpos1 : ∃ d, 0 < (Fee ctx1).Tokens.amountOf d := by
      rcases hstart with hempty | ⟨d, hd⟩
      · refine ⟨d0, ?_⟩
        have hnil : (Fee ctx).Tokens = [] := by
          simpa [types.Fee.IsEmpty, List.isEmpty_iff] using hempty
        rw [(calcAndDeductFees_accumulates hmode hfee hcharged hcall hok d0).2, hnil,
          sdk.amountOf_nil]
        omega
      · refine ⟨d, ?_⟩
        have := amountOf_nonneg hfnn d
        rw [(calcAndDeductFees_accumulates hmode hfee hcharged hcall hok d).2]
        omega
    by_cases hfa : fee.Tpe = types.FeeForAll
    · have htpe : (Fee ctx1).Tpe = types.FeeForAll := by
        rw [htpe1, hfa]
        split <;> simp
      exact chargeAll_keeps_FeeForAll env rest ctx1 ctx' am1 am' fees1 hmode1 hpos1 htpe hrest
        (fun f hf => hnn f (List.mem_cons_of_mem _ hf))
    · have hall1 : ∃ f ∈ fees1, f.Tpe = types.FeeForAll := by
        obtain ⟨f, hf, hft⟩ := hall
        rcases List.mem_cons.1 hf with e | hf'
        · rw [e] at hft; exact absurd hft hfa
        · exact ⟨f, hf', hft⟩
      exact ih ctx1 ctx' am1 am' fees1 hmode1 (Or.inr hpos1) hrest
        (fun f hf => hnn f (List.mem_cons_of_mem _ hf)) hall1

/-- C12 (as stated, refuted): starting from an empty block fee in
real-execution mode, the three successful charges vote (5 BNB, shared by
validators), rebate (-5 BNB, sender pays) and send (10 BNB, sender pays)
leave the block fee with mode sender-pays: the rebate emptied the
accumulator and the send then set the mode afresh. -/
theorem chargeAll_mode_lost_after_cancellation :
    (chargeAll Example.rebateEnv Example.deliverCtx Example.store Example.cancelCalls).map
        (fun r => ((Fee r.1).Tpe, r.2.2.map (fun f => f.Tpe)))
      = some (types.FeeForProposer,
          [types.FeeForAll, types.FeeForProposer, types.FeeForProposer]) := by
  decide

/-- C12 (amended): starting from an empty block fee in real-execution mode,
over successful charges of non-free, non-zero fees none of which has a
negative token amount, if one of the fees charged so far is shared by
validators (FeeForAll) then the block fee has mode FeeForAll at that point
and after every later charge of the block. -/
theorem chargeAll_FeeForAll_sticky (env : Env) (ctx ctx1 ctx2 : sdk.Context)
    (am am1 am2 : auth.AccountMapper) (calls1 calls2 : List (auth.Account × Msg))
    (fees1 fees2 : List types.Fee)
    (hmode : ctx.isCheckTx = false) (hempty : (Fee ctx).IsEmpty = true)
    (hrun1 : chargeAll env ctx am calls1 = some (ctx1, am1, fees1))
    (hrun2 : chargeAll env ctx1 am1 calls2 = some (ctx2, am2, fees2))
    (hnn1 : ∀ f ∈ fees1, f.Tokens.IsNotNegative = true)
    (hnn2 : ∀ f ∈ fees2, f.Tokens.IsNotNegative = true)
    (hall : ∃ f ∈ fees1, f.Tpe = types.FeeForAll) :
    (Fee ctx1).Tpe = types.FeeForAll ∧ (Fee ctx2).Tpe = types.FeeForAll := by
  obtain ⟨hmode1, hpos1, htpe1⟩ :=
    chargeAll_reaches_FeeForAll env calls1 ctx ctx1 am am1 fees1 hmode (Or.inl hempty) hrun1 hnn1 hall
  exact ⟨htpe1,
    (chargeAll_keeps_FeeForAll env calls2 ctx1 ctx2 am1 am2 fees2 hmode1 hpos1 htpe1 hrun2 hnn2).2.2⟩

theorem chargeAll_FeeForAll_sticky_witness :
    (Fee Example.blockCtx).Tpe = types.FeeForAll ∧
      (Fee Example.blockCtx2).Tpe = types.FeeForAll :=
  chargeAll_FeeForAll_sticky Example.env Example.deliverCtx Example.blockCtx Example.blockCtx2
    Example.store Example.blockStore Example.blockStore2 Example.blockCalls
    [(Example.alice, Example.sendMsg)] Example.blockFees [Example.sendFee]
    rfl rfl (by decide) (by decide) (by decide) (by decide) (by decide)

/-- C13 (as stated, refuted): with a calculator that charges the fee -5 BNB,
a successful real-execution call of `calcAndDeductFees` on a block fee of
15 BNB returns a context whose block fee is 10 BNB. -/
theorem calcAndDeductFees_accumulator_decreases :
    (Fee Example.blockCtx).Tokens.amountOf "BNB" = 15 ∧
    (calcAndDeductFees Example.rebateEnv Example.blockCtx Example.store Example.alice
        Example.rebateMsg).context.map (fun c => (Fee c).Tokens.amountOf "BNB") = some 10 := by
  decide

/-- C13 (amended): for every call of `calcAndDeductFees` that returns (any
message, any mode, accepted or rejected) and whose computed fee has no
negative token amount, the block fee in the returned context holds in every
denomination at least the amount it held in the input context. -/
theorem calcAndDeductFees_accumulator_monotone (env : Env) (ctx ctx' : sdk.Context)
    (am am' : auth.AccountMapper) (acc acc' : auth.Account) (msg : Msg) (fee : types.Fee)
    (res : sdk.Result) (hfee : calculateFees env msg = Except.ok fee)
    (hnn : fee.Tokens.IsNotNegative = true)
    (h : calcAndDeductFees env ctx am acc msg = FeeOutcome.ret ctx' res acc' am') :
    ∀ d, (Fee ctx).Tokens.amountOf d ≤ (Fee ctx').Tokens.amountOf d := by
  intro d
  by_cases hcharged : fee.Tpe = types.FeeFree ∨ fee.Tokens.IsZero = true
  · have hsame : ctx' = ctx := by
      unfold calcAndDeductFees at h
      rw [hfee] at h
      dsimp only at h
      rw [if_pos hcharged] at h
      cases h; rfl
    rw [hsame]
  · by_cases hmode : ctx.isCheckTx = true
    · have hsame : ctx' = ctx := by
        unfold calcAndDeductFees at h
        rw [hfee] at h
        dsimp only at h
        rw [if_neg hcharged, if_pos hmode] at h
        cases h; rfl
      rw [hsame]
    · have hmode' : ctx.isCheckTx = false := by
        cases hv : ctx.isCheckTx with
        | false => rfl
        | true => exact absurd hv hmode
      by_cases hok : res.IsOK = true
      · have := (calcAndDeductFees_accumulates hmode' hfee hcharged h hok d).2
        have hfd := amountOf_nonneg hnn d
        omega
      · have hsame : ctx' = ctx := by
          unfold calcAndDeductFees at h
          rw [hfee] at h
          dsimp only at h
          rw [if_neg hcharged, if_neg hmode] at h
          unfold deductFees at h
          dsimp only at h
          split at h
          · cases h; rfl
          · simp only [sdk.Result.IsOK, decide_True, Bool.not_true, Bool.false_eq_true,
              if_false] at h
            cases h
            exact absurd rfl hok
        rw [hsame]

theorem calcAndDeductFees_accumulator_monotone_witness :
    Example.sendFee.Tokens.IsNotNegative = true ∧
    ∀ d, (Fee Example.deliverCtx).Tokens.amountOf d
      ≤ (Fee { Example.deliverCtx with feeValue := some Example.sendFee }).Tokens.amountOf d :=
  ⟨by decide,
    calcAndDeductFees_accumulator_monotone Example.env Example.deliverCtx
      { Example.deliverCtx with feeValue := some Example.sendFee }
      Example.store
      [{ Example.alice with
          Coins := [{ Denom := "BNB", Amount := 490 }, { Denom := "BTC", Amount := 200 }] },
        Example.bob]
      Example.alice
      { Example.alice with
        Coins := [{ Denom := "BNB", Amount := 490 }, { Denom := "BTC", Amount := 200 }] }
      Example.sendMsg Example.sendFee {} rfl (by decide) (by decide)⟩

/-- C20 (as stated, refuted): for the stored account of alice (account
number 0, sequence 7), a signature presenting account number 5 and a
signature presenting only a wrong sequence number are rejected by
`processSig` with the same reason code, InvalidSequence. -/
theorem processSig_mismatch_codes_coincide :
    (processSig Example.env (sdk.NewGasMeter 1000) Example.store [1] Example.wrongNumberSig
        []).result.map (fun r => r.Code) = some sdk.CodeType.InvalidSequence ∧
    (processSig Example.env (sdk.NewGasMeter 1000) Example.store [1] Example.wrongSequenceSig
        []).result.map (fun r => r.Code) = some sdk.CodeType.InvalidSequence := by
  decide

/-- C20 (amended): for every existing account whose account number differs
from the one presented in the signature, `processSig` rejects, before any
gas is charged, with the error `ErrInvalidSequence` and the message
"Invalid account number. Got .., expected ..": the reason code is
InvalidSequence, the code also returned when only the sequence number
differs. -/
theorem processSig_account_number_mismatch (env : Env) (gas : sdk.GasMeter)
    (am : auth.AccountMapper) (addr : sdk.AccAddress) (sig : StdSignature)
    (signBytes : List Nat) (acc : auth.Account)
    (hget : am.GetAccount addr = some acc) (hnum : acc.AccountNumber ≠ sig.AccountNumber) :
    processSig env gas am addr sig signBytes =
      SigOutcome.ret gas none (sdk.ErrInvalidSequence
        ("Invalid account number. Got " ++ toString sig.AccountNumber
          ++ ", expected " ++ toString acc.AccountNumber)).Result ∧
    (sdk.ErrInvalidSequence
        ("Invalid account number. Got " ++ toString sig.AccountNumber
          ++ ", expected " ++ toString acc.AccountNumber)).Result.Code
      = sdk.CodeType.InvalidSequence ∧
    ∀ sig2 : StdSignature, acc.AccountNumber = sig2.AccountNumber →
      acc.Sequence ≠ sig2.Sequence →
      ∃ res2, processSig env gas am addr sig2 signBytes = SigOutcome.ret gas none res2 ∧
        res2.Code = sdk.CodeType.InvalidSequence := by
  refine ⟨?_, rfl, ?_⟩
  · unfold processSig
    rw [hget]
    dsimp only
    rw [if_pos hnum]
  · intro sig2 h1 h2
    exact ⟨_, processSig_sequence_mismatch env gas am addr sig2 signBytes acc hget h1 h2, rfl⟩

theorem processSig_account_number_mismatch_witness :
    processSig Example.env (sdk.NewGasMeter 1000) Example.store [1] Example.wrongNumberSig [] =
      SigOutcome.ret (sdk.NewGasMeter 1000) none (sdk.ErrInvalidSequence
        ("Invalid account number. Got " ++ toString Example.wrongNumberSig.AccountNumber
          ++ ", expected " ++ toString Example.alice.AccountNumber)).Result ∧
    (sdk.ErrInvalidSequence
        ("Invalid account number. Got " ++ toString Example.wrongNumberSig.AccountNumber
          ++ ", expected " ++ toString Example.alice.AccountNumber)).Result.Code
      = sdk.CodeType.InvalidSequence ∧
    ∀ sig2 : StdSignature, Example.alice.AccountNumber = sig2.AccountNumber →
      Example.alice.Sequence ≠ sig2.Sequence →
      ∃ res2, processSig Example.env (sdk.NewGasMeter 1000) Example.store [1] sig2 []
          = SigOutcome.ret (sdk.NewGasMeter 1000) none res2 ∧
        res2.Code = sdk.CodeType.InvalidSequence :=
  processSig_account_number_mismatch Example.env (sdk.NewGasMeter 1000) Example.store [1]
    Example.wrongNumberSig [] Example.alice (by decide) (by decide)

/-- C21: for every stored account with no bound public key whose account
number and sequence number match the signature: if `processSig` accepts
(returns an OK result), the signature carries a key whose derived address
is the signer's address and which verifies the sign bytes, and the returned
account is the stored one with the sequence number incremented and exactly
that key bound; if the carried key is absent, or its derived address
differs from the signer's address, `processSig` rejects with an
InvalidPubKey error; and a carried key that matches and verifies is
accepted whenever the gas for the verification is available. -/
theorem processSig_binds_carried_key (env : Env) (gas : sdk.GasMeter)
    (am : auth.AccountMapper) (addr : sdk.AccAddress) (sig : StdSignature)
    (signBytes : List Nat) (acc : auth.Account)
    (hget : am.GetAccount addr = some acc) (hkey : acc.PubKey = none)
    (hnum : acc.AccountNumber = sig.AccountNumber) (hseq : acc.Sequence = sig.Sequence) :
    (∀ gas' o res, processSig env gas am addr sig signBytes = SigOutcome.ret gas' o res →
      res.IsOK = true →
      ∃ pubKey, sig.PubKey = some pubKey ∧ env.PubKeyAddress pubKey = addr ∧
        env.VerifyBytes pubKey signBytes sig.Signature = true ∧
        o = some { acc with Sequence := GoInt64.add acc.Sequence 1, PubKey := some pubKey }) ∧
    (sig.PubKey = none →
      processSig env gas am addr sig signBytes =
        SigOutcome.ret gas none (sdk.ErrInvalidPubKey "PubKey not found").Result) ∧
    (∀ pubKey, sig.PubKey = some pubKey → env.PubKeyAddress pubKey ≠ addr →
      processSig env gas am addr sig signBytes =
        SigOutcome.ret gas none (sdk.ErrInvalidPubKey
          ("PubKey does not match Signer address " ++ env.AddrString addr)).Result) ∧
    (∀ text, (sdk.ErrInvalidPubKey text).Result.IsOK = false) ∧
    (∀ pubKey, sig.PubKey = some pubKey → env.PubKeyAddress pubKey = addr →
      env.VerifyBytes pubKey signBytes sig.Signature = true →
      (gas.ConsumeGas verifyCost).2 = false →
      processSig env gas am addr sig signBytes =
        SigOutcome.ret (gas.ConsumeGas verifyCost).1
          (some { acc with Sequence := GoInt64.add acc.Sequence 1, PubKey := some pubKey })
          {}) := by
  have hne1 : ¬ (acc.AccountNumber ≠ sig.AccountNumber) := fun h => h hnum
  have hne2 : ¬ (acc.Sequence ≠ sig.Sequence) := fun h => h hseq
  refine ⟨?_, ?_, ?_, ?_, ?_⟩
  · intro gas' o res h hok
    unfold processSig at h
    rw [hget] at h
    dsimp only at h
    rw [if_neg hne1, if_neg hne2] at h
    unfold bindPubKey at h
    simp only [hkey] at h
    cases hsk : sig.PubKey with
    | none =>
      rw [hsk] at h
      simp only [SigOutcome.ret.injEq] at h
      obtain ⟨_, _, rfl⟩ := h
      simp [sdk.Result.IsOK, sdk.Error.Result, sdk.ErrInvalidPubKey] at hok
    | some pubKey =>
      rw [hsk] at h
      dsimp only at h
      by_cases haddr : env.PubKeyAddress pubKey = addr
      · rw [if_neg (fun hc => hc haddr)] at h
        dsimp only at h
        split at h
        · cases h
        · split at h
          · simp only [SigOutcome.ret.injEq] at h
            obtain ⟨_, _, rfl⟩ := h
            simp [sdk.Result.IsOK, sdk.Error.Result, sdk.ErrUnauthorized] at hok
          · rename_i hver
            simp only [SigOutcome.ret.injEq] at h
            obtain ⟨_, rfl, _⟩ := h
            refine ⟨pubKey, rfl, haddr, ?_, rfl⟩
            simpa using hver
      · rw [if_pos haddr] at h
        simp only [SigOutcome.ret.injEq] at h
        obtain ⟨_, _, rfl⟩ := h
        simp [sdk.Result.IsOK, sdk.Error.Result, sdk.ErrInvalidPubKey] at hok
  · intro hsk
    unfold processSig
    rw [hget]
    dsimp only
    rw [if_neg hne1, if_neg hne2]
    unfold bindPubKey
    simp only [hkey, hsk]
  · intro pubKey hsk haddr
    unfold processSig
    rw [hget]
    dsimp only
    rw [if_neg hne1, if_neg hne2]
    unfold bindPubKey
    simp only [hkey, hsk]
    rw [if_pos haddr]
  · intro text
    simp [sdk.Result.IsOK, sdk.Error.Result, sdk.ErrInvalidPubKey]
  · intro pubKey hsk haddr hver hgas
    unfold processSig
    rw [hget]
    dsimp only
    rw [if_neg hne1, if_neg hne2]
    unfold bindPubKey
    simp only [hkey, hsk]
    rw [if_neg (fun hc => hc haddr)]
    dsimp only
    rw [hgas, hver]
    simp

theorem processSig_binds_carried_key_witness :
    Example.store.GetAccount [2] = some Example.bob ∧ Example.bob.PubKey = none ∧
    processSig Example.env (sdk.NewGasMeter 1000) Example.store [2] Example.bobSig [1, 0] =
      SigOutcome.ret ((sdk.NewGasMeter 1000).ConsumeGas verifyCost).1
        (some { Example.bob with
          Sequence := GoInt64.add Example.bob.Sequence 1, PubKey := some { bytes := [2] } })
        {} :=
  ⟨by decide, by decide,
    (processSig_binds_carried_key Example.env (sdk.NewGasMeter 1000) Example.store [2]
      Example.bobSig [1, 0] Example.bob (by decide) (by decide) (by decide)
      (by decide)).2.2.2.2 { bytes := [2] } (by decide) (by decide) (by decide) (by decide)⟩

/-- C29: for every stored account that already has a bound public key, two
runs of `processSig` on signatures that differ only in the public key they
carry (same signature bytes, account number and sequence number) give the
same outcome: the same gas meter, account and result, or the same panic. -/
theorem processSig_ignores_carried_key (env : Env) (gas : sdk.GasMeter)
    (am : auth.AccountMapper) (addr : sdk.AccAddress) (sig1 sig2 : StdSignature)
    (signBytes : List Nat) (acc : auth.Account) (bound : sdk.PubKey)
    (hget : am.GetAccount addr = some acc) (hkey : acc.PubKey = some bound)
    (hsig : sig1.Signature = sig2.Signature)
    (hnum : sig1.AccountNumber = sig2.AccountNumber)
    (hseq : sig1.Sequence = sig2.Sequence) :
    processSig env gas am addr sig1 signBytes = processSig env gas am addr sig2 signBytes := by
  unfold processSig
  rw [hget]
  dsimp only
  unfold bindPubKey
  simp only [hkey, hsig, hnum, hseq]

theorem processSig_ignores_carried_key_witness :
    Example.store.GetAccount [1] = some Example.alice ∧
    Example.alice.PubKey = some { bytes := [1] } ∧
    processSig Example.env (sdk.NewGasMeter 1000) Example.store [1]
        { PubKey := none, Signature := [1, 0, 7], AccountNumber := 0, Sequence := 7 } [0, 7] =
      processSig Example.env (sdk.NewGasMeter 1000) Example.store [1]
        { PubKey := some { bytes := [9] }, Signature := [1, 0, 7], AccountNumber := 0,
          Sequence := 7 } [0, 7] :=
  ⟨by decide, by decide,
    processSig_ignores_carried_key Example.env (sdk.NewGasMeter 1000) Example.store [1]
      { PubKey := none, Signature := [1, 0, 7], AccountNumber := 0, Sequence := 7 }
      { PubKey := some { bytes := [9] }, Signature := [1, 0, 7], AccountNumber := 0,
        Sequence := 7 } [0, 7] Example.alice { bytes := [1] } (by decide) (by decide) rfl rfl rfl⟩

/-- The signer loop, when it finishes, has changed no stored balance. -/
theorem sigLoop_coins {env : Env} {chainID : String} {stdTx : StdTx} {msgs : List Msg}
    {addrs : List sdk.AccAddress} {sigs : List StdSignature} {gas gas' : sdk.GasMeter}
    {am am' : auth.AccountMapper} {accs accs' : List auth.Account}
    (h : sigLoop env chainID stdTx msgs addrs sigs gas am accs = SigsOutcome.done gas' am' accs')
    (hlen : addrs.length = sigs.length) (a : sdk.AccAddress) :
    (am'.GetAccount a).map (fun x => x.Coins) = (am.GetAccount a).map (fun x => x.Coins) := by
  obtain ⟨hnone, hsome, _⟩ := sigLoop_done addrs sigs gas am accs gas' am' accs' h hlen
  cases hget : am.GetAccount a with
  | none => rw [(hnone a hget).1]
  | some acc =>
    obtain ⟨acc', hget', _, _, hcoins⟩ := hsome a acc hget
    rw [hget']
    simp [hcoins]

/-- The first account the signer loop collects holds the balance stored for
the first signer. -/
theorem sigLoop_head_coins {env : Env} {chainID : String} {stdTx : StdTx} {msgs : List Msg}
    {addr : sdk.AccAddress} {addrs : List sdk.AccAddress} {sig : StdSignature}
    {sigs : List StdSignature} {gas gas' : sdk.GasMeter} {am am' : auth.AccountMapper}
    {acc0 : auth.Account} {rest : List auth.Account}
    (h : sigLoop env chainID stdTx msgs (addr :: addrs) (sig :: sigs) gas am []
      = SigsOutcome.done gas' am' (acc0 :: rest))
    (hlen : addrs.length = sigs.length) :
    ∃ acc, am.GetAccount addr = some acc ∧ acc0.Address = addr ∧ acc0.Coins = acc.Coins := by
  simp only [sigLoop] at h
  split at h
  · cases h
  · rename_i gas1 o res hps
    split at h
    · cases h
    · rename_i hok
      have hok' : res.IsOK = true := by simpa using hok
      obtain ⟨acc, acc1, hget, ho, _, _, haddr, _, _, hcoins⟩ := processSig_ok hps hok'
      subst ho
      dsimp only at h
      obtain ⟨_, _, l, hl⟩ := sigLoop_done addrs sigs gas1 (am.SetAccount acc1) ([] ++ [acc1])
        gas' am' (acc0 :: rest) h hlen
      simp only [List.nil_append, List.singleton_append, List.cons.injEq] at hl
      obtain ⟨rfl, _⟩ := hl
      exact ⟨acc, hget, haddr, hcoins⟩

/-- An admitting run of the ante handler charged the fee of the first
message to the first collected signer account, and that charge returned
OK. -/
theorem NewAnteHandler_admitted_fee {env : Env} {am : auth.AccountMapper} {ctx : sdk.Context}
    {stdTx : StdTx} {out : AnteOutcome} (h : NewAnteHandler env am ctx (Tx.std stdTx) = out)
    (hadm : out.admitted = true) :
    ∃ gas1 am1 acc0 rest msg0 msgs ctx2 res2 acc0',
      stdTx.Msgs = msg0 :: msgs ∧ validateBasic env stdTx = none ∧
      sigLoop env ctx.chainID stdTx stdTx.Msgs (env.GetSigners stdTx.Msgs) stdTx.Signatures
        (memoCharge stdTx).1 am [] = SigsOutcome.done gas1 am1 (acc0 :: rest) ∧
      calcAndDeductFees env ((ctx.WithGasMeter (sdk.NewGasMeter stdTx.Fee.Gas)).WithGasMeter gas1)
        am1 acc0 msg0 = FeeOutcome.ret ctx2 res2 acc0' out.store ∧ res2.IsOK = true := by
  unfold NewAnteHandler at h
  dsimp only at h
  split at h
  · subst h; simp [AnteOutcome.admitted] at hadm
  · rename_i hvb
    split at h
    · subst h; simp [recoverOutOfGas, AnteOutcome.admitted] at hadm
    · rename_i hoog
      split at h
      · subst h; simp [recoverOutOfGas, AnteOutcome.admitted] at hadm
      · subst h; simp [AnteOutcome.admitted] at hadm
      · subst h; simp [AnteOutcome.admitted] at hadm
      · rename_i gas1 am1 signerAccs hloop
        split at h
        · rename_i acc0 rest msg0 msgs' hmsgs
          split at h
          · subst h; simp [AnteOutcome.admitted] at hadm
          · rename_i ctx2 res2 acc0' am2 hfee
            split at h
            · subst h; simp [AnteOutcome.admitted] at hadm
            · rename_i hres
              subst h
              refine ⟨gas1, am1, acc0, rest, msg0, msgs', ctx2, res2, acc0', ?_, hvb,
                hloop, hfee, ?_⟩
              · simpa [Tx.GetMsgs] using hmsgs
              · simpa using hres
        · subst h; simp [AnteOutcome.admitted] at hadm

/-- A charge in real-execution mode that returned OK: the fee is the one
the calculator gives for the message; a free or zero fee leaves the payer
account and the store alone, any other fee is subtracted from the payer's
coins and the payer account is written back. -/
theorem calcAndDeductFees_deliver_ok {env : Env} {ctx ctx' : sdk.Context}
    {am am' : auth.AccountMapper} {acc acc' : auth.Account} {msg : Msg} {res : sdk.Result}
    (hmode : ctx.isCheckTx = false)
    (h : calcAndDeductFees env ctx am acc msg = FeeOutcome.ret ctx' res acc' am')
    (hok : res.IsOK = true) :
    ∃ fee, calculateFees env msg = Except.ok fee ∧
      (((fee.Tpe = types.FeeFree ∨ fee.Tokens.IsZero = true) ∧ acc' = acc ∧ am' = am) ∨
       (¬ (fee.Tpe = types.FeeFree ∨ fee.Tokens.IsZero = true) ∧
         acc' = { acc with Coins := acc.Coins.Minus fee.Tokens.Sort.Sort } ∧
         am' = am.SetAccount acc')) := by
  unfold calcAndDeductFees at h
  split at h
  · cases h
  · rename_i fee hfee
    refine ⟨fee, hfee, ?_⟩
    split at h
    · rename_i hfree
      cases h; exact Or.inl ⟨hfree, rfl, rfl⟩
    · rename_i hcharged
      dsimp only at h
      rw [if_neg (by simp [hmode])] at h
      unfold deductFees at h
      dsimp only at h
      split at h
      · rename_i hbad
        simp only [FeeOutcome.ret.injEq] at h
        obtain ⟨_, rfl, _, _⟩ := h
        simp [hok] at hbad
      · simp only [sdk.Result.IsOK, decide_True, Bool.not_true, Bool.false_eq_true,
          if_false] at h
        cases h
        exact Or.inr ⟨hcharged, rfl, rfl⟩

/-- C22: `calculateFees` returns an error exactly when no fee calculator
is registered for the type of the message, and otherwise returns the
registered calculator applied to the message.  When none is registered,
`calcAndDeductFees` panics with that error and leaves the account store as
it was given; a run of the ante handler that reaches the charge then ends
in that panic (its `recover` re-raises it, no result is returned), with the
store as the signer loop left it, in which every balance is the one stored
before the call. -/
theorem calculateFees_missing_calculator (env : Env) (ctx : sdk.Context)
    (am : auth.AccountMapper) (acc : auth.Account) (msg : Msg) :
    ((∃ err, calculateFees env msg = Except.error err) ↔ env.GetCalculator msg.Tpe = none) ∧
    (∀ calculator, env.GetCalculator msg.Tpe = some calculator →
      calculateFees env msg = Except.ok (calculator msg)) ∧
    (env.GetCalculator msg.Tpe = none →
      calcAndDeductFees env ctx am acc msg =
        FeeOutcome.panicked ("missing calculator for msgType:" ++ msg.Tpe) am) ∧
    (∀ (stdTx : StdTx) (msgs : List Msg) (gas1 : sdk.GasMeter) (am1 : auth.AccountMapper)
      (acc0 : auth.Account) (rest : List auth.Account),
      env.GetCalculator msg.Tpe = none → stdTx.Msgs = msg :: msgs →
      validateBasic env stdTx = none → (memoCharge stdTx).2 = false →
      sigLoop env ctx.chainID stdTx stdTx.Msgs (env.GetSigners stdTx.Msgs) stdTx.Signatures
        (memoCharge stdTx).1 am [] = SigsOutcome.done gas1 am1 (acc0 :: rest) →
      NewAnteHandler env am ctx (Tx.std stdTx) =
        AnteOutcome.panicked ("missing calculator for msgType:" ++ msg.Tpe) am1 ∧
      ∀ a, (am1.GetAccount a).map (fun x => x.Coins) =
        (am.GetAccount a).map (fun x => x.Coins)) := by
  refine ⟨?_, ?_, ?_, ?_⟩
  · unfold calculateFees
    cases hc : env.GetCalculator msg.Tpe with
    | none => exact ⟨fun _ => rfl, fun _ => ⟨_, rfl⟩⟩
    | some calculator =>
      constructor
      · rintro ⟨err, herr⟩
        cases herr
      · intro h
        cases h
  · intro calculator hc
    unfold calculateFees
    rw [hc]
  · intro hc
    unfold calcAndDeductFees calculateFees
    rw [hc]
  · intro stdTx msgs gas1 am1 acc0 rest hc hmsgs hvb hmemo hloop
    have hmemo' : ¬ ((ctx.WithGasMeter (sdk.NewGasMeter stdTx.Fee.Gas)).gasMeter.ConsumeGas
        (GoInt64.mul memoCostPerByte (GoInt64.wrap stdTx.Memo.utf8ByteSize))).2 = true := by
      have : (memoCharge stdTx).2 = false := hmemo
      simpa [memoCharge] using this
    have hlen := (validateBasic_none hvb).2
    refine ⟨?_, fun a => sigLoop_coins hloop hlen.symm a⟩
    unfold NewAnteHandler
    dsimp only
    rw [hvb]
    dsimp only
    rw [if_neg hmemo']
    have hloop' := hloop
    dsimp only [memoCharge] at hloop'
    dsimp only [Tx.GetMsgs, sdk.Context.WithGasMeter]
    rw [hloop']
    dsimp only
    rw [hmsgs]
    dsimp only
    unfold calcAndDeductFees calculateFees
    rw [hc]

theorem calculateFees_missing_calculator_witness :
    NewAnteHandler Example.env Example.store Example.deliverCtx (Tx.std Example.burnTx) =
        AnteOutcome.panicked "missing calculator for msgType:burn"
          [Example.aliceBumped, Example.bob] ∧
      ∀ a, (auth.AccountMapper.GetAccount [Example.aliceBumped, Example.bob] a).map
          (fun x => x.Coins) = (Example.store.GetAccount a).map (fun x => x.Coins) :=
  (calculateFees_missing_calculator Example.env Example.deliverCtx Example.store Example.alice
    Example.burnMsg).2.2.2 Example.burnTx [] { limit := 1000, consumed := 100 }
    [Example.aliceBumped, Example.bob] Example.aliceBumped [] rfl (by decide)
    (by decide) (by decide) (by decide)

/-- C24: for every transaction the ante handler admits in real-execution
mode (any number of signers and messages), the fee is the one the
calculator gives for the first message, and it is taken from the first
signer only: the balance stored for the first signer afterwards is, in
every denomination, the balance stored before minus the fee (minus nothing
when the fee is free or zero), and the balance stored for every other
address is the one stored before. -/
theorem anteHandler_fee_from_first_signer (env : Env) (am : auth.AccountMapper)
    (ctx : sdk.Context) (stdTx : StdTx)
    (hadm : (NewAnteHandler env am ctx (Tx.std stdTx)).admitted = true)
    (hmode : ctx.isCheckTx = false) :
    ∃ a0 addrs msg0 msgs fee acc0 acc0',
      env.GetSigners stdTx.Msgs = a0 :: addrs ∧ stdTx.Msgs = msg0 :: msgs ∧
      calculateFees env msg0 = Except.ok fee ∧
      am.GetAccount a0 = some acc0 ∧
      (NewAnteHandler env am ctx (Tx.std stdTx)).store.GetAccount a0 = some acc0' ∧
      (∀ d, acc0'.Coins.amountOf d = acc0.Coins.amountOf d -
        (if fee.Tpe = types.FeeFree ∨ fee.Tokens.IsZero = true then 0
          else fee.Tokens.amountOf d)) ∧
      ∀ a, a ≠ a0 →
        ((NewAnteHandler env am ctx (Tx.std stdTx)).store.GetAccount a).map (fun x => x.Coins)
          = (am.GetAccount a).map (fun x => x.Coins) := by
  obtain ⟨gas1, am1, acc0, rest, msg0, msgs, ctx2, res2, acc0', hmsgs, hvb, hloop, hfee, hok⟩ :=
    NewAnteHandler_admitted_fee rfl hadm
  obtain ⟨hne, hlen⟩ := validateBasic_none hvb
  cases hsg : stdTx.Signatures with
  | nil => rw [hsg] at hne; exact absurd rfl hne
  | cons sig sigs =>
    cases hsl : env.GetSigners stdTx.Msgs with
    | nil => rw [hsg, hsl] at hlen; cases hlen
    | cons a0 addrs =>
      rw [hsg, hsl] at hlen hloop
      have hlen' : addrs.length = sigs.length := by simpa using hlen.symm
      have hlen'' : (a0 :: addrs).length = (sig :: sigs).length := by simpa using hlen.symm
      obtain ⟨acc, hget, haddr0, hcoins0⟩ := sigLoop_head_coins hloop hlen'
      have hmode' : ((ctx.WithGasMeter (sdk.NewGasMeter stdTx.Fee.Gas)).WithGasMeter
          gas1).isCheckTx = false := hmode
      obtain ⟨fee, hcalc, hcase⟩ := calcAndDeductFees_deliver_ok hmode' hfee hok
      obtain ⟨_, hsome, _⟩ := sigLoop_done _ _ _ _ _ _ _ _ hloop hlen''
      rcases hcase with ⟨hfree, _, hstore⟩ | ⟨hcharged, hacc, hstore⟩
      · obtain ⟨acc1, hget1, _, _, hcoins1⟩ := hsome a0 acc hget
        refine ⟨a0, addrs, msg0, msgs, fee, acc, acc1, rfl, hmsgs, hcalc, hget, ?_, ?_, ?_⟩
        · rw [hstore]; exact hget1
        · intro d
          rw [if_pos hfree, hcoins1]
          simp
        · intro a _
          rw [hstore]
          exact sigLoop_coins hloop hlen'' a
      · have haddr : acc0'.Address = a0 := by rw [hacc]; exact haddr0
        refine ⟨a0, addrs, msg0, msgs, fee, acc, acc0', rfl, hmsgs, hcalc, hget, ?_, ?_, ?_⟩
        · rw [hstore, ← haddr]
          exact auth.GetAccount_SetAccount_self am1 acc0'
        · intro d
          rw [if_neg hcharged, hacc]
          show sdk.Coins.amountOf (acc0.Coins.Minus fee.Tokens.Sort.Sort) d = _
          rw [sdk.amountOf_Minus, sdk.amountOf_Sort, sdk.amountOf_Sort, hcoins0]
        · intro a hne0
          rw [hstore, auth.GetAccount_SetAccount_of_ne am1 acc0' a (by rw [haddr]; exact hne0)]
          exact sigLoop_coins hloop hlen'' a

theorem anteHandler_fee_from_first_signer_witness :
    (NewAnteHandler Example.env Example.store Example.deliverCtx
      (Tx.std Example.twoMsgTx)).admitted = true ∧
    ∃ a0 addrs msg0 msgs fee acc0 acc0',
      Example.env.GetSigners Example.twoMsgTx.Msgs = a0 :: addrs ∧
      Example.twoMsgTx.Msgs = msg0 :: msgs ∧
      calculateFees Example.env msg0 = Except.ok fee ∧
      Example.store.GetAccount a0 = some acc0 ∧
      (NewAnteHandler Example.env Example.store Example.deliverCtx
        (Tx.std Example.twoMsgTx)).store.GetAccount a0 = some acc0' ∧
      (∀ d, acc0'.Coins.amountOf d = acc0.Coins.amountOf d -
        (if fee.Tpe = types.FeeFree ∨ fee.Tokens.IsZero = true then 0
          else fee.Tokens.amountOf d)) ∧
      ∀ a, a ≠ a0 →
        ((NewAnteHandler Example.env Example.store Example.deliverCtx
          (Tx.std Example.twoMsgTx)).store.GetAccount a).map (fun x => x.Coins)
          = (Example.store.GetAccount a).map (fun x => x.Coins) :=
  ⟨by decide, anteHandler_fee_from_first_signer Example.env Example.store Example.deliverCtx
    Example.twoMsgTx (by decide) (by decide)⟩

/-- C28: in a run of the ante handler whose signers before some signer pass
`processSig` and in which `processSig` rejects that signer (returns a
result that is not OK, whatever the reason), the handler returns that
result with abort = true, and the account store it leaves is the one the
rejecting call was given: the account stored for the rejected signer is the
one stored when that call began, and, when the signer is not among the
earlier signers, the one stored before the handler ran, with the sequence
number and public key it had. -/
theorem anteHandler_rejected_signer_not_persisted (env : Env) (am : auth.AccountMapper)
    (ctx : sdk.Context) (stdTx : StdTx) (pre post : List sdk.AccAddress) (ak : sdk.AccAddress)
    (preS postS : List StdSignature) (sk : StdSignature) (gasK gas' : sdk.GasMeter)
    (amK : auth.AccountMapper) (accsK : List auth.Account) (o : Option auth.Account)
    (res : sdk.Result)
    (hvb : validateBasic env stdTx = none) (hmemo : (memoCharge stdTx).2 = false)
    (hsigners : env.GetSigners stdTx.Msgs = pre ++ ak :: post)
    (hsigs : stdTx.Signatures = preS ++ sk :: postS)
    (hlen : pre.length = preS.length)
    (hpass : sigLoop env ctx.chainID stdTx stdTx.Msgs pre preS (memoCharge stdTx).1 am []
      = SigsOutcome.done gasK amK accsK)
    (hrej : processSig env gasK amK ak sk
      (env.StdSignBytes ctx.chainID sk.AccountNumber sk.Sequence stdTx.Fee stdTx.Msgs
        stdTx.Memo) = SigOutcome.ret gas' o res)
    (hbad : res.IsOK = false) :
    (NewAnteHandler env am ctx (Tx.std stdTx)).aborted = true ∧
    (NewAnteHandler env am ctx (Tx.std stdTx)).result = some res ∧
    (NewAnteHandler env am ctx (Tx.std stdTx)).store = amK ∧
    (NewAnteHandler env am ctx (Tx.std stdTx)).store.GetAccount ak = amK.GetAccount ak ∧
    (ak ∉ pre →
      (NewAnteHandler env am ctx (Tx.std stdTx)).store.GetAccount ak = am.GetAccount ak) := by
  have hstep : sigLoop env ctx.chainID stdTx stdTx.Msgs (ak :: post) (sk :: postS) gasK amK accsK
      = SigsOutcome.rejected gas' amK res := by
    simp only [sigLoop]
    rw [hrej]
    simp [hbad]
  have hloop : sigLoop env ctx.chainID stdTx stdTx.Msgs (env.GetSigners stdTx.Msgs)
      stdTx.Signatures (memoCharge stdTx).1 am [] = SigsOutcome.rejected gas' amK res := by
    rw [hsigners, hsigs, sigLoop_append pre preS (ak :: post) (sk :: postS) _ _ _ _ _ _ hlen hpass]
    exact hstep
  rw [NewAnteHandler_sigLoop_rejected env am amK ctx stdTx gas' res hvb hmemo hloop]
  refine ⟨rfl, rfl, rfl, rfl, fun hnot => ?_⟩
  exact sigLoop_frame _ _ _ _ _ _ _ _ hpass hlen ak hnot

theorem anteHandler_rejected_signer_not_persisted_witness :
    (NewAnteHandler Example.env Example.store Example.deliverCtx
        (Tx.std Example.forgedTx)).aborted = true ∧
    (NewAnteHandler Example.env Example.store Example.deliverCtx
        (Tx.std Example.forgedTx)).result
      = some (sdk.ErrUnauthorized "signature verification failed").Result ∧
    (NewAnteHandler Example.env Example.store Example.deliverCtx
        (Tx.std Example.forgedTx)).store = [Example.aliceBumped, Example.bob] ∧
    (NewAnteHandler Example.env Example.store Example.deliverCtx
        (Tx.std Example.forgedTx)).store.GetAccount [2]
      = auth.AccountMapper.GetAccount [Example.aliceBumped, Example.bob] [2] ∧
    ([2] ∉ [[1]] →
      (NewAnteHandler Example.env Example.store Example.deliverCtx
        (Tx.std Example.forgedTx)).store.GetAccount [2] = Example.store.GetAccount [2]) :=
  anteHandler_rejected_signer_not_persisted Example.env Example.store Example.deliverCtx
    Example.forgedTx [[1]] [] [2]
    [{ PubKey := none, Signature := [1, 0, 7], AccountNumber := 0, Sequence := 7 }] []
    { PubKey := some { bytes := [2] }, Signature := [9, 9, 9], AccountNumber := 1, Sequence := 0 }
    { limit := 1000, consumed := 105 } { limit := 1000, consumed := 205 }
    [Example.aliceBumped, Example.bob] [Example.aliceBumped] none
    (sdk.ErrUnauthorized "signature verification failed").Result
    (by decide) (by decide) (by decide) (by decide) (by decide) (by decide) (by decide)
    (by decide)

end tx

namespace pub

theorem sleepsOf_append (xs ys : List Effect) : sleepsOf (xs ++ ys) = sleepsOf xs ++ sleepsOf ys := by
  induction xs with
  | nil => rfl
  | cons x xs ih => cases x <;> simp [sleepsOf, ih]

theorem sendsOf_append (xs ys : List Effect) : sendsOf (xs ++ ys) = sendsOf xs ++ sendsOf ys := by
  induction xs with
  | nil => rfl
  | cons x xs ih => cases x <;> simp [sendsOf, ih]

theorem writesOf_append (xs ys : List Effect) : writesOf (xs ++ ys) = writesOf xs ++ writesOf ys := by
  induction xs with
  | nil => rfl
  | cons x xs ih => cases x <;> simp [writesOf, ih]

/-- The retry loop writes no file. -/
theorem writesOf_retryLoop (message : ProducerMessage) (topic : String) :
    ∀ (responses : List SendResponse) (backOff : Int),
      writesOf (retryLoop message topic backOff responses).effects = [] := by
  intro responses
  induction responses with
  | nil => intro backOff; rfl
  | cons r rest ih =>
    intro backOff
    unfold retryLoop
    split
    · simp only [writesOf]
      exact ih _
    · rfl

theorem writesOf_publishWithRetry (publisher : KafkaMarketDataPublisher)
    (message : ProducerMessage) (topic : String) (responses : List SendResponse) :
    writesOf (publisher.publishWithRetry message topic responses).effects = [] := by
  unfold KafkaMarketDataPublisher.publishWithRetry
  split
  · exact writesOf_retryLoop message topic responses 1
  · rfl

theorem two_pow_le (j : Nat) (h : j ≤ 33) : (2 : Int) ^ j ≤ 8589934592 := by
  have h1 : (2 : Nat) ^ j ≤ 2 ^ 33 := Nat.pow_le_pow_right (by decide) h
  have h2 : ((2 : Nat) ^ j : Int) ≤ ((2 ^ 33 : Nat) : Int) := by exact_mod_cast h1
  have h3 : ((2 ^ 33 : Nat) : Int) = 8589934592 := by norm_num
  have h4 : ((2 : Nat) ^ j : Int) = (2 : Int) ^ j := by norm_cast
  rw [h3, h4] at h2
  exact h2

/-- The waits of the retry loop entered with back-off 2^j, over n retriable
responses followed by one that is not, as long as j + n is at most 33:
2^(j+1), 2^(j+2), ... seconds. -/
theorem sleepsOf_retryLoop (message : ProducerMessage) (topic : String) (r : SendResponse)
    (rest : List SendResponse) (hr : r.retriable = false) :
    ∀ (errs : List SendResponse) (j : Nat), (∀ x ∈ errs, x.retriable = true) →
      j + errs.length ≤ 33 →
      sleepsOf (retryLoop message topic ((2 : Int) ^ j) (errs ++ r :: rest)).effects
        = (List.range errs.length).map (fun i => (2 : Int) ^ (j + i + 1) * 1000000000) := by
  intro errs
  induction errs with
  | nil =>
    intro j _ _
    simp only [List.nil_append, retryLoop, hr, Bool.false_eq_true, if_false]
    rfl
  | cons x errs ih =>
    intro j hx hj
    have hxr : x.retriable = true := hx x (List.mem_cons_self _ _)
    have hj' : j + 1 + errs.length ≤ 33 := by
      simp only [List.length_cons] at hj; omega
    have hpow := two_pow_le (j + 1) (by omega)
    have hpos : (0 : Int) < 2 ^ j := by positivity
    have hsucc : (2 : Int) ^ (j + 1) = 2 ^ j * 2 := pow_succ 2 j
    have hshift : GoInt64.shiftLeft1 ((2 : Int) ^ j) = 2 ^ (j + 1) := by
      rw [hsucc]
      rw [hsucc] at hpow
      unfold GoInt64.shiftLeft1 GoInt64.wrap
      omega
    have hmul : GoInt64.mul ((2 : Int) ^ (j + 1)) Second = 2 ^ (j + 1) * 1000000000 := by
      have hpos' : (0 : Int) < 2 ^ (j + 1) := by positivity
      unfold GoInt64.mul GoInt64.wrap Second
      generalize (2 : Int) ^ (j + 1) = y at hpow hpos' ⊢
      omega
    simp only [List.cons_append, retryLoop, hxr, if_true, sleepsOf, hshift, hmul]
    have hih := ih (j + 1) (fun y hy => hx y (List.mem_cons_of_mem _ hy)) hj'
    change _ :: sleepsOf (retryLoop message topic (2 ^ (j + 1)) (errs ++ r :: rest)).effects = _
    rw [hih]
    rw [List.length_cons, List.range_succ_eq_map, List.map_cons, List.map_map]
    congr 1
    apply List.map_congr_left
    intro i _
    simp only [Function.comp]
    congr 2
    omega

/-- C14 (as stated, refuted): after the first retriable failure
`publishWithRetry` waits 2 seconds, not 2^(1-1) = 1 second: the back-off
starts at 1 and is doubled before the wait. -/
theorem publishWithRetry_first_wait_two_seconds :
    sleepsOf (Example.publisher.publishWithRetry Example.execKafkaMsg "orders"
        [Example.outOfBrokers, Example.delivered]).effects = [2 * Second] ∧
      2 * Second ≠ 2 ^ (1 - 1) * Second := by
  decide

/-- C14 (amended): in `publishWithRetry`, when n ≤ 33 consecutive retriable
failures are followed by a response that is not retriable, the wait applied
after the k-th failure (k = 1..n) is 2^k seconds: the waits are 2, 4, 8,
..., doubling on each attempt, and strictly increasing. -/
theorem publishWithRetry_waits (publisher : KafkaMarketDataPublisher)
    (message : ProducerMessage) (topic : String) (errs rest : List SendResponse)
    (r : SendResponse) (htopic : topic ∈ publisher.producers)
    (herrs : ∀ x ∈ errs, x.retriable = true) (hr : r.retriable = false)
    (hn : errs.length ≤ 33) :
    sleepsOf (publisher.publishWithRetry message topic (errs ++ r :: rest)).effects
        = (List.range errs.length).map (fun i => (2 : Int) ^ (i + 1) * Second) ∧
    List.Pairwise (fun a b => a < b)
      (sleepsOf (publisher.publishWithRetry message topic (errs ++ r :: rest)).effects) := by
  have hmain : sleepsOf (publisher.publishWithRetry message topic (errs ++ r :: rest)).effects
      = (List.range errs.length).map (fun i => (2 : Int) ^ (i + 1) * Second) := by
    unfold KafkaMarketDataPublisher.publishWithRetry
    rw [if_pos htopic]
    have h := sleepsOf_retryLoop message topic r rest hr errs 0 herrs (by omega)
    simp only [pow_zero, Nat.zero_add] at h
    rw [h]
    rfl
  refine ⟨hmain, ?_⟩
  rw [hmain, List.pairwise_map]
  refine List.Pairwise.imp ?_ (List.pairwise_lt_range errs.length)
  intro a b hab
  have h1 : (2 : Int) ^ (a + 1) < 2 ^ (b + 1) :=
    pow_lt_pow_right₀ (by norm_num) (by omega)
  unfold Second
  omega

theorem publishWithRetry_waits_witness :
    sleepsOf (Example.publisher.publishWithRetry Example.execKafkaMsg "orders"
        ([Example.outOfBrokers, Example.outOfBrokers, Example.outOfBrokers]
          ++ Example.delivered :: [])).effects
        = (List.range [Example.outOfBrokers, Example.outOfBrokers,
            Example.outOfBrokers].length).map (fun i => (2 : Int) ^ (i + 1) * Second) ∧
    List.Pairwise (fun a b => a < b)
      (sleepsOf (Example.publisher.publishWithRetry Example.execKafkaMsg "orders"
        ([Example.outOfBrokers, Example.outOfBrokers, Example.outOfBrokers]
          ++ Example.delivered :: [])).effects) :=
  publishWithRetry_waits Example.publisher Example.execKafkaMsg "orders"
    [Example.outOfBrokers, Example.outOfBrokers, Example.outOfBrokers] [] Example.delivered
    (by decide) (by decide) (by decide) (by decide)

/-- The retry loop sends nothing but the message it was given, on the topic
it was given. -/
theorem sends_retryLoop (message : ProducerMessage) (topic : String) :
    ∀ (responses : List SendResponse) (backOff : Int),
      ∀ e ∈ (retryLoop message topic backOff responses).effects,
        e = Effect.send topic message ∨ ∃ d, e = Effect.sleep d := by
  intro responses
  induction responses with
  | nil => intro backOff e he; simp [retryLoop] at he
  | cons r rest ih =>
    intro backOff e he
    unfold retryLoop at he
    split at he
    · simp only [List.mem_cons] at he
      rcases he with h | h | h
      · exact Or.inl h
      · exact Or.inr ⟨_, h⟩
      · exact ih _ e h
    · simp only [List.mem_singleton] at he
      exact Or.inl he

/-- C15: for every height, timestamp and message family, when the event
serializes, `publish` starts with a `publishWithRetry` of the message built
by `prepareMessage`: its key is decimal(height) + "_" + decimal(timestamp)
+ "_" + the family name given by `msgType.String` ("Accounts", "Books",
"ExecutionResults", "BlockFee"), its value is the serialized payload, its
topic is the resolved topic and its partition is -1; every message that
call sends is this one, on the resolved topic. -/
theorem publish_message_built (Cfg : PublicationConfig) (publisher : KafkaMarketDataPublisher)
    (avroMessage : Message) (tpe : msgType) (height timestamp : Int)
    (responses : List SendResponse) (payload : List Nat)
    (hm : publisher.marshal avroMessage.msg tpe = Except.ok payload) :
    KafkaMarketDataPublisher.prepareMessage (KafkaMarketDataPublisher.resolveTopic Cfg tpe)
        (toString height) timestamp tpe payload
      = { Topic := KafkaMarketDataPublisher.resolveTopic Cfg tpe,
          Partition := -1,
          Key := toString height ++ "_" ++ toString timestamp ++ "_" ++ msgType.String tpe,
          Value := payload } ∧
    (∃ tail, (KafkaMarketDataPublisher.publish Cfg publisher avroMessage tpe height timestamp
        responses).effects
      = (publisher.publishWithRetry
          { Topic := KafkaMarketDataPublisher.resolveTopic Cfg tpe,
            Partition := -1,
            Key := toString height ++ "_" ++ toString timestamp ++ "_" ++ msgType.String tpe,
            Value := payload }
          (KafkaMarketDataPublisher.resolveTopic Cfg tpe) responses).effects ++ tail) ∧
    (∀ e ∈ (publisher.publishWithRetry
          { Topic := KafkaMarketDataPublisher.resolveTopic Cfg tpe,
            Partition := -1,
            Key := toString height ++ "_" ++ toString timestamp ++ "_" ++ msgType.String tpe,
            Value := payload }
          (KafkaMarketDataPublisher.resolveTopic Cfg tpe) responses).effects,
      e = Effect.send (KafkaMarketDataPublisher.resolveTopic Cfg tpe)
          { Topic := KafkaMarketDataPublisher.resolveTopic Cfg tpe,
            Partition := -1,
            Key := toString height ++ "_" ++ toString timestamp ++ "_" ++ msgType.String tpe,
            Value := payload } ∨ ∃ d, e = Effect.sleep d) ∧
    (msgType.String accountsTpe = "Accounts" ∧ msgType.String booksTpe = "Books" ∧
      msgType.String executionResultTpe = "ExecutionResults" ∧
      msgType.String blockFeeTpe = "BlockFee") := by
  refine ⟨rfl, ?_, ?_, ⟨by decide, by decide, by decide, by decide⟩⟩
  · unfold KafkaMarketDataPublisher.publish
    dsimp only
    rw [hm]
    dsimp only [KafkaMarketDataPublisher.prepareMessage]
    split
    · exact ⟨[], by simp⟩
    · split
      · exact ⟨_, rfl⟩
      · exact ⟨[], by simp⟩
    · exact ⟨[], by simp⟩
    · exact ⟨[], by simp⟩
  · intro e he
    unfold KafkaMarketDataPublisher.publishWithRetry at he
    split at he
    · exact sends_retryLoop _ _ _ _ e he
    · cases he

theorem publish_message_built_witness :
    KafkaMarketDataPublisher.prepareMessage
        (KafkaMarketDataPublisher.resolveTopic Example.cfg executionResultTpe)
        (toString (100 : Int)) 1540000000000 executionResultTpe [3]
      = { Topic := KafkaMarketDataPublisher.resolveTopic Example.cfg executionResultTpe,
          Partition := -1,
          Key := toString (100 : Int) ++ "_" ++ toString (1540000000000 : Int) ++ "_"
            ++ msgType.String executionResultTpe,
          Value := [3] } ∧
    (∃ tail, (KafkaMarketDataPublisher.publish Example.cfg Example.publisher Example.execEvent
        executionResultTpe 100 1540000000000 [Example.delivered]).effects
      = (Example.publisher.publishWithRetry
          { Topic := KafkaMarketDataPublisher.resolveTopic Example.cfg executionResultTpe,
            Partition := -1,
            Key := toString (100 : Int) ++ "_" ++ toString (1540000000000 : Int) ++ "_"
              ++ msgType.String executionResultTpe,
            Value := [3] }
          (KafkaMarketDataPublisher.resolveTopic Example.cfg executionResultTpe)
          [Example.delivered]).effects ++ tail) ∧
    (∀ e ∈ (Example.publisher.publishWithRetry
          { Topic := KafkaMarketDataPublisher.resolveTopic Example.cfg executionResultTpe,
            Partition := -1,
            Key := toString (100 : Int) ++ "_" ++ toString (1540000000000 : Int) ++ "_"
              ++ msgType.String executionResultTpe,
            Value := [3] }
          (KafkaMarketDataPublisher.resolveTopic Example.cfg executionResultTpe)
          [Example.delivered]).effects,
      e = Effect.send (KafkaMarketDataPublisher.resolveTopic Example.cfg executionResultTpe)
          { Topic := KafkaMarketDataPublisher.resolveTopic Example.cfg executionResultTpe,
            Partition := -1,
            Key := toString (100 : Int) ++ "_" ++ toString (1540000000000 : Int) ++ "_"
              ++ msgType.String executionResultTpe,
            Value := [3] } ∨ ∃ d, e = Effect.sleep d) ∧
    (msgType.String accountsTpe = "Accounts" ∧ msgType.String booksTpe = "Books" ∧
      msgType.String executionResultTpe = "ExecutionResults" ∧
      msgType.String blockFeeTpe = "BlockFee") :=
  publish_message_built Example.cfg Example.publisher Example.execEvent executionResultTpe
    100 1540000000000 [Example.delivered] [3] rfl

/-- C16 (as stated, refuted): publishing the order-book event (it is not an
`EssMsg`) at height 100 when the broker answers with a non-retriable error
writes no essential-log file. -/
theorem publish_plain_event_writes_no_file :
    (KafkaMarketDataPublisher.publish Example.cfg Example.publisher Example.booksEvent booksTpe
        100 1540000000000 [Example.tooLarge]).outcome = PublishOutcome.returned ∧
    sendsOf (KafkaMarketDataPublisher.publish Example.cfg Example.publisher Example.booksEvent
        booksTpe 100 1540000000000 [Example.tooLarge]).effects
      = [{ Topic := "books", Partition := -1, Key := "100_1540000000000_Books", Value := [1] }] ∧
    writesOf (KafkaMarketDataPublisher.publish Example.cfg Example.publisher Example.booksEvent
        booksTpe 100 1540000000000 [Example.tooLarge]).effects = [] := by
  decide

/-- C16 (amended): whenever `publish` returns after its delivery of an
event for height H and family F has failed (`publishWithRetry` returned an
error), and the event is an `EssMsg` whose essential payload is not empty,
exactly one essential-log file is written, at path essentialLogPath + "/" +
decimal(H) + "_" + name(F) + ".log", with the essential payload as content;
when the event is not an `EssMsg` or its essential payload is empty, no
file is written. -/
theorem publish_essential_log (Cfg : PublicationConfig) (publisher : KafkaMarketDataPublisher)
    (avroMessage : Message) (tpe : msgType) (height timestamp : Int)
    (responses : List SendResponse) (payload : List Nat) (partition offset : Int)
    (e : SendError)
    (hm : publisher.marshal avroMessage.msg tpe = Except.ok payload)
    (hfirst : (publisher.publishWithRetry
        (KafkaMarketDataPublisher.prepareMessage (KafkaMarketDataPublisher.resolveTopic Cfg tpe)
          (toString height) timestamp tpe payload)
        (KafkaMarketDataPublisher.resolveTopic Cfg tpe) responses).outcome
      = RetryOutcome.returned partition offset (some e))
    (hret : (KafkaMarketDataPublisher.publish Cfg publisher avroMessage tpe height timestamp
        responses).outcome = PublishOutcome.returned) :
    writesOf (KafkaMarketDataPublisher.publish Cfg publisher avroMessage tpe height timestamp
        responses).effects
      = match avroMessage.essMsg with
        | some essMsg =>
          if essMsg.EssentialMsg.utf8ByteSize ≠ 0 then
            [(publisher.essentialLogPath ++ "/" ++ toString height ++ "_"
                ++ msgType.String tpe ++ ".log", essMsg.EssentialMsg)]
          else []
        | none => [] := by
  unfold KafkaMarketDataPublisher.publish at hret ⊢
  dsimp only at hret ⊢
  rw [hm] at hret ⊢
  dsimp only at hret ⊢
  rw [hfirst] at hret ⊢
  dsimp only at hret ⊢
  cases hess : avroMessage.essMsg with
  | none =>
    dsimp only
    exact writesOf_publishWithRetry _ _ _ _
  | some essMsg =>
    rw [hess] at hret
    dsimp only at hret ⊢
    rw [writesOf_append, writesOf_publishWithRetry, List.nil_append]
    unfold KafkaMarketDataPublisher.publishEssentialMsg at hret ⊢
    dsimp only at hret ⊢
    have hempty : writesOf (publisher.publishEmptyCopy essMsg
        (KafkaMarketDataPublisher.resolveTopic Cfg tpe) tpe height timestamp
        (publisher.publishWithRetry
          (KafkaMarketDataPublisher.prepareMessage (KafkaMarketDataPublisher.resolveTopic Cfg tpe)
            (toString height) timestamp tpe payload)
          (KafkaMarketDataPublisher.resolveTopic Cfg tpe) responses).unused).effects = [] := by
      unfold KafkaMarketDataPublisher.publishEmptyCopy
      split
      · dsimp only
        split <;> exact writesOf_publishWithRetry _ _ _ _
      · rfl
    split at hret
    · split
      · dsimp only
        rw [writesOf_append, hempty]
        rfl
      · exact hempty
    · rename_i hout
      exact absurd hret hout

theorem publish_essential_log_witness :
    writesOf (KafkaMarketDataPublisher.publish Example.cfg Example.publisher Example.execEvent
        executionResultTpe 100 1540000000000 [Example.tooLarge, Example.delivered]).effects
      = match Example.execEvent.essMsg with
        | some essMsg =>
          if essMsg.EssentialMsg.utf8ByteSize ≠ 0 then
            [(Example.publisher.essentialLogPath ++ "/" ++ toString (100 : Int) ++ "_"
                ++ msgType.String executionResultTpe ++ ".log", essMsg.EssentialMsg)]
          else []
        | none => [] :=
  publish_essential_log Example.cfg Example.publisher Example.execEvent executionResultTpe
    100 1540000000000 [Example.tooLarge, Example.delivered] [3] (-1) (-1)
    (SendError.other "message too large") rfl (by decide) (by decide)

/-- The effects of publishing the empty copy, when it serializes: those of
one `publishWithRetry` call with the message built from its payload. -/
theorem publishEmptyCopy_effects (publisher : KafkaMarketDataPublisher) (essMsg : EssMsg)
    (topic : String) (tpe : msgType) (height timestamp : Int) (responses : List SendResponse)
    (emptyPayload : List Nat)
    (hcopy : publisher.marshal essMsg.EmptyCopy tpe = Except.ok emptyPayload) :
    (publisher.publishEmptyCopy essMsg topic tpe height timestamp responses).effects
      = (publisher.publishWithRetry
          (KafkaMarketDataPublisher.prepareMessage topic (toString height) timestamp tpe
            emptyPayload) topic responses).effects := by
  unfold KafkaMarketDataPublisher.publishEmptyCopy
  rw [hcopy]
  dsimp only
  split <;> rfl

/-- The effects of `publishEssentialMsg`: those of publishing the empty
copy, followed by at most the file write. -/
theorem publishEssentialMsg_effects (publisher : KafkaMarketDataPublisher) (essMsg : EssMsg)
    (topic : String) (tpe : msgType) (height timestamp : Int) (responses : List SendResponse) :
    ∃ tail, (publisher.publishEssentialMsg essMsg topic tpe height timestamp responses).effects
        = (publisher.publishEmptyCopy essMsg topic tpe height timestamp responses).effects
          ++ tail ∧ sendsOf tail = [] := by
  unfold KafkaMarketDataPublisher.publishEssentialMsg
  dsimp only
  split
  · split
    · exact ⟨[Effect.writeFile _ _], rfl, rfl⟩
    · exact ⟨[], by simp, rfl⟩
  · exact ⟨[], by simp, rfl⟩

/-- C17 (as stated, refuted): publishing an event whose empty copy does not
serialize, when the broker answers with a non-retriable error, makes no
placeholder delivery attempt: the only message sent is the failed one, and
the next broker response is left unused. -/
theorem publish_unserializable_copy_no_placeholder :
    sendsOf (KafkaMarketDataPublisher.publish Example.cfg Example.publisher
        Example.brokenCopyEvent executionResultTpe 100 1540000000000
        [Example.tooLarge, Example.delivered]).effects = [Example.execKafkaMsg] ∧
    (KafkaMarketDataPublisher.publish Example.cfg Example.publisher
        Example.brokenCopyEvent executionResultTpe 100 1540000000000
        [Example.tooLarge, Example.delivered]).unused = [Example.delivered] ∧
    (KafkaMarketDataPublisher.publish Example.cfg Example.publisher
        Example.brokenCopyEvent executionResultTpe 100 1540000000000
        [Example.tooLarge, Example.delivered]).outcome = PublishOutcome.returned := by
  decide

/-- C17 (amended): whenever the delivery of an event by `publish` has failed
(`publishWithRetry` returned an error) and the event is an `EssMsg` whose
empty copy serializes, `publish` goes on with exactly one placeholder
delivery attempt: one `publishWithRetry` call whose payload is the
serialization of the empty copy, on the same topic and with the same
delivery key as the failed message; nothing is sent after it. -/
theorem publish_placeholder_attempt (Cfg : PublicationConfig)
    (publisher : KafkaMarketDataPublisher) (avroMessage : Message) (tpe : msgType)
    (height timestamp : Int) (responses : List SendResponse) (payload emptyPayload : List Nat)
    (partition offset : Int) (e : SendError) (essMsg : EssMsg)
    (hm : publisher.marshal avroMessage.msg tpe = Except.ok payload)
    (hfirst : (publisher.publishWithRetry
        (KafkaMarketDataPublisher.prepareMessage (KafkaMarketDataPublisher.resolveTopic Cfg tpe)
          (toString height) timestamp tpe payload)
        (KafkaMarketDataPublisher.resolveTopic Cfg tpe) responses).outcome
      = RetryOutcome.returned partition offset (some e))
    (hess : avroMessage.essMsg = some essMsg)
    (hcopy : publisher.marshal essMsg.EmptyCopy tpe = Except.ok emptyPayload) :
    (∃ tail, (KafkaMarketDataPublisher.publish Cfg publisher avroMessage tpe height timestamp
          responses).effects
        = (publisher.publishWithRetry
            (KafkaMarketDataPublisher.prepareMessage (KafkaMarketDataPublisher.resolveTopic Cfg tpe)
              (toString height) timestamp tpe payload)
            (KafkaMarketDataPublisher.resolveTopic Cfg tpe) responses).effects
          ++ (publisher.publishWithRetry
            (KafkaMarketDataPublisher.prepareMessage (KafkaMarketDataPublisher.resolveTopic Cfg tpe)
              (toString height) timestamp tpe emptyPayload)
            (KafkaMarketDataPublisher.resolveTopic Cfg tpe)
            (publisher.publishWithRetry
              (KafkaMarketDataPublisher.prepareMessage
                (KafkaMarketDataPublisher.resolveTopic Cfg tpe) (toString height) timestamp tpe
                payload)
              (KafkaMarketDataPublisher.resolveTopic Cfg tpe) responses).unused).effects
          ++ tail ∧ sendsOf tail = []) ∧
    (KafkaMarketDataPublisher.prepareMessage (KafkaMarketDataPublisher.resolveTopic Cfg tpe)
        (toString height) timestamp tpe emptyPayload).Value = emptyPayload ∧
    (KafkaMarketDataPublisher.prepareMessage (KafkaMarketDataPublisher.resolveTopic Cfg tpe)
        (toString height) timestamp tpe emptyPayload).Topic
      = (KafkaMarketDataPublisher.prepareMessage (KafkaMarketDataPublisher.resolveTopic Cfg tpe)
        (toString height) timestamp tpe payload).Topic ∧
    (KafkaMarketDataPublisher.prepareMessage (KafkaMarketDataPublisher.resolveTopic Cfg tpe)
        (toString height) timestamp tpe emptyPayload).Key
      = (KafkaMarketDataPublisher.prepareMessage (KafkaMarketDataPublisher.resolveTopic Cfg tpe)
        (toString height) timestamp tpe payload).Key := by
  refine ⟨?_, rfl, rfl, rfl⟩
  obtain ⟨tail, htail, hsends⟩ := publishEssentialMsg_effects publisher essMsg
    (KafkaMarketDataPublisher.resolveTopic Cfg tpe) tpe height timestamp
    (publisher.publishWithRetry
      (KafkaMarketDataPublisher.prepareMessage (KafkaMarketDataPublisher.resolveTopic Cfg tpe)
        (toString height) timestamp tpe payload)
      (KafkaMarketDataPublisher.resolveTopic Cfg tpe) responses).unused
  rw [publishEmptyCopy_effects publisher essMsg _ tpe height timestamp _ emptyPayload hcopy]
    at htail
  refine ⟨tail, ?_, hsends⟩
  unfold KafkaMarketDataPublisher.publish
  dsimp only
  rw [hm]
  dsimp only
  rw [hfirst]
  dsimp only
  rw [hess]
  dsimp only
  rw [htail, List.append_assoc]

theorem publish_placeholder_attempt_witness :
    (∃ tail, (KafkaMarketDataPublisher.publish Example.cfg Example.publisher Example.execEvent
          executionResultTpe 100 1540000000000
          [Example.tooLarge, Example.outOfBrokers, Example.delivered]).effects
        = (Example.publisher.publishWithRetry
            (KafkaMarketDataPublisher.prepareMessage
              (KafkaMarketDataPublisher.resolveTopic Example.cfg executionResultTpe)
              (toString (100 : Int)) 1540000000000 executionResultTpe [3])
            (KafkaMarketDataPublisher.resolveTopic Example.cfg executionResultTpe)
            [Example.tooLarge, Example.outOfBrokers, Example.delivered]).effects
          ++ (Example.publisher.publishWithRetry
            (KafkaMarketDataPublisher.prepareMessage
              (KafkaMarketDataPublisher.resolveTopic Example.cfg executionResultTpe)
              (toString (100 : Int)) 1540000000000 executionResultTpe [2])
            (KafkaMarketDataPublisher.resolveTopic Example.cfg executionResultTpe)
            (Example.publisher.publishWithRetry
              (KafkaMarketDataPublisher.prepareMessage
                (KafkaMarketDataPublisher.resolveTopic Example.cfg executionResultTpe)
                (toString (100 : Int)) 1540000000000 executionResultTpe [3])
              (KafkaMarketDataPublisher.resolveTopic Example.cfg executionResultTpe)
              [Example.tooLarge, Example.outOfBrokers, Example.delivered]).unused).effects
          ++ tail ∧ sendsOf tail = []) ∧
    (KafkaMarketDataPublisher.prepareMessage
        (KafkaMarketDataPublisher.resolveTopic Example.cfg executionResultTpe)
        (toString (100 : Int)) 1540000000000 executionResultTpe [2]).Value = [2] ∧
    (KafkaMarketDataPublisher.prepareMessage
        (KafkaMarketDataPublisher.resolveTopic Example.cfg executionResultTpe)
        (toString (100 : Int)) 1540000000000 executionResultTpe [2]).Topic
      = (KafkaMarketDataPublisher.prepareMessage
        (KafkaMarketDataPublisher.resolveTopic Example.cfg executionResultTpe)
        (toString (100 : Int)) 1540000000000 executionResultTpe [3]).Topic ∧
    (KafkaMarketDataPublisher.prepareMessage
        (KafkaMarketDataPublisher.resolveTopic Example.cfg executionResultTpe)
        (toString (100 : Int)) 1540000000000 executionResultTpe [2]).Key
      = (KafkaMarketDataPublisher.prepareMessage
        (KafkaMarketDataPublisher.resolveTopic Example.cfg executionResultTpe)
        (toString (100 : Int)) 1540000000000 executionResultTpe [3]).Key :=
  publish_placeholder_attempt Example.cfg Example.publisher Example.execEvent executionResultTpe
    100 1540000000000 [Example.tooLarge, Example.outOfBrokers, Example.delivered] [3] [2]
    (-1) (-1) (SendError.other "message too large")
    { EssentialMsg := "height:100",
      EmptyCopy := { ToNativeMap := Native.map
                       [("height", Native.long 100), ("numOfMsgs", Native.int 0)],
                     Text := "ExecutionResult at height: 100, numOfMsgs: 0" } }
    rfl (by decide) rfl rfl

/-- `marshal` fails for every message family outside the five it has a
codec for. -/
theorem marshal_unsupported (publisher : KafkaMarketDataPublisher) (msg : AvroOrJsonMsg)
    (tpe : msgType)
    (h : tpe ≠ accountsTpe ∧ tpe ≠ booksTpe ∧ tpe ≠ executionResultTpe ∧ tpe ≠ blockFeeTpe ∧
      tpe ≠ transferType) :
    publisher.marshal msg tpe
      = Except.error ("doesn't support marshal kafka msg tpe: " ++ msgType.String tpe) := by
  obtain ⟨h1, h2, h3, h4, h5⟩ := h
  unfold KafkaMarketDataPublisher.marshal
  dsimp only
  rw [if_neg h1, if_neg h2, if_neg h3, if_neg h4, if_neg h5]

/-- C18: for every event whose serialization fails, and so for every message
family `marshal` has no codec for, `publish` returns without any effect: no
send to the broker (hence no placeholder message), no wait, no
essential-log file, and no broker response consumed. -/
theorem publish_marshal_failure (Cfg : PublicationConfig) (publisher : KafkaMarketDataPublisher)
    (avroMessage : Message) (tpe : msgType) (height timestamp : Int)
    (responses : List SendResponse)
    (h : (∃ err, publisher.marshal avroMessage.msg tpe = Except.error err) ∨
      (tpe ≠ accountsTpe ∧ tpe ≠ booksTpe ∧ tpe ≠ executionResultTpe ∧ tpe ≠ blockFeeTpe ∧
        tpe ≠ transferType)) :
    KafkaMarketDataPublisher.publish Cfg publisher avroMessage tpe height timestamp responses
      = { effects := [], outcome := PublishOutcome.returned, unused := responses } := by
  have herr : ∃ err, publisher.marshal avroMessage.msg tpe = Except.error err := by
    rcases h with h | h
    · exact h
    · exact ⟨_, marshal_unsupported publisher avroMessage.msg tpe h⟩
  obtain ⟨err, herr⟩ := herr
  unfold KafkaMarketDataPublisher.publish
  dsimp only
  rw [herr]

theorem publish_marshal_failure_witness :
    KafkaMarketDataPublisher.publish Example.cfg Example.publisher Example.execEvent 9 100
        1540000000000 [Example.delivered]
      = { effects := [], outcome := PublishOutcome.returned, unused := [Example.delivered] } :=
  publish_marshal_failure Example.cfg Example.publisher Example.execEvent 9 100 1540000000000
    [Example.delivered] (Or.inr (by decide))

/-- C19 (as stated, refuted): the order whose status code 6 lies outside the
enumeration is encoded by `Order.toNativeMap` into a record whose "status"
field is the string of that status, and `Orders.ToNativeMap` over the list
holding this order produces that record. -/
theorem toNativeMap_encodes_unrecognized_status :
    Native.lookup "status" (Example.strangeOrder.toNativeMap Example.orderPkg)
      = some (Native.str (Example.orderPkg.ChangeTypeString (ChangeType.unrecognized 6))) ∧
    Native.lookup "orders"
        (Orders.ToNativeMap Example.orderPkg { NumOfMsgs := 1, Orders := [Example.strangeOrder] })
      = some (Native.array [Native.map (Example.strangeOrder.toNativeMap Example.orderPkg)]) :=
  ⟨rfl, rfl⟩

/-- C19 (amended): for every Order, whatever its Status (inside or outside
the fixed enumeration), `Order.toNativeMap` produces a record whose "status"
field is the string of the status (`Status.String()`), and
`Orders.ToNativeMap` produces one such record for every order of the list,
in order: an order with an unrecognized status is encoded like any
other. -/
theorem toNativeMap_encodes_every_order (orderPkg : OrderPkg) (msg : Order)
    (orders : Orders) :
    Native.lookup "status" (msg.toNativeMap orderPkg)
      = some (Native.str (orderPkg.ChangeTypeString msg.Status)) ∧
    Native.lookup "orders" (Orders.ToNativeMap orderPkg orders)
      = some (Native.array
          (orders.Orders.map (fun o => Native.map (o.toNativeMap orderPkg)))) ∧
    Native.lookup "numOfMsgs" (Orders.ToNativeMap orderPkg orders)
      = some (Native.int orders.NumOfMsgs) :=
  ⟨rfl, rfl, rfl⟩

/-- One block of `newProducers` adds at most the topic of its family, and
only when the family is enabled. -/
theorem connectFamily_producers {connect : String → Option String} {enabled : Bool}
    {topic kafka : String} {publisher publisher' : KafkaMarketDataPublisher}
    (h : publisher.connectFamily connect enabled topic kafka = Except.ok publisher') :
    ∀ t ∈ publisher'.producers, t ∈ publisher.producers ∨ (enabled = true ∧ t = topic) := by
  unfold KafkaMarketDataPublisher.connectFamily at h
  intro t ht
  split at h
  · rename_i hen
    split at h
    · cases h; exact Or.inl ht
    · split at h
      · cases h
        rcases List.mem_append.1 ht with h1 | h1
        · exact Or.inl h1
        · exact Or.inr ⟨hen, by simpa using h1⟩
      · cases h
  · cases h; exact Or.inl ht

/-- After `newProducers`, a topic that has a producer had one before or is
the topic of an enabled family. -/
theorem newProducers_producers {Cfg : PublicationConfig} {connect : String → Option String}
    {publisher publisher' : KafkaMarketDataPublisher}
    (h : publisher.newProducers Cfg connect = Except.ok publisher') :
    ∀ t ∈ publisher'.producers, t ∈ publisher.producers ∨ t ∈ Cfg.enabledTopics := by
  unfold KafkaMarketDataPublisher.newProducers at h
  split at h
  · cases h
  · rename_i p1 h1
    split at h
    · cases h
    · rename_i p2 h2
      split at h
      · cases h
      · rename_i p3 h3
        split at h
        · cases h
        · rename_i p4 h4
          intro t ht
          unfold PublicationConfig.enabledTopics
          rcases connectFamily_producers h t ht with ht4 | ⟨he, rfl⟩
          · rcases connectFamily_producers h4 t ht4 with ht3 | ⟨he, rfl⟩
            · rcases connectFamily_producers h3 t ht3 with ht2 | ⟨he, rfl⟩
              · rcases connectFamily_producers h2 t ht2 with ht1 | ⟨he, rfl⟩
                · rcases connectFamily_producers h1 t ht1 with ht0 | ⟨he, rfl⟩
                  · exact Or.inl ht0
                  · right; simp [he]
                · right; simp [he]
              · right; simp [he]
            · right; simp [he]
          · right; simp [he]

/-- C23 (as stated, refuted): with the order-book family disabled,
`publish` of an order-book event that serializes does not complete
normally, the send finding no producer for the topic; and when the
disabled family shares its topic with an enabled one, the event is sent to
that topic's producer. -/
theorem publish_disabled_family_not_noop :
    (Example.noBooksCfg.publishes booksTpe = false ∧
      Example.freshPublisher.newProducers Example.noBooksCfg Example.connect =
        Except.ok { Example.publisher with
          producers := ["orders", "accounts", "blockfee", "transfers"] } ∧
      (KafkaMarketDataPublisher.publish Example.noBooksCfg
        { Example.publisher with producers := ["orders", "accounts", "blockfee", "transfers"] }
        Example.booksEvent booksTpe 100 1540000000000 [Example.delivered]).outcome
        = PublishOutcome.panicked) ∧
    (Example.sharedTopicCfg.publishes booksTpe = false ∧
      Example.freshPublisher.newProducers Example.sharedTopicCfg Example.connect =
        Except.ok { Example.publisher with
          producers := ["orders", "accounts", "blockfee", "transfers"] } ∧
      sendsOf (KafkaMarketDataPublisher.publish Example.sharedTopicCfg
        { Example.publisher with producers := ["orders", "accounts", "blockfee", "transfers"] }
        Example.booksEvent booksTpe 100 1540000000000 [Example.delivered]).effects
        = [{ Topic := "orders", Partition := -1, Key := "100_1540000000000_Books",
             Value := [1] }]) := by
  refine ⟨⟨by decide, rfl, by decide⟩, ⟨by decide, rfl, by decide⟩⟩

/-- The topic of a disabled family that shares its topic with no enabled
family is not among the topics of the enabled families. -/
theorem resolveTopic_not_enabled {Cfg : PublicationConfig} {tpe : msgType}
    (hdisabled : Cfg.publishes tpe = false)
    (hown : ∀ other : msgType, other ≠ tpe → Cfg.publishes other = true →
      KafkaMarketDataPublisher.resolveTopic Cfg other
        ≠ KafkaMarketDataPublisher.resolveTopic Cfg tpe) :
    KafkaMarketDataPublisher.resolveTopic Cfg tpe ∉ Cfg.enabledTopics := by
  have aux : ∀ other : msgType, Cfg.publishes other = true →
      KafkaMarketDataPublisher.resolveTopic Cfg other
        ≠ KafkaMarketDataPublisher.resolveTopic Cfg tpe := by
    intro other hpub
    by_cases hEq : other = tpe
    · subst hEq
      rw [hpub] at hdisabled
      cases hdisabled
    · exact hown other hEq hpub
  intro hmem
  unfold PublicationConfig.enabledTopics at hmem
  simp only [List.mem_append] at hmem
  rcases hmem with (((h | h) | h) | h) | h
  · split at h
    · rename_i hflag
      have := aux executionResultTpe (by
        simp [PublicationConfig.publishes, executionResultTpe, booksTpe, accountsTpe, hflag])
      apply this
      simp only [List.mem_singleton] at h
      rw [h]
      simp [KafkaMarketDataPublisher.resolveTopic, executionResultTpe, booksTpe, accountsTpe]
    · cases h
  · split at h
    · rename_i hflag
      have := aux booksTpe (by simp [PublicationConfig.publishes, hflag])
      apply this
      simp only [List.mem_singleton] at h
      rw [h]
      simp [KafkaMarketDataPublisher.resolveTopic]
    · cases h
  · split at h
    · rename_i hflag
      have := aux accountsTpe (by
        simp [PublicationConfig.publishes, booksTpe, accountsTpe, hflag])
      apply this
      simp only [List.mem_singleton] at h
      rw [h]
      simp [KafkaMarketDataPublisher.resolveTopic, booksTpe, accountsTpe]
    · cases h
  · split at h
    · rename_i hflag
      have := aux blockFeeTpe (by
        simp [PublicationConfig.publishes, executionResultTpe, booksTpe, accountsTpe,
          blockFeeTpe, hflag])
      apply this
      simp only [List.mem_singleton] at h
      rw [h]
      simp [KafkaMarketDataPublisher.resolveTopic, executionResultTpe, booksTpe, accountsTpe,
        blockFeeTpe]
    · cases h
  · split at h
    · rename_i hflag
      have := aux transferType (by
        simp [PublicationConfig.publishes, executionResultTpe, booksTpe, accountsTpe,
          blockFeeTpe, transferType, hflag])
      apply this
      simp only [List.mem_singleton] at h
      rw [h]
      simp [KafkaMarketDataPublisher.resolveTopic, executionResultTpe, booksTpe, accountsTpe,
        blockFeeTpe, transferType]
    · cases h

/-- C23 (amended): for every message family whose publication is disabled
in the configuration and whose topic is not the topic of an enabled family,
on a publisher whose producers were created by `newProducers` from an empty
map, `publish` makes no send to any producer and writes no essential-log
file. -/
theorem publish_disabled_family (Cfg : PublicationConfig) (connect : String → Option String)
    (fresh publisher : KafkaMarketDataPublisher) (avroMessage : Message) (tpe : msgType)
    (height timestamp : Int) (responses : List SendResponse)
    (hfresh : fresh.producers = [])
    (hnew : fresh.newProducers Cfg connect = Except.ok publisher)
    (hdisabled : Cfg.publishes tpe = false)
    (hown : ∀ other : msgType, other ≠ tpe → Cfg.publishes other = true →
      KafkaMarketDataPublisher.resolveTopic Cfg other
        ≠ KafkaMarketDataPublisher.resolveTopic Cfg tpe) :
    sendsOf (KafkaMarketDataPublisher.publish Cfg publisher avroMessage tpe height timestamp
      responses).effects = [] ∧
    writesOf (KafkaMarketDataPublisher.publish Cfg publisher avroMessage tpe height timestamp
      responses).effects = [] := by
  have htopic := resolveTopic_not_enabled hdisabled hown
  have hno : KafkaMarketDataPublisher.resolveTopic Cfg tpe ∉ publisher.producers := by
    intro hmem
    rcases newProducers_producers hnew _ hmem with h | h
    · rw [hfresh] at h; cases h
    · exact htopic h
  have heff : (KafkaMarketDataPublisher.publish Cfg publisher avroMessage tpe height timestamp
      responses).effects = [] := by
    unfold KafkaMarketDataPublisher.publish
    dsimp only
    split
    · unfold KafkaMarketDataPublisher.publishWithRetry
      rw [if_neg hno]
    · rfl
  rw [heff]
  exact ⟨rfl, rfl⟩

theorem publish_disabled_family_witness :
    sendsOf (KafkaMarketDataPublisher.publish Example.noBooksCfg
      { Example.publisher with producers := ["orders", "accounts", "blockfee", "transfers"] }
      Example.booksEvent booksTpe 100 1540000000000 [Example.delivered]).effects = [] ∧
    writesOf (KafkaMarketDataPublisher.publish Example.noBooksCfg
      { Example.publisher with producers := ["orders", "accounts", "blockfee", "transfers"] }
      Example.booksEvent booksTpe 100 1540000000000 [Example.delivered]).effects = [] :=
  publish_disabled_family Example.noBooksCfg Example.connect Example.freshPublisher
    { Example.publisher with producers := ["orders", "accounts", "blockfee", "transfers"] }
    Example.booksEvent booksTpe 100 1540000000000 [Example.delivered] rfl rfl (by decide)
    (by
      intro other hne hpub
      have hrhs : KafkaMarketDataPublisher.resolveTopic Example.noBooksCfg booksTpe = "books" := by
        decide
      rw [hrhs]
      unfold PublicationConfig.publishes at hpub
      unfold KafkaMarketDataPublisher.resolveTopic
      split_ifs at hpub ⊢ with h1
      · exact absurd h1 hne
      all_goals decide)

/-- The retry loop over n retriable responses followed by one that is not:
n + 1 sends of the message, and that response returned. -/
theorem retryLoop_until_response (message : ProducerMessage) (topic : String)
    (r : SendResponse) (rest : List SendResponse) (hr : r.retriable = false) :
    ∀ (errs : List SendResponse) (backOff : Int), (∀ x ∈ errs, x.retriable = true) →
      sendsOf (retryLoop message topic backOff (errs ++ r :: rest)).effects
          = List.replicate (errs.length + 1) message ∧
        (retryLoop message topic backOff (errs ++ r :: rest)).outcome
          = RetryOutcome.returned r.partition r.offset r.err ∧
        (retryLoop message topic backOff (errs ++ r :: rest)).unused = rest := by
  intro errs
  induction errs with
  | nil =>
    intro backOff _
    unfold retryLoop
    rw [List.nil_append]
    dsimp only
    rw [if_neg (by simp [hr])]
    exact ⟨rfl, rfl, rfl⟩
  | cons x errs ih =>
    intro backOff hx
    have hxr : x.retriable = true := hx x (List.mem_cons_self _ _)
    obtain ⟨h1, h2, h3⟩ := ih (GoInt64.shiftLeft1 backOff)
      (fun y hy => hx y (List.mem_cons_of_mem _ hy))
    simp only [List.cons_append, retryLoop, hxr, if_true, sendsOf, List.length_cons]
    refine ⟨?_, h2, h3⟩
    rw [List.replicate_succ]
    congr 1

/-- Whatever the broker answers, the response the retry loop returns is not
a retriable error. -/
theorem retryLoop_returns_not_retriable (message : ProducerMessage) (topic : String) :
    ∀ (responses : List SendResponse) (backOff : Int) (partition offset : Int)
      (err : Option SendError),
      (retryLoop message topic backOff responses).outcome
        = RetryOutcome.returned partition offset err →
      err ≠ some SendError.ErrOutOfBrokers ∧ err ≠ some SendError.ErrBreakerOpen := by
  intro responses
  induction responses with
  | nil => intro backOff partition offset err h; cases h
  | cons r rest ih =>
    intro backOff partition offset err h
    unfold retryLoop at h
    split at h
    · exact ih _ partition offset err h
    · rename_i hr
      simp only [RetryOutcome.returned.injEq] at h
      obtain ⟨_, _, rfl⟩ := h
      simp only [SendResponse.retriable, Bool.or_eq_true, decide_eq_true_eq, not_or] at hr
      exact hr

/-- C26: on a topic that has a producer, when the broker answers n ≥ 0
retriable errors (ErrOutOfBrokers or ErrBreakerOpen) and then a response r
that is not retriable, `publishWithRetry` makes exactly n + 1 sends, each of
the message it was given, and returns r (its partition, offset and error),
leaving the later responses unconsumed; and whatever the broker answers, a
response it returns never carries a retriable error. -/
theorem publishWithRetry_sends_until_response (publisher : KafkaMarketDataPublisher)
    (message : ProducerMessage) (topic : String) (errs rest : List SendResponse)
    (r : SendResponse) (htopic : topic ∈ publisher.producers)
    (herrs : ∀ x ∈ errs, x.retriable = true) (hr : r.retriable = false) :
    sendsOf (publisher.publishWithRetry message topic (errs ++ r :: rest)).effects
        = List.replicate (errs.length + 1) message ∧
    (publisher.publishWithRetry message topic (errs ++ r :: rest)).outcome
        = RetryOutcome.returned r.partition r.offset r.err ∧
    (publisher.publishWithRetry message topic (errs ++ r :: rest)).unused = rest ∧
    (∀ (responses : List SendResponse) (partition offset : Int) (err : Option SendError),
      (publisher.publishWithRetry message topic responses).outcome
        = RetryOutcome.returned partition offset err →
      err ≠ some SendError.ErrOutOfBrokers ∧ err ≠ some SendError.ErrBreakerOpen) := by
  unfold KafkaMarketDataPublisher.publishWithRetry
  simp only [if_pos htopic]
  obtain ⟨h1, h2, h3⟩ := retryLoop_until_response message topic r rest hr errs 1 herrs
  exact ⟨h1, h2, h3, fun responses partition offset err h =>
    retryLoop_returns_not_retriable message topic responses 1 partition offset err h⟩

theorem publishWithRetry_sends_until_response_witness :
    sendsOf (Example.publisher.publishWithRetry Example.execKafkaMsg "orders"
        ([Example.outOfBrokers, Example.breakerOpen] ++ Example.tooLarge
          :: [Example.delivered])).effects
        = List.replicate ([Example.outOfBrokers, Example.breakerOpen].length + 1)
            Example.execKafkaMsg ∧
    (Example.publisher.publishWithRetry Example.execKafkaMsg "orders"
        ([Example.outOfBrokers, Example.breakerOpen] ++ Example.tooLarge
          :: [Example.delivered])).outcome
        = RetryOutcome.returned Example.tooLarge.partition Example.tooLarge.offset
            Example.tooLarge.err ∧
    (Example.publisher.publishWithRetry Example.execKafkaMsg "orders"
        ([Example.outOfBrokers, Example.breakerOpen] ++ Example.tooLarge
          :: [Example.delivered])).unused = [Example.delivered] ∧
    (∀ (responses : List SendResponse) (partition offset : Int) (err : Option SendError),
      (Example.publisher.publishWithRetry Example.execKafkaMsg "orders" responses).outcome
        = RetryOutcome.returned partition offset err →
      err ≠ some SendError.ErrOutOfBrokers ∧ err ≠ some SendError.ErrBreakerOpen) :=
  publishWithRetry_sends_until_response Example.publisher Example.execKafkaMsg "orders"
    [Example.outOfBrokers, Example.breakerOpen] [Example.delivered] Example.tooLarge
    (by decide) (by decide) (by decide)

end pub

namespace dex

/-- Go `offset + limit` on values an `Atoi` gave, with `offset` an index
into a slice and `limit` positive: either the sum itself, or, when it
overflows, a negative number. -/
theorem add_index_limit {offset limit len : Int} (ho : GoInt64.InRange offset)
    (hl : GoInt64.InRange limit) (h0 : 0 ≤ offset) (hlt : offset < len)
    (hlen : len < 9223372036854775808) (hpos : 0 < limit) :
    GoInt64.add offset limit = offset + limit ∨ GoInt64.add offset limit < 0 := by
  unfold GoInt64.InRange at ho hl
  unfold GoInt64.add GoInt64.wrap
  omega

/-- The "pairs" query on a path with offset and limit segments is answered
by `queryPairs`. -/
theorem createAbciQueryHandler_pairs {Pair Level : Type} (env : QueryEnv Pair Level)
    (path2 path3 : String) (more : List String) :
    createAbciQueryHandler env (abciQueryPrefix :: "pairs" :: path2 :: path3 :: more)
      = queryPairs env path2 path3 := by
  simp only [createAbciQueryHandler, ne_eq, not_true_eq_false, List.length_cons, false_or,
    if_true]
  rw [if_neg (by omega), if_neg (by omega)]

/-- C30: for every list of trading pairs (of a length that fits the machine
integer, as every Go slice has) and every "pairs" query with offset and
limit segments, parsed by an `Atoi` whose results fit the machine integer,
the handler either returns an error response (a code other than OK), or
returns OK with the encoding of exactly `pairs[offset:end]`, where
`0 ≤ offset < end ≤ len(pairs)`, `end = min(offset + limit, len(pairs))`
with the sum taken in the integers, and `end - offset ≤ limit`; in that case
the slice expression is in range, and in no case does the handler panic. -/
theorem pairs_query_slice_in_range {Pair Level : Type} (env : QueryEnv Pair Level)
    (path2 path3 : String) (more : List String)
    (hatoi : ∀ s n, env.Atoi s = Except.ok n → GoInt64.InRange n)
    (hlen : (env.ListAllTradingPairs.length : Int) < 9223372036854775808) :
    (∃ res, createAbciQueryHandler env (abciQueryPrefix :: "pairs" :: path2 :: path3 :: more)
        = QueryOutcome.ret (some res) ∧ res.Code ≠ sdk.ABCICodeOK) ∨
    (∃ offset limit bz, env.Atoi path2 = Except.ok offset ∧ env.Atoi path3 = Except.ok limit ∧
      0 ≤ offset ∧ offset < min (offset + limit) (env.ListAllTradingPairs.length : Int) ∧
      min (offset + limit) (env.ListAllTradingPairs.length : Int)
        ≤ (env.ListAllTradingPairs.length : Int) ∧
      min (offset + limit) (env.ListAllTradingPairs.length : Int) - offset ≤ limit ∧
      sliceExpr env.ListAllTradingPairs offset
          (min (offset + limit) (env.ListAllTradingPairs.length : Int))
        = some ((env.ListAllTradingPairs.drop offset.toNat).take
            (min (offset + limit) (env.ListAllTradingPairs.length : Int) - offset).toNat) ∧
      env.MarshalPairs ((env.ListAllTradingPairs.drop offset.toNat).take
          (min (offset + limit) (env.ListAllTradingPairs.length : Int) - offset).toNat)
        = Except.ok bz ∧
      createAbciQueryHandler env (abciQueryPrefix :: "pairs" :: path2 :: path3 :: more)
        = QueryOutcome.ret (some { Code := sdk.ABCICodeOK, Value := bz })) := by
  rw [createAbciQueryHandler_pairs]
  unfold queryPairs
  dsimp only
  cases h2 : env.Atoi path2 with
  | error e => exact Or.inl ⟨_, rfl, by decide⟩
  | ok offset =>
    dsimp only
    split
    · exact Or.inl ⟨_, rfl, by decide⟩
    · rename_i hoff
      cases h3 : env.Atoi path3 with
      | error e => exact Or.inl ⟨_, rfl, by decide⟩
      | ok limit =>
        dsimp only
        split
        · exact Or.inl ⟨_, rfl, by decide⟩
        · rename_i hlim
          have ho := hatoi _ _ h2
          have hl := hatoi _ _ h3
          have hsub : GoInt64.sub (env.ListAllTradingPairs.length : Int) 1
              = (env.ListAllTradingPairs.length : Int) - 1 := by
            unfold GoInt64.sub GoInt64.wrap
            omega
          rw [hsub] at hoff
          have h0 : 0 ≤ offset := by omega
          have hlt : offset < (env.ListAllTradingPairs.length : Int) := by omega
          have hpos : 0 < limit := by omega
          have hend : (if GoInt64.add offset limit > (env.ListAllTradingPairs.length : Int)
              then (env.ListAllTradingPairs.length : Int) else GoInt64.add offset limit)
              = min (offset + limit) (env.ListAllTradingPairs.length : Int) ∨
              (if GoInt64.add offset limit > (env.ListAllTradingPairs.length : Int)
              then (env.ListAllTradingPairs.length : Int) else GoInt64.add offset limit) < 0 := by
            rcases add_index_limit ho hl h0 hlt hlen hpos with hsum | hneg
            · left
              rw [hsum]
              split
              · rw [min_eq_right (by omega)]
              · rw [min_eq_left (by omega)]
            · right
              rw [if_neg (by omega)]
              exact hneg
          generalize (if GoInt64.add offset limit > (env.ListAllTradingPairs.length : Int)
              then (env.ListAllTradingPairs.length : Int) else GoInt64.add offset limit) = e
            at hend ⊢
          by_cases hrange : e ≤ 0 ∨ e ≤ offset
          · rw [if_pos hrange]
            exact Or.inl ⟨_, rfl, by decide⟩
          · rw [if_neg hrange]
            rcases hend with hend | hend
            · subst hend
              have hmin1 : offset
                  < min (offset + limit) (env.ListAllTradingPairs.length : Int) := by
                omega
              have hmin2 : min (offset + limit) (env.ListAllTradingPairs.length : Int)
                  ≤ (env.ListAllTradingPairs.length : Int) := min_le_right _ _
              have hmin3 : min (offset + limit) (env.ListAllTradingPairs.length : Int) - offset
                  ≤ limit := by
                have := min_le_left (offset + limit) (env.ListAllTradingPairs.length : Int)
                omega
              have hslice : sliceExpr env.ListAllTradingPairs offset
                  (min (offset + limit) (env.ListAllTradingPairs.length : Int))
                  = some ((env.ListAllTradingPairs.drop offset.toNat).take
                    (min (offset + limit) (env.ListAllTradingPairs.length : Int)
                      - offset).toNat) := by
                unfold sliceExpr
                rw [if_pos ⟨h0, le_of_lt hmin1, hmin2⟩]
              rw [hslice]
              dsimp only
              cases hm : env.MarshalPairs ((env.ListAllTradingPairs.drop offset.toNat).take
                  (min (offset + limit) (env.ListAllTradingPairs.length : Int)
                    - offset).toNat) with
              | error err => exact Or.inl ⟨_, rfl, Nat.one_ne_zero⟩
              | ok bz =>
                exact Or.inr
                  ⟨offset, limit, bz, rfl, rfl, h0, hmin1, hmin2, hmin3, hslice, hm, rfl⟩
            · exact absurd (Or.inl (le_of_lt hend)) hrange

/-- The stand-in `Example.Atoi` gives int64 values only. -/
theorem exampleAtoi_inRange (s : String) (n : Int) (h : Example.Atoi s = Except.ok n) :
    GoInt64.InRange n := by
  unfold Example.Atoi at h
  dsimp only at h
  split at h
  · cases h
  · split at h
    · rename_i hr
      cases h
      exact hr
    · cases h

theorem pairs_query_slice_in_range_witness :
    (Example.queryEnv.ListAllTradingPairs.length : Int) < 9223372036854775808 ∧
    ((∃ res, createAbciQueryHandler Example.queryEnv
        (abciQueryPrefix :: "pairs" :: "1" :: "9223372036854775807" :: [])
        = QueryOutcome.ret (some res) ∧ res.Code ≠ sdk.ABCICodeOK) ∨
    (∃ offset limit bz, Example.queryEnv.Atoi "1" = Except.ok offset ∧
      Example.queryEnv.Atoi "9223372036854775807" = Except.ok limit ∧
      0 ≤ offset ∧
      offset < min (offset + limit) (Example.queryEnv.ListAllTradingPairs.length : Int) ∧
      min (offset + limit) (Example.queryEnv.ListAllTradingPairs.length : Int)
        ≤ (Example.queryEnv.ListAllTradingPairs.length : Int) ∧
      min (offset + limit) (Example.queryEnv.ListAllTradingPairs.length : Int) - offset
        ≤ limit ∧
      sliceExpr Example.queryEnv.ListAllTradingPairs offset
          (min (offset + limit) (Example.queryEnv.ListAllTradingPairs.length : Int))
        = some ((Example.queryEnv.ListAllTradingPairs.drop offset.toNat).take
            (min (offset + limit) (Example.queryEnv.ListAllTradingPairs.length : Int)
              - offset).toNat) ∧
      Example.queryEnv.MarshalPairs ((Example.queryEnv.ListAllTradingPairs.drop
          offset.toNat).take
          (min (offset + limit) (Example.queryEnv.ListAllTradingPairs.length : Int)
            - offset).toNat)
        = Except.ok bz ∧
      createAbciQueryHandler Example.queryEnv
        (abciQueryPrefix :: "pairs" :: "1" :: "9223372036854775807" :: [])
        = QueryOutcome.ret (some { Code := sdk.ABCICodeOK, Value := bz }))) :=
  ⟨by decide, pairs_query_slice_in_range Example.queryEnv "1" "9223372036854775807" []
    exampleAtoi_inRange (by decide)⟩

/-- C27: on the empty path the handler panics with an index out of range,
`path[0]` being read before the length of the path is compared with 2; on a
path of one segment it returns the nil response. -/
theorem createAbciQueryHandler_short_path {Pair Level : Type} (env : QueryEnv Pair Level) :
    createAbciQueryHandler env [] = QueryOutcome.panicked "index out of range" ∧
    ∀ segment : String, createAbciQueryHandler env [segment] = QueryOutcome.ret none := by
  refine ⟨rfl, fun segment => ?_⟩
  simp [createAbciQueryHandler]

end dex

namespace order

/-- C25: for every account and every new-order message checked by the
handler modelled from the spec: the amount to lock is price × quantity of
the quote asset for a buy and the quantity of the base asset for a sell; if
it exceeds the account's available balance of that asset, the order is
rejected with a code that is not OK and every available and locked balance
is unchanged; otherwise the order is accepted, the available balance of the
locked asset decreases by exactly the lock amount, its locked balance
increases by the same amount, and the balances of every other asset are
unchanged. -/
theorem handleNewOrder_locks (balances : Balances) (msg : NewOrderMsg) :
    (msg.Side = Side.BUY → msg.lock = (msg.QuoteAsset, msg.Price * msg.Quantity)) ∧
    (msg.Side = Side.SELL → msg.lock = (msg.BaseAsset, msg.Quantity)) ∧
    (msg.lock.2 > balances.Avail msg.lock.1 →
      (handleNewOrder balances msg).1.IsOK = false ∧
      (handleNewOrder balances msg).1.Code = sdk.CodeType.InsufficientFunds ∧
      ∀ a, (handleNewOrder balances msg).2.Avail a = balances.Avail a ∧
        (handleNewOrder balances msg).2.Locked a = balances.Locked a) ∧
    (¬ msg.lock.2 > balances.Avail msg.lock.1 →
      (handleNewOrder balances msg).1.IsOK = true ∧
      (handleNewOrder balances msg).2.Avail msg.lock.1
        = balances.Avail msg.lock.1 - msg.lock.2 ∧
      (handleNewOrder balances msg).2.Locked msg.lock.1
        = balances.Locked msg.lock.1 + msg.lock.2 ∧
      ∀ a, a ≠ msg.lock.1 → (handleNewOrder balances msg).2.Avail a = balances.Avail a ∧
        (handleNewOrder balances msg).2.Locked a = balances.Locked a) := by
  refine ⟨?_, ?_, ?_, ?_⟩
  · intro h
    unfold NewOrderMsg.lock
    rw [h]
  · intro h
    unfold NewOrderMsg.lock
    rw [h]
  · intro h
    unfold handleNewOrder
    dsimp only
    rw [if_pos h]
    exact ⟨rfl, rfl, fun _ => ⟨rfl, rfl⟩⟩
  · intro h
    unfold handleNewOrder
    dsimp only
    rw [if_neg h]
    refine ⟨rfl, ?_, ?_, ?_⟩
    · dsimp only
      rw [if_pos rfl]
    · dsimp only
      rw [if_pos rfl]
    · intro a ha
      dsimp only
      rw [if_neg ha, if_neg ha]
      exact ⟨rfl, rfl⟩

theorem handleNewOrder_locks_witness :
    ((handleNewOrder Example.balances Example.bigBuy).1.IsOK = false ∧
      (handleNewOrder Example.balances Example.bigBuy).1.Code
        = sdk.CodeType.InsufficientFunds ∧
      ∀ a, (handleNewOrder Example.balances Example.bigBuy).2.Avail a
          = Example.balances.Avail a ∧
        (handleNewOrder Example.balances Example.bigBuy).2.Locked a
          = Example.balances.Locked a) ∧
    ((handleNewOrder Example.balances Example.smallBuy).1.IsOK = true ∧
      (handleNewOrder Example.balances Example.smallBuy).2.Avail "BNB" = 145 ∧
      (handleNewOrder Example.balances Example.smallBuy).2.Locked "BNB" = 355 ∧
      ∀ a, a ≠ "BNB" →
        (handleNewOrder Example.balances Example.smallBuy).2.Avail a
          = Example.balances.Avail a ∧
        (handleNewOrder Example.balances Example.smallBuy).2.Locked a
          = Example.balances.Locked a) :=
  ⟨(handleNewOrder_locks Example.balances Example.bigBuy).2.2.1 (by decide),
   (handleNewOrder_locks Example.balances Example.smallBuy).2.2.2 (by decide)⟩

end order

end BinanceChain
